import Mathlib

/-!
TerraGear: the polygon chopper (`tgChopper`), the accumulator
(`tgAccumulator`), `Airport::merge_slivers` and `TGDem::write_area`.

A shallow embedding of `src/Lib/terragear/tg_chopper.cxx`,
`src/Lib/terragear/polygon_set/tg_polygon_set_io.cxx`,
`src/Airports/GenAirports850/airport.cxx` and `src/Lib/DEM/dem.cxx`.

* Doubles are idealised as rationals: every constant the chopper compares
  against (`89.0`, `0.0625`, `180.0`, ...) is exactly representable.
* The functions the chopper calls but which live outside the sources at hand
  (simgear's `SGBucket`, `tgPolygon::Intersect`, `GetBoundingBox`,
  `InheritElevations`) are fields of the record `Externals`; every theorem
  that does not say otherwise holds for all of them.
* What a theorem needs of them beyond that is stated as laws (`RowLaws`,
  `RegionLaws`, `CgalLaws`); the reference grid and clippers of namespace
  `Ref` and the raster library serve for witnesses and counterexamples.
* `exit` and `throw` are outcomes; recursion carries fuel.
* A ghost trace records each call of `Add` and `Clip` and each evaluation of
  the sanity ceiling, so that "calls `Clip` exactly once" can be stated.
-/

namespace TerraGear

/-! ## Data model -/

/-- Geodetic position, degrees. -/
structure SGGeod where
  lon : ℚ
  lat : ℚ
  elev : ℚ := 0
deriving DecidableEq, Repr

/-- The call `SGGeod::fromDeg(lon, lat)`: longitude first, elevation zero. -/
def SGGeod.fromDeg (lon lat : ℚ) : SGGeod := { lon := lon, lat := lat }

instance : Inhabited SGGeod := ⟨SGGeod.fromDeg 0 0⟩

/-- Half the height of a bucket, in degrees (`SG_HALF_BUCKET_SPAN`, 0.0625). -/
def SG_HALF_BUCKET_SPAN : ℚ := 1 / 16

/-- One ring of a polygon. -/
structure tgContour where
  nodes : List SGGeod
  hole : Bool := false
deriving DecidableEq, Repr

/-- Texturing methods; the chopper only tests for `TG_TEX_BY_GEODE`. -/
inductive tgTexMethod where
  | TG_TEX_BY_GEODE
  | TG_TEX_OTHER (code : Nat)
deriving DecidableEq, Repr

/-- The texture-parameter block of a polygon. The fields are those that
`tg_polygon_set_io.cxx` reads and writes (`tg_texmeth`, `tg_reflon`, ...,
`tg_clat` alias `tg_tp_center_lat`). -/
structure tgTexParams where
  ref : SGGeod := default
  width : ℚ := 0
  length : ℚ := 0
  heading : ℚ := 0
  minu : ℚ := 0
  maxu : ℚ := 0
  minv : ℚ := 0
  maxv : ℚ := 0
  min_clipu : ℚ := 0
  max_clipu : ℚ := 0
  min_clipv : ℚ := 0
  max_clipv : ℚ := 0
  method : tgTexMethod := tgTexMethod.TG_TEX_OTHER 0
  center_lat : ℚ := 0
deriving DecidableEq, Repr

/-- A polygon: rings, texture block, flag (the layer tag), 3-D flag. -/
structure tgPolygon where
  contours : List tgContour := []
  tp : tgTexParams := {}
  flag : String := ""
  preserve3d : Bool := false
deriving DecidableEq, Repr

namespace tgPolygon

/-- The method `Contours()`: number of rings. -/
def Contours (p : tgPolygon) : Nat := p.contours.length

/-- The method `TotalNodes()`: number of nodes over all rings. -/
def TotalNodes (p : tgPolygon) : Nat := (p.contours.map fun c => c.nodes.length).sum

/-- The call `AddNode(0, n)`: make sure ring 0 exists, then append `n` to it. -/
def AddNode0 (p : tgPolygon) (n : SGGeod) : tgPolygon :=
  match p.contours with
  | [] => { p with contours := [{ nodes := [n], hole := false }] }
  | c :: cs => { p with contours := { c with nodes := c.nodes ++ [n] } :: cs }

def GetPreserve3D (p : tgPolygon) : Bool := p.preserve3d
def SetPreserve3D (p : tgPolygon) (b : Bool) : tgPolygon := { p with preserve3d := b }
def GetTexParams (p : tgPolygon) : tgTexParams := p.tp
def SetTexParams (p : tgPolygon) (t : tgTexParams) : tgPolygon := { p with tp := t }
def GetTexMethod (p : tgPolygon) : tgTexMethod := p.tp.method

/-- The two-argument `SetTexMethod(m, cl)`: method and centre latitude. -/
def SetTexMethod (p : tgPolygon) (m : tgTexMethod) (cl : ℚ) : tgPolygon :=
  { p with tp := { p.tp with method := m, center_lat := cl } }

def SetFlag (p : tgPolygon) (f : String) : tgPolygon := { p with flag := f }

end tgPolygon

/-- Axis-aligned bounding box (`tgRectangle`). -/
structure tgRectangle where
  min : SGGeod
  max : SGGeod
deriving DecidableEq, Repr

/-- What the chopper uses but does not define: simgear's bucket grid over a
bucket type `B`, and the polygon operations of `tgPolygon`. -/
structure Externals (B : Type) where
  /-- The constructor `SGBucket(const SGGeod&)`. -/
  bucketOf : SGGeod → B
  /-- The constructor `SGBucket(long)`. -/
  bucketOfIndex : Int → B
  get_center : B → SGGeod
  get_width : B → ℚ
  gen_index : B → Int
  gen_base_path : B → String
  /-- The function `sgBucketDiff(b1, b2, &dx, &dy)`. -/
  sgBucketDiff : B → B → Int × Int
  /-- The function `sgBucketOffset(lon, lat, dx, dy)`. -/
  sgBucketOffset : ℚ → ℚ → Int → Int → B
  /-- The function `tgPolygon::Intersect(subject, clip)`. -/
  Intersect : tgPolygon → tgPolygon → tgPolygon
  /-- The method `result.InheritElevations(subject)`. -/
  InheritElevations : tgPolygon → tgPolygon → tgPolygon
  GetBoundingBox : tgPolygon → tgRectangle

namespace Externals
variable {B : Type}

def get_center_lat (E : Externals B) (b : B) : ℚ := (E.get_center b).lat
def get_center_lon (E : Externals B) (b : B) : ℚ := (E.get_center b).lon

end Externals

/-! ## The bucket → fragment-list map (`bp_map`, a `std::map`) -/

/-- Insertion into an association list kept in ascending key order: append
`p` to the list under `i`, creating the entry when `i` is absent. -/
def insertBack : List (Int × List tgPolygon) → Int → tgPolygon → List (Int × List tgPolygon)
  | [], i, p => [(i, [p])]
  | (k, v) :: rest, i, p =>
    if k = i then (k, v ++ [p]) :: rest
    else if i < k then (i, [p]) :: (k, v) :: rest
    else (k, v) :: insertBack rest i p

/-- Lookup in an association list; empty when the key is absent. -/
def lookup : List (Int × List tgPolygon) → Int → List tgPolygon
  | [], _ => []
  | (k, v) :: rest, i => if k = i then v else lookup rest i

theorem insertBack_keys (l : List (Int × List tgPolygon)) (i : Int) (p : tgPolygon)
    (x : Int × List tgPolygon) (hx : x ∈ insertBack l i p) :
    x.1 = i ∨ ∃ y ∈ l, y.1 = x.1 := by
  induction l with
  | nil => simp [insertBack] at hx; simp [hx]
  | cons a rest ih =>
    obtain ⟨k, v⟩ := a
    unfold insertBack at hx
    split_ifs at hx with h1 h2
    · rcases List.mem_cons.1 hx with h | h
      · subst h; exact Or.inl h1
      · exact Or.inr ⟨x, List.mem_cons_of_mem _ h, rfl⟩
    · rcases List.mem_cons.1 hx with h | h
      · subst h; exact Or.inl rfl
      · exact Or.inr ⟨x, h, rfl⟩
    · rcases List.mem_cons.1 hx with h | h
      · subst h; exact Or.inr ⟨(k, v), List.mem_cons_self _ _, rfl⟩
      · rcases ih h with h' | ⟨y, hy, hy'⟩
        · exact Or.inl h'
        · exact Or.inr ⟨y, List.mem_cons_of_mem _ hy, hy'⟩

theorem insertBack_sorted (l : List (Int × List tgPolygon)) (i : Int) (p : tgPolygon)
    (h : l.Pairwise fun a b => a.1 < b.1) :
    (insertBack l i p).Pairwise fun a b => a.1 < b.1 := by
  induction l with
  | nil => simp [insertBack]
  | cons a rest ih =>
    obtain ⟨k, v⟩ := a
    rw [List.pairwise_cons] at h
    unfold insertBack
    split_ifs with h1 h2
    · exact List.pairwise_cons.2 ⟨fun b hb => h.1 b hb, h.2⟩
    · refine List.pairwise_cons.2 ⟨?_, List.pairwise_cons.2 h⟩
      intro b hb
      rcases List.mem_cons.1 hb with hb | hb
      · subst hb; exact h2
      · exact lt_trans h2 (h.1 b hb)
    · refine List.pairwise_cons.2 ⟨?_, ih h.2⟩
      intro b hb
      rcases insertBack_keys rest i p b hb with hb' | ⟨y, hy, hy'⟩
      · show k < b.1
        rw [hb']
        exact lt_of_le_of_ne (not_lt.1 h2) h1
      · show k < b.1
        rw [← hy']
        exact h.1 y hy

theorem lookup_of_lt (l : List (Int × List tgPolygon)) (i : Int)
    (h : ∀ x ∈ l, i < x.1) : lookup l i = [] := by
  induction l with
  | nil => rfl
  | cons a rest ih =>
    obtain ⟨k, v⟩ := a
    have hk : i < k := h (k, v) (List.mem_cons_self _ _)
    have hne : ¬ k = i := fun e => by omega
    simp only [lookup, hne, if_false]
    exact ih fun x hx => h x (List.mem_cons_of_mem _ hx)

theorem lookup_insertBack (l : List (Int × List tgPolygon)) (i j : Int) (p : tgPolygon)
    (h : l.Pairwise fun a b => a.1 < b.1) :
    lookup (insertBack l i p) j = if j = i then lookup l j ++ [p] else lookup l j := by
  induction l with
  | nil =>
    by_cases hj : j = i
    · subst hj; simp [insertBack, lookup]
    · have : ¬ i = j := fun e => hj e.symm
      simp [insertBack, lookup, hj, this]
  | cons a rest ih =>
    obtain ⟨k, v⟩ := a
    rw [List.pairwise_cons] at h
    have ih' := ih h.2
    by_cases hj : j = i
    · subst hj
      simp only [if_true] at ih' ⊢
      by_cases h1 : k = j
      · simp [insertBack, lookup, h1]
      · by_cases h2 : j < k
        · have hrest : lookup rest j = [] :=
            lookup_of_lt rest j fun x hx => lt_trans h2 (h.1 x hx)
          simp [insertBack, lookup, h1, h2, hrest]
        · simp [insertBack, lookup, h1, h2, ih']
    · simp only [hj, if_false] at ih' ⊢
      have hij : ¬ i = j := fun e => hj e.symm
      by_cases h1 : k = i
      · have hkj : ¬ k = j := fun e => hj (by rw [← e, h1])
        simp [insertBack, lookup, h1, hkj, hij]
      · by_cases h2 : i < k
        · simp [insertBack, lookup, h1, h2, hij]
        · by_cases hk : k = j
          · subst hk
            simp [insertBack, lookup, h1, h2]
          · simp [insertBack, lookup, h1, h2, hk, ih']

/-- The member `bp_map`, a `std::map<long, tgpolygon_list>`: entries with
distinct keys, in ascending key order (the order in which `Save` walks it). -/
structure BpMap where
  entries : List (Int × List tgPolygon) := []
  sorted : entries.Pairwise (fun a b => a.1 < b.1) := by simp

namespace BpMap

theorem ext_entries {m₁ m₂ : BpMap} (h : m₁.entries = m₂.entries) : m₁ = m₂ := by
  cases m₁; cases m₂; cases h; rfl

instance : DecidableEq BpMap := fun m₁ m₂ =>
  if h : m₁.entries = m₂.entries then isTrue (ext_entries h)
  else isFalse fun e => h (by rw [e])

/-- The map with no entry. -/
def empty : BpMap := {}

/-- The list stored under a key; empty when the key is absent. -/
def get (m : BpMap) (i : Int) : List tgPolygon := lookup m.entries i

/-- The statement `bp_map[i].push_back(p)`: `operator[]` creates an empty
list under an absent key, then `p` goes to the back. -/
def pushBack (m : BpMap) (i : Int) (p : tgPolygon) : BpMap :=
  { entries := insertBack m.entries i p, sorted := insertBack_sorted _ _ _ m.sorted }

theorem get_pushBack (m : BpMap) (i j : Int) (p : tgPolygon) :
    (m.pushBack i p).get j = if j = i then m.get j ++ [p] else m.get j :=
  lookup_insertBack m.entries i j p m.sorted

end BpMap

/-! ## Outcomes, ghost trace, chopper state -/

/-- How a call ends. -/
inductive Outcome (σ : Type) where
  /-- Normal return. -/
  | returned (s : σ)
  /-- An `sg_exception` was thrown. -/
  | raised (s : σ) (msg : String)
  /-- The process ended through `exit(code)`. -/
  | exited (s : σ) (code : Int)
  /-- The model ran out of fuel. -/
  | outOfFuel
deriving Repr

namespace Outcome

/-- The state a call leaves behind, if it ended at all. -/
def state? {σ : Type} : Outcome σ → Option σ
  | returned s => some s
  | raised s _ => some s
  | exited s _ => some s
  | outOfFuel => none

/-- The state a call returns with, if it returned normally. -/
def returned? {σ : Type} : Outcome σ → Option σ
  | returned s => some s
  | _ => none

end Outcome

/-- Ghost events. -/
inductive Event (B : Type) where
  /-- Entry of `Add(subject, type)`. -/
  | add (subject : tgPolygon) (type : String)
  /-- Entry of `Clip(subject, type, b)`. -/
  | clip (subject : tgPolygon) (type : String) (b : B)
  /-- Evaluation of `(dx > 2880) || (dy > 1440)`. -/
  | sanity (dx dy : Int)

/-- The state of a `tgChopper`: its members `root_path` and `bp_map`, and
the ghost trace (oldest event first). -/
structure Chopper (B : Type) where
  root_path : String
  bp_map : BpMap := {}
  trace : List (Event B) := []

namespace Chopper
variable {B : Type}

def note (st : Chopper B) (e : Event B) : Chopper B := { st with trace := st.trace ++ [e] }

end Chopper

namespace tgChopper
variable {B : Type}

/-! ## `tgChopper::Clip` -/

/-- The corners `min`, `max` that `Clip` computes from the bucket centre `c`
and width `span` (lines 23-35). In the last branch both stay
default-constructed. -/
def clipCorners (c : SGGeod) (span : ℚ) : SGGeod × SGGeod :=
  if c.lat ≥ -89 ∧ c.lat < 89 then
    (SGGeod.fromDeg (c.lon - span / 2) (c.lat - SG_HALF_BUCKET_SPAN),
     SGGeod.fromDeg (c.lon + span / 2) (c.lat + SG_HALF_BUCKET_SPAN))
  else if c.lat < -89 then
    (SGGeod.fromDeg (-90) (-180), SGGeod.fromDeg (-89) 180)
  else if c.lat ≥ 89 then
    (SGGeod.fromDeg 89 (-180), SGGeod.fromDeg 90 180)
  else
    (default, default)

/-- The four-node ring the chopper builds from two corners (lines 40-43,
and in the same node order lines 157-160 and 181-184). -/
def rectPoly (min max : SGGeod) : tgPolygon :=
  ((((({} : tgPolygon).AddNode0 (SGGeod.fromDeg min.lon min.lat)).AddNode0
    (SGGeod.fromDeg max.lon min.lat)).AddNode0
    (SGGeod.fromDeg max.lon max.lat)).AddNode0
    (SGGeod.fromDeg min.lon max.lat))

/-- The clipping tile `base` of `Clip` for bucket `b`. -/
def clipBase (E : Externals B) (b : B) : tgPolygon :=
  let mm := clipCorners (E.get_center b) (E.get_width b)
  rectPoly mm.1 mm.2

/-- The polygon `result` of `Clip` just before the test `Contours() > 0`. -/
def clipResult (E : Externals B) (subject : tgPolygon) (b : B) : tgPolygon :=
  let result := E.Intersect subject (clipBase E b)
  if subject.GetPreserve3D then E.InheritElevations result subject else result

/-- The fragment `Clip` stores when `result` has contours (lines 62-68). -/
def fragment (E : Externals B) (subject : tgPolygon) (type : String) (b : B) : tgPolygon :=
  let result := clipResult E subject b
  let result := result.SetPreserve3D subject.GetPreserve3D
  let result := result.SetTexParams subject.GetTexParams
  let result :=
    if subject.GetTexMethod = tgTexMethod.TG_TEX_BY_GEODE then
      result.SetTexMethod tgTexMethod.TG_TEX_BY_GEODE (E.get_center_lat b)
    else result
  result.SetFlag type

/-- The method `tgChopper::Clip(subject, type, b)`. -/
def Clip (E : Externals B) (subject : tgPolygon) (type : String) (b : B)
    (st : Chopper B) : Chopper B :=
  let st := st.note (Event.clip subject type b)
  if (clipResult E subject b).Contours > 0 then
    { st with bp_map := st.bp_map.pushBack (E.gen_index b) (fragment E subject type b) }
  else st

/-! ## `tgChopper::Add` -/

/-- The loop `for i in 0..dx` of the leaf fan-out, for one row `j`. -/
def clipRow (E : Externals B) (subject : tgPolygon) (type : String)
    (lon lat : ℚ) (dx j : Int) (st : Chopper B) : Chopper B :=
  (List.range (dx + 1).toNat).foldl
    (fun s (i : Nat) => Clip E subject type (E.sgBucketOffset lon lat (i : Int) j) s) st

/-- The nested loops `for j in 0..dy, for i in 0..dx` (lines 117-122). -/
def clipGrid (E : Externals B) (subject : tgPolygon) (type : String)
    (lon lat : ℚ) (dx dy : Int) (st : Chopper B) : Chopper B :=
  (List.range (dy + 1).toNat).foldl
    (fun s (j : Nat) => clipRow E subject type lon lat dx (j : Int) s) st

/-- The horizontal clip line computed from the centre latitude of `b_clip`
(lines 134-144). -/
def clipLine (center_lat : ℚ) : ℚ :=
  if center_lat ≥ -90 + SG_HALF_BUCKET_SPAN ∧ center_lat < 90 - SG_HALF_BUCKET_SPAN then
    center_lat + SG_HALF_BUCKET_SPAN
  else if center_lat < -89 then -89
  else if center_lat ≥ 89 then 90
  else center_lat

/-- The split row `mid = (dy + 1) / 2 - 1` in C++ integer arithmetic. -/
def midRow (dy : Int) : Int := (dy + 1).tdiv 2 - 1

/-- The half-plane `bottom` (lines 157-160). -/
def bottomPoly (bb : tgRectangle) (clip_line : ℚ) : tgPolygon :=
  rectPoly (SGGeod.fromDeg (-180) bb.min.lat) (SGGeod.fromDeg 180 clip_line)

/-- The half-plane `top` (lines 181-184). -/
def topPoly (bb : tgRectangle) (clip_line : ℚ) : tgPolygon :=
  rectPoly (SGGeod.fromDeg (-180) clip_line) (SGGeod.fromDeg 180 bb.max.lat)

/-- The message of the exception thrown at the sanity ceiling. -/
def sanityMsg : String := "something is really wrong in split_polygon()!!!!"

/-- The bucket `b_min` of the bounding box's min corner (line 92). -/
def cornerMin (E : Externals B) (subject : tgPolygon) : B :=
  E.bucketOf (E.GetBoundingBox subject).min

/-- The bucket `b_max` of the bounding box's max corner (line 93). -/
def cornerMax (E : Externals B) (subject : tgPolygon) : B :=
  E.bucketOf (E.GetBoundingBox subject).max

/-- The pair `(dx, dy)` that `sgBucketDiff(b_min, b_max, &dx, &dy)` yields
(line 106). -/
def gridSpan (E : Externals B) (subject : tgPolygon) : Int × Int :=
  E.sgBucketDiff (cornerMin E subject) (cornerMax E subject)

/-- The value of `clip_line` after lines 130-144. -/
def splitLine (E : Externals B) (subject : tgPolygon) : ℚ :=
  let bb := E.GetBoundingBox subject
  let mid := midRow (gridSpan E subject).2
  let b_clip := E.sgBucketOffset bb.min.lon bb.min.lat 0 mid
  clipLine (E.get_center_lat b_clip)

/-- The polygon `bottom_clip` (line 162). -/
def bottomClip (E : Externals B) (subject : tgPolygon) : tgPolygon :=
  E.Intersect subject (bottomPoly (E.GetBoundingBox subject) (splitLine E subject))

/-- The polygon `top_clip` (line 186). -/
def topClip (E : Externals B) (subject : tgPolygon) : tgPolygon :=
  E.Intersect subject (topPoly (E.GetBoundingBox subject) (splitLine E subject))

/-- The leaf fan-out of lines 113-124 on state `st`. -/
def leafClips (E : Externals B) (subject : tgPolygon) (type : String)
    (st : Chopper B) : Chopper B :=
  let b_min := cornerMin E subject
  clipGrid E subject type (E.get_center_lon b_min) (E.get_center_lat b_min)
    (gridSpan E subject).1 (gridSpan E subject).2 st

/-- The method `tgChopper::Add(subject, type)`; `fuel` bounds the recursion
depth. -/
def Add (E : Externals B) [DecidableEq B] :
    Nat → tgPolygon → String → Chopper B → Outcome (Chopper B)
  | 0, _, _, _ => Outcome.outOfFuel
  | fuel + 1, subject, type, st0 =>
    let st := st0.note (Event.add subject type)
    if subject.Contours = 0 then Outcome.returned st
    else if cornerMin E subject = cornerMax E subject then
      Outcome.returned (Clip E subject type (cornerMin E subject) st)
    else
      let dx := (gridSpan E subject).1
      let dy := (gridSpan E subject).2
      let st := st.note (Event.sanity dx dy)
      if dx > 2880 ∨ dy > 1440 then Outcome.raised st sanityMsg
      else if dy ≤ 1 then Outcome.returned (leafClips E subject type st)
      else
        match Add E fuel (bottomClip E subject) type st with
        | Outcome.returned st1 =>
          if (topClip E subject).TotalNodes = subject.TotalNodes then Outcome.exited st1 0
          else Add E fuel (topClip E subject) type st1
        | other => other

/-- The state in which `Add` evaluates the sanity ceiling: the entry state
with the two ghost events of this call. -/
def checked (E : Externals B) (subject : tgPolygon) (type : String) (st : Chopper B) :
    Chopper B :=
  (st.note (Event.add subject type)).note
    (Event.sanity (gridSpan E subject).1 (gridSpan E subject).2)

/-- The buckets of row `j` of the fan-out, in the order the inner loop
visits them. -/
def rowCells (E : Externals B) (lon lat : ℚ) (dx j : Int) : List B :=
  (List.range (dx + 1).toNat).map fun (i : Nat) => E.sgBucketOffset lon lat (i : Int) j

/-- The buckets of the fan-out, row by row. -/
def gridCells (E : Externals B) (lon lat : ℚ) (dx dy : Int) : List B :=
  (List.range (dy + 1).toNat).flatMap fun (j : Nat) => rowCells E lon lat dx (j : Int)

/-- The buckets the leaf fan-out of `Add` visits for `subject`, in order. -/
def leafCells (E : Externals B) (subject : tgPolygon) : List B :=
  gridCells E (E.get_center_lon (cornerMin E subject)) (E.get_center_lat (cornerMin E subject))
    (gridSpan E subject).1 (gridSpan E subject).2

/-- `Clip` against each bucket of a list in turn. -/
def clipAll (E : Externals B) (subject : tgPolygon) (type : String) (cells : List B)
    (st : Chopper B) : Chopper B :=
  cells.foldl (fun s b => Clip E subject type b s) st

/-- Whether clipping `subject` against bucket `b` stores a fragment under
key `k`: the intersection has a contour and `k` is the index of `b`. -/
def storesAt (E : Externals B) (subject : tgPolygon) (k : Int) (b : B) : Bool :=
  decide ((clipResult E subject b).Contours > 0 ∧ E.gen_index b = k)

/-- The fragments that clipping `subject` against `cells` appends under
key `k`, in order. -/
def fragmentsAt (E : Externals B) (subject : tgPolygon) (type : String) (cells : List B)
    (k : Int) : List tgPolygon :=
  (cells.filter (storesAt E subject k)).map (fragment E subject type)

/-! ## `tgChopper::GenerateIndex` and `tgChopper::Save` -/

/-- Contents of a counter file `chop.idx`. -/
inductive IndexFile where
  /-- No such file: `fopen(..., "r+")` fails. -/
  | absent
  /-- The file exists but `fread` gets no whole `long` out of it. -/
  | empty
  /-- The file exists and starts with the `long` value `v`. -/
  | holds (v : Int)
deriving DecidableEq, Repr

def LONG_MAX : Int := 2 ^ 63 - 1
def LONG_MIN : Int := -(2 ^ 63)

/-- The statement `index++` on a 64-bit `long` (two's complement). -/
def incrLong (v : Int) : Int := if v = LONG_MAX then LONG_MIN else v + 1

/-- What `Save` puts into a polygon file, in order. -/
inductive Item where
  /-- The call `sgWriteUInt(fp, n)`. -/
  | uint (n : Nat)
  /-- The call `poly.SaveToGzFile(fp)`. -/
  | poly (p : tgPolygon)
deriving DecidableEq, Repr

/-- The file system as the chopper sees it. -/
structure FileSys where
  /-- Counter files, by full name. -/
  index : String → IndexFile
  /-- Whether `fopen(name, "w")` succeeds on a missing counter file. -/
  creatable : String → Bool
  /-- Whether `gzopen(name, "wb9")` succeeds. -/
  writable : String → Bool
  /-- Polygon files written, oldest first. -/
  written : List (String × List Item) := []
  /-- Arguments of `create_dir`, oldest first. -/
  dirs : List String := []
  /-- Ghost: the completed calls of `GenerateIndex` (argument, result). -/
  issued : List (String × Int) := []

/-- The tail of `GenerateIndex` from `index++` on, `read` being the value of
`index` before it (lines 224-233). -/
def bumpIndex (path : String) (read : Int) (fs : FileSys) : Outcome (Int × FileSys) :=
  let index := incrLong read
  Outcome.returned (index,
    { fs with
      index := Function.update fs.index (path ++ "/chop.idx") (IndexFile.holds index)
      issued := fs.issued ++ [(path, index)] })

/-- The method `tgChopper::GenerateIndex(path)`, one process at a time. -/
def GenerateIndex (path : String) (fs : FileSys) : Outcome (Int × FileSys) :=
  let index_file := path ++ "/chop.idx"
  match fs.index index_file with
  | IndexFile.absent =>
    if fs.creatable index_file then bumpIndex path 0 fs
    else Outcome.exited (0, fs) 0
  | IndexFile.empty => bumpIndex path 0 fs
  | IndexFile.holds v => bumpIndex path v fs

/-- The body `Save` writes for one bucket (lines 267-270). -/
def fileBody (polys : List tgPolygon) : List Item :=
  Item.uint polys.length :: polys.map Item.poly

/-- The directory `path` of a bucket's files (line 247). -/
def tileDir (E : Externals B) (root_path : String) (k : Int) : String :=
  root_path ++ "/" ++ E.gen_base_path (E.bucketOfIndex k)

/-- The name of a bucket's file with sequence number `seq` (lines 248-258). -/
def polyFile (E : Externals B) (root_path : String) (k : Int) (seq : Int) : String :=
  tileDir E root_path k ++ "/" ++ toString (E.gen_index (E.bucketOfIndex k)) ++ "." ++
    toString seq

/-- The loop of `Save` over the entries of `bp_map` (lines 243-273). -/
def saveEntries (E : Externals B) (root_path : String) :
    List (Int × List tgPolygon) → FileSys → Outcome FileSys
  | [], fs => Outcome.returned fs
  | (k, polys) :: rest, fs =>
    let path := tileDir E root_path k
    let polyfile := path ++ "/" ++ toString (E.gen_index (E.bucketOfIndex k))
    let fs := { fs with dirs := fs.dirs ++ [polyfile] }
    match GenerateIndex path fs with
    | Outcome.returned (poly_index, fs) =>
      let polyfile := polyfile ++ "." ++ toString poly_index
      if fs.writable polyfile then
        saveEntries E root_path rest
          { fs with written := fs.written ++ [(polyfile, fileBody polys)] }
      else Outcome.returned fs
    | Outcome.raised (_, fs) msg => Outcome.raised fs msg
    | Outcome.exited (_, fs) code => Outcome.exited fs code
    | Outcome.outOfFuel => Outcome.outOfFuel

/-- The method `tgChopper::Save()`. -/
def Save (E : Externals B) (st : Chopper B) (fs : FileSys) : Outcome (Chopper B × FileSys) :=
  match saveEntries E st.root_path st.bp_map.entries fs with
  | Outcome.returned fs => Outcome.returned (st, fs)
  | Outcome.raised fs msg => Outcome.raised (st, fs) msg
  | Outcome.exited fs code => Outcome.exited (st, fs) code
  | Outcome.outOfFuel => Outcome.outOfFuel

/-- The value `fread` leaves in `index`: the stored value, or the initial 0
when there is no counter file or it is empty. -/
def counterValue (fs : FileSys) (path : String) : Int :=
  match fs.index (path ++ "/chop.idx") with
  | IndexFile.holds v => v
  | _ => 0

/-- The results of `n` calls `GenerateIndex(path)` made one after another,
oldest first, and the file system they leave; a call that exits ends the
run. -/
def GenerateIndexTimes (path : String) : Nat → FileSys → Outcome (List Int × FileSys)
  | 0, fs => Outcome.returned ([], fs)
  | n + 1, fs =>
    match GenerateIndex path fs with
    | Outcome.returned (q, fs1) =>
      match GenerateIndexTimes path n fs1 with
      | Outcome.returned (qs, fs2) => Outcome.returned (q :: qs, fs2)
      | Outcome.raised (qs, fs2) msg => Outcome.raised (q :: qs, fs2) msg
      | Outcome.exited (qs, fs2) code => Outcome.exited (q :: qs, fs2) code
      | Outcome.outOfFuel => Outcome.outOfFuel
    | Outcome.raised (_, fs1) msg => Outcome.raised ([], fs1) msg
    | Outcome.exited (_, fs1) code => Outcome.exited ([], fs1) code
    | Outcome.outOfFuel => Outcome.outOfFuel

end tgChopper

/-! ## A reference grid and clipper

Concrete stand-ins for the externals, used to run the chopper on explicit
inputs. -/

namespace Ref
open tgChopper

/-- Modelled from the spec: the width bands of BucketGrid ("cell width in
longitude shrinks stepwise as latitude magnitude increases ..., except near
the poles (|lat| ≥ 89°) where one cell spans the full longitude range");
simgear's `sg_bucket_span` is not among the sources, the band limits are its
published ones. -/
def sg_bucket_span (lat : ℚ) : ℚ :=
  if lat ≥ 89 then 360
  else if lat ≥ 88 then 8
  else if lat ≥ 86 then 4
  else if lat ≥ 83 then 2
  else if lat ≥ 76 then 1
  else if lat ≥ 62 then 1 / 2
  else if lat ≥ 22 then 1 / 4
  else if lat ≥ -22 then 1 / 8
  else if lat ≥ -62 then 1 / 4
  else if lat ≥ -76 then 1 / 2
  else if lat ≥ -83 then 1
  else if lat ≥ -86 then 2
  else if lat ≥ -88 then 4
  else if lat ≥ -89 then 8
  else 360

/-- Modelled from the spec: a Bucket of BucketGrid, as the row (eighths of a
degree of latitude) and column (cell widths east of Greenwich) of the cell;
simgear's `SGBucket` is not among the sources. -/
structure SGBucket where
  row : Int
  col : Int
deriving DecidableEq, Repr

/-- Modelled from the spec: `bucketFor(point)`; rows are 1/8° high, a point
on a cell boundary belongs to the cell north and east of it, and each polar
band is one cell. -/
def bucketOf (p : SGGeod) : SGBucket :=
  if p.lat ≥ 89 then { row := 712, col := 0 }
  else if p.lat < -89 then { row := -720, col := 0 }
  else { row := ⌊8 * p.lat⌋, col := ⌊p.lon / sg_bucket_span p.lat⌋ }

/-- Modelled from the spec: the centre of a Bucket. -/
def get_center (b : SGBucket) : SGGeod :=
  if b.row ≥ 712 then SGGeod.fromDeg 0 (179 / 2)
  else if b.row < -712 then SGGeod.fromDeg 0 (-179 / 2)
  else
    let lat : ℚ := (b.row : ℚ) / 8 + 1 / 16
    let w := sg_bucket_span lat
    SGGeod.fromDeg ((b.col : ℚ) * w + w / 2) lat

/-- Modelled from the spec: the latitude-dependent width of a Bucket. -/
def get_width (b : SGBucket) : ℚ := sg_bucket_span (get_center b).lat

/-- Modelled from the spec: the integer identifier of a Bucket. -/
def gen_index (b : SGBucket) : Int := (b.row + 720) * 4096 + (b.col + 2048)

/-- Modelled from the spec: the Bucket of an identifier. -/
def bucketOfIndex (i : Int) : SGBucket := { row := i / 4096 - 720, col := i % 4096 - 2048 }

/-- Modelled from the spec: the "deterministic directory path derived from
the Bucket id": a 10° block, then a 1° block. -/
def gen_base_path (b : SGBucket) : String :=
  let c := get_center b
  "lon" ++ toString (⌊c.lon / 10⌋ * 10) ++ "lat" ++ toString (⌊c.lat / 10⌋ * 10) ++ "/" ++
    "lon" ++ toString ⌊c.lon⌋ ++ "lat" ++ toString ⌊c.lat⌋

/-- Modelled from the spec: `diff(b1, b2) -> (dx, dy)`, the distance in
cells, columns counted in the narrower of the two widths. -/
def sgBucketDiff (b1 b2 : SGBucket) : Int × Int :=
  let c1 := get_center b1
  let c2 := get_center b2
  let dy := round ((c2.lat - c1.lat) * 8)
  let span := min (get_width b1) (get_width b2)
  let adj := get_width b1 / 2 + get_width b2 / 2 - span
  let diff_lon := c2.lon - c1.lon
  let diff_lon := if diff_lon < 0 then diff_lon - adj else diff_lon + adj
  (round (diff_lon / span), dy)

/-- Modelled from the spec: `offset(bucket, dx, dy)`, given as simgear does
by a point of the starting cell. -/
def sgBucketOffset (lon lat : ℚ) (dx dy : Int) : SGBucket :=
  let clat := (get_center (bucketOf (SGGeod.fromDeg lon lat))).lat + (dy : ℚ) / 8
  let span := sg_bucket_span clat
  let tmp := lon + (dx : ℚ) * span
  let tmp := tmp - 360 * (⌊(tmp + 180) / 360⌋ : ℚ)
  bucketOf (SGGeod.fromDeg tmp clat)

/-- One pass of Sutherland-Hodgman: keep the part of a ring on the side
`keep`, `cut a b` being where the edge from `a` to `b` meets the border. -/
def clipEdge (keep : SGGeod → Bool) (cut : SGGeod → SGGeod → SGGeod)
    (ring : List SGGeod) : List SGGeod :=
  match ring.getLast? with
  | none => []
  | some last =>
    (ring.foldl (fun (acc : List SGGeod × SGGeod) cur =>
      let prev := acc.2
      let out :=
        if keep cur then
          if keep prev then acc.1 ++ [cur] else acc.1 ++ [cut prev cur, cur]
        else
          if keep prev then acc.1 ++ [cut prev cur] else acc.1
      (out, cur)) ([], last)).1

/-- Where the segment `a b` meets the meridian `lon = x`. -/
def cutLon (x : ℚ) (a b : SGGeod) : SGGeod :=
  SGGeod.fromDeg x (a.lat + (b.lat - a.lat) * (x - a.lon) / (b.lon - a.lon))

/-- Where the segment `a b` meets the parallel `lat = y`. -/
def cutLat (y : ℚ) (a b : SGGeod) : SGGeod :=
  SGGeod.fromDeg (a.lon + (b.lon - a.lon) * (y - a.lat) / (b.lat - a.lat)) y

/-- Twice the signed area of a ring (shoelace formula), degrees squared. -/
def area2 (ring : List SGGeod) : ℚ :=
  match ring.getLast? with
  | none => 0
  | some last =>
    (ring.foldl (fun (acc : ℚ × SGGeod) cur =>
      (acc.1 + (acc.2.lon * cur.lat - cur.lon * acc.2.lat), cur)) (0, last)).1

/-- The area of a polygon: rings counted with their absolute area, holes
negative. -/
def area (p : tgPolygon) : ℚ :=
  (p.contours.map fun c => (if c.hole then -1 else 1) * |area2 c.nodes| / 2).sum

/-- The smallest and largest longitude and latitude among the nodes. -/
def GetBoundingBox (p : tgPolygon) : tgRectangle :=
  match p.contours.flatMap (fun c => c.nodes) with
  | [] => { min := default, max := default }
  | n :: ns =>
    { min := SGGeod.fromDeg (ns.foldl (fun m q => min m q.lon) n.lon)
        (ns.foldl (fun m q => min m q.lat) n.lat)
      max := SGGeod.fromDeg (ns.foldl (fun m q => max m q.lon) n.lon)
        (ns.foldl (fun m q => max m q.lat) n.lat) }

/-- A ring clipped to the rectangle with corners `lo`, `hi`. -/
def clipRing (lo hi : SGGeod) (ring : List SGGeod) : List SGGeod :=
  let r := clipEdge (fun q => decide (lo.lon ≤ q.lon)) (cutLon lo.lon) ring
  let r := clipEdge (fun q => decide (q.lon ≤ hi.lon)) (cutLon hi.lon) r
  let r := clipEdge (fun q => decide (lo.lat ≤ q.lat)) (cutLat lo.lat) r
  clipEdge (fun q => decide (q.lat ≤ hi.lat)) (cutLat hi.lat) r

/-- Modelled from the spec: `tgPolygon::Intersect(subject, clip)` for the
clip shapes the chopper builds, axis-aligned rectangles ("intersects the
polygon against the bucket's exact rectangle"); `tg_polygon_clip.cxx` is not
among the sources. Each ring is clipped to the rectangle, rings left without
area are dropped, and the subject's attributes are kept. -/
def Intersect (subject clip : tgPolygon) : tgPolygon :=
  let bb := GetBoundingBox clip
  { subject with
    contours := (subject.contours.map fun c =>
      ({ c with nodes := clipRing bb.min bb.max c.nodes } : tgContour)).filter
        fun c => decide (area2 c.nodes ≠ 0) }

/-- Modelled from the spec: `InheritElevations`: a node of the result that
is a node of the subject takes its elevation. -/
def InheritElevations (result subject : tgPolygon) : tgPolygon :=
  let known := subject.contours.flatMap (fun c => c.nodes)
  { result with
    contours := result.contours.map fun c =>
      ({ c with nodes := c.nodes.map fun q =>
          match known.find? (fun k => decide (k.lon = q.lon ∧ k.lat = q.lat)) with
          | some k => { q with elev := k.elev }
          | none => q } : tgContour) }

/-- The reference externals. -/
def externals : Externals SGBucket where
  bucketOf := bucketOf
  bucketOfIndex := bucketOfIndex
  get_center := get_center
  get_width := get_width
  gen_index := gen_index
  gen_base_path := gen_base_path
  sgBucketDiff := sgBucketDiff
  sgBucketOffset := sgBucketOffset
  Intersect := Intersect
  InheritElevations := InheritElevations
  GetBoundingBox := GetBoundingBox

/-- A polygon of one ring through the given `(lon, lat)` pairs. -/
def ring (pts : List (ℚ × ℚ)) : tgPolygon :=
  { contours := [{ nodes := pts.map fun q => SGGeod.fromDeg q.1 q.2 }] }

/-- A square well inside the bucket whose south-west corner is (0°, 0°). -/
def smallSquare : tgPolygon :=
  ring [(1 / 100, 1 / 100), (1 / 10, 1 / 100), (1 / 10, 1 / 10), (1 / 100, 1 / 10)]

/-- A sliver along the equator that is 400° of longitude long. -/
def overlong : tgPolygon := ring [(-200, 0), (200, 0), (200, 1 / 100)]

/-- The small square, textured by geodetic coordinates, centre latitude 0. -/
def geodeSquare : tgPolygon :=
  { smallSquare with tp := { method := tgTexMethod.TG_TEX_BY_GEODE, center_lat := 0 } }

/-- The bucket whose south-west corner is (0°, 0°). -/
def originBucket : SGBucket := { row := 0, col := 0 }

/-- A chopper holding one fragment in each of two neighbouring buckets. -/
def twoTiles : Chopper SGBucket :=
  { root_path := "work"
    bp_map := (BpMap.empty.pushBack 2951168 smallSquare).pushBack 2951169 smallSquare }

/-- A triangle near the north pole: longitudes 0° to 1°, latitudes 89.5° to
89.7°. -/
def polarTriangle : tgPolygon := ring [(0, 179 / 2), (1, 179 / 2), (0, 897 / 10)]

/-- A right triangle in the corner at (0.01°, 0.01°) with legs of 0.19°. -/
def cornerTriangle : tgPolygon := ring [(1 / 100, 1 / 100), (1 / 5, 1 / 100), (1 / 100, 1 / 5)]

/-- The bucket whose south-west corner is (0.125°, 0.125°). -/
def farBucket : SGBucket := { row := 1, col := 1 }

/-- A chopper that has stored nothing yet. -/
def fresh : Chopper SGBucket := { root_path := "work" }

/-- A file system with no counter file yet, in which every open succeeds. -/
def disk : FileSys :=
  { index := fun _ => IndexFile.absent, creatable := fun _ => true, writable := fun _ => true }

/-- A file system in which no polygon file can be opened for writing. -/
def lockedDisk : FileSys :=
  { index := fun _ => IndexFile.absent, creatable := fun _ => true, writable := fun _ => false }

/-- A file system in which no counter file exists or can be created. -/
def sealedDisk : FileSys :=
  { index := fun _ => IndexFile.absent, creatable := fun _ => false, writable := fun _ => true }

/-- A file system whose counter files all hold `LONG_MAX`. -/
def maxedDisk : FileSys :=
  { index := fun _ => IndexFile.holds LONG_MAX, creatable := fun _ => true,
    writable := fun _ => true }

/-- A triangle standing on its tip at (0.01°, 0.01°), its top edge at
latitude 0.4°: the bounding box spans four rows of buckets. -/
def tallTriangle : tgPolygon := ring [(1 / 100, 1 / 100), (1 / 10, 2 / 5), (1 / 100, 2 / 5)]

/-- A rectangle from (0.01°, 0.01°) to (0.1°, 0.3°): three rows of buckets. -/
def tallRectangle : tgPolygon :=
  ring [(1 / 100, 1 / 100), (1 / 10, 1 / 100), (1 / 10, 3 / 10), (1 / 100, 3 / 10)]

/-- The bucket of the northern polar band. -/
def northCap : SGBucket := { row := 712, col := 0 }

/-- The bucket of the southern polar band. -/
def southCap : SGBucket := { row := -720, col := 0 }

/-- Whether a node lies in a rectangle, borders included. -/
def inside (bb : tgRectangle) (q : SGGeod) : Bool :=
  decide (bb.min.lon ≤ q.lon ∧ q.lon ≤ bb.max.lon ∧ bb.min.lat ≤ q.lat ∧ q.lat ≤ bb.max.lat)

/-- A clipper for polygons read as clouds of nodes: of every ring the nodes
inside the rectangle are kept, rings left without a node are dropped. -/
def keepNodes (subject clip : tgPolygon) : tgPolygon :=
  let bb := GetBoundingBox clip
  { subject with
    contours := (subject.contours.map fun c =>
      ({ c with nodes := c.nodes.filter (inside bb) } : tgContour)).filter
        fun c => decide (c.nodes ≠ []) }

/-- The reference grid with the clipper for clouds of nodes. -/
def cloud : Externals SGBucket := { externals with Intersect := keepNodes }

/-- The region of a polygon read as a cloud of nodes: the positions of its
nodes. -/
def nodeSet (p : tgPolygon) : Set (ℚ × ℚ) :=
  {x | ∃ c ∈ p.contours, ∃ q ∈ c.nodes, x = (q.lon, q.lat)}

/-- The region of the rectangle with corners `lo` and `hi`: the positions
inside it. -/
def boxSet (lo hi : SGGeod) : Set (ℚ × ℚ) :=
  {x | ∃ q : SGGeod, x = (q.lon, q.lat) ∧ inside (GetBoundingBox (rectPoly lo hi)) q = true}

end Ref

/-! ## `Airport::merge_slivers` (`airport.cxx`) -/

/-- A point of the older geometry classes. -/
structure Point3D where
  x : ℚ
  y : ℚ
  z : ℚ
deriving DecidableEq, Repr

/-- The older polygon class `TGPolygon`: contours and their hole flags. -/
structure TGPolygon where
  poly : List (List Point3D) := []
  hole_list : List Int := []
deriving DecidableEq, Repr

namespace TGPolygon

/-- The method `contours()`. -/
def contours (p : TGPolygon) : Nat := p.poly.length

/-- The method `erase()`. -/
def erase (_ : TGPolygon) : TGPolygon := {}

/-- The method `add_contour(contour, hole_flag)`. -/
def add_contour (p : TGPolygon) (contour : List Point3D) (hole_flag : Int) : TGPolygon :=
  { poly := p.poly ++ [contour], hole_list := p.hole_list ++ [hole_flag] }

end TGPolygon

/-- A candidate of `merge_slivers`: a `TGSuperPoly`, of which the function
reads and writes the polygon only. -/
structure TGSuperPoly where
  poly : TGPolygon
  material : String := ""
  flag : String := ""
deriving DecidableEq, Repr

namespace TGSuperPoly

def get_poly (sp : TGSuperPoly) : TGPolygon := sp.poly
def set_poly (sp : TGSuperPoly) (p : TGPolygon) : TGSuperPoly := { sp with poly := p }

end TGSuperPoly

namespace Airport

/-- The sliver polygon made of one contour (lines 493-495). -/
def sliverOf (contour : List Point3D) : TGPolygon :=
  (TGPolygon.erase {}).add_contour contour 0

/-- The loop over `k` (lines 498-509) on the candidates from `k` on: the
candidates afterwards and the final value of `done`. `union` is
`tgPolygonUnionClipper`. -/
def tryMerge (union : TGPolygon → TGPolygon → TGPolygon) (sliver : TGPolygon) :
    List TGSuperPoly → List TGSuperPoly × Bool
  | [] => ([], false)
  | sp :: rest =>
    let poly := sp.get_poly
    let original_contours := poly.contours
    let result := union poly sliver
    let result_contours := result.contours
    if original_contours = result_contours then (sp.set_poly result :: rest, true)
    else
      let r := tryMerge union sliver rest
      (sp :: r.1, r.2)

/-- The loop over the contours `j` of one entry of `slivers_list`. -/
def mergeContours (union : TGPolygon → TGPolygon → TGPolygon) (slivers : TGPolygon)
    (polys : List TGSuperPoly) : List TGSuperPoly :=
  slivers.poly.foldl (fun ps contour => (tryMerge union (sliverOf contour) ps).1) polys

/-- The function `Airport::merge_slivers(polys, slivers_list)`: the
candidates afterwards. -/
def merge_slivers (union : TGPolygon → TGPolygon → TGPolygon) (polys : List TGSuperPoly)
    (slivers_list : List TGPolygon) : List TGSuperPoly :=
  slivers_list.foldl (fun ps slivers => mergeContours union slivers ps) polys

/-- The two reference parameters of `merge_slivers` after the call: the
function assigns to `polys[k]` only; `slivers_list` is read, entry by entry,
into the local copy `slivers`. -/
def merge_slivers_refs (union : TGPolygon → TGPolygon → TGPolygon) (polys : List TGSuperPoly)
    (slivers_list : List TGPolygon) : List TGSuperPoly × List TGPolygon :=
  (merge_slivers union polys slivers_list, slivers_list)

end Airport

/-! ## `tgAccumulator` (`tg_polygon_set_io.cxx`) -/

/-- What the accumulator uses but does not define: CGAL's `Polygon_set`
(type `PS`), `Polygon_with_holes` (type `PWH`) and `Bbox_2` (type `BB`), and
the two conversions between `tgPolygon` and `Polygon_set`. -/
structure Cgal (PS PWH BB : Type) where
  /-- The default-constructed `Polygon_set`. -/
  empty : PS
  /-- The call `ps.join(first, last)` over a range of polygons with holes. -/
  join : PS → List PWH → PS
  /-- The call `ps.join(other)` with another polygon set. -/
  joinSet : PS → PS → PS
  /-- The call `a.difference(b)`. -/
  difference : PS → PS → PS
  number_of_polygons_with_holes : PS → Nat
  /-- The call `ps.polygons_with_holes(std::back_inserter(list))`. -/
  polygons_with_holes : PS → List PWH
  /-- The expression `pwh.outer_boundary().bbox()`. -/
  bbox : PWH → BB
  /-- The function `CGAL::do_overlap(bbox1, bbox2)`. -/
  do_overlap : BB → BB → Bool
  /-- The function `ToCgalPolyWithHoles(subject, set, bbox)`: the two
  outputs when it returns true, `none` when it returns false. -/
  ToCgalPolyWithHoles : tgPolygon → Option (PS × BB)
  /-- The function `ToTgPolygon(set, subject)`: the new value of `subject`. -/
  ToTgPolygon : PS → tgPolygon → tgPolygon

/-- An entry of `accum_cgal_list`. -/
structure tgAccumEntry (PWH BB : Type) where
  pwh : PWH
  bbox : BB

/-- The members of a `tgAccumulator`. -/
structure tgAccumulator (PS PWH BB : Type) where
  accum_cgal : PS
  accumEmpty : Bool := true
  accum_cgal_list : List (tgAccumEntry PWH BB) := []

namespace tgAccumulator
variable {PS PWH BB : Type}

/-- The method `Add_cgal(subject)`. -/
def Add_cgal (C : Cgal PS PWH BB) (subject : tgPolygon) (acc : tgAccumulator PS PWH BB) :
    tgAccumulator PS PWH BB :=
  match C.ToCgalPolyWithHoles subject with
  | some (cgalSubject, _) =>
    { acc with accum_cgal := C.joinSet acc.accum_cgal cgalSubject, accumEmpty := false }
  | none => acc

/-- The method `GetAccumPolygonSet(bbox)`. -/
def GetAccumPolygonSet (C : Cgal PS PWH BB) (acc : tgAccumulator PS PWH BB) (bbox : BB) :
    PS :=
  let accum := (acc.accum_cgal_list.filter fun e => C.do_overlap bbox e.bbox).map
    fun e => e.pwh
  C.join C.empty accum

/-- The method `AddAccumPolygonSet(ps)`. -/
def AddAccumPolygonSet (C : Cgal PS PWH BB) (acc : tgAccumulator PS PWH BB) (ps : PS) :
    tgAccumulator PS PWH BB :=
  { acc with
    accum_cgal_list := acc.accum_cgal_list ++
      (C.polygons_with_holes ps).map fun w => { pwh := w, bbox := C.bbox w } }

/-- The method `Diff_and_Add_cgal(subject)`: the new value of `subject` and
the new accumulator (the shapefile dumps of the debug build left out). -/
def Diff_and_Add_cgal (C : Cgal PS PWH BB) (subject : tgPolygon)
    (acc : tgAccumulator PS PWH BB) : tgPolygon × tgAccumulator PS PWH BB :=
  match C.ToCgalPolyWithHoles subject with
  | some (cgSubject, cgBoundingBox) =>
    let add := cgSubject
    let diff := GetAccumPolygonSet C acc cgBoundingBox
    let cgSubject :=
      if C.number_of_polygons_with_holes diff ≠ 0 then C.difference cgSubject diff
      else cgSubject
    let acc := AddAccumPolygonSet C acc add
    (C.ToTgPolygon cgSubject subject, acc)
  | none => ({ subject with contours := [] }, acc)

/-- The join of a list of regions. -/
def joinAll {R : Type} [GeneralizedBooleanAlgebra R] (l : List R) : R :=
  l.foldr (fun a b => a ⊔ b) ⊥

/-- The documented meaning of the CGAL operations and of the conversions:
every polygon set, polygon with holes, box and polygon denotes a region, an
element of a generalized Boolean algebra `R` (regions up to their
boundaries), and the operations act on regions as their names say. -/
structure CgalLaws (C : Cgal PS PWH BB) (R : Type) [GeneralizedBooleanAlgebra R] where
  region : PS → R
  regionPwh : PWH → R
  regionBox : BB → R
  regionPoly : tgPolygon → R
  region_empty : region C.empty = ⊥
  region_join : ∀ ps ws, region (C.join ps ws) = region ps ⊔ joinAll (ws.map regionPwh)
  region_joinSet : ∀ a b, region (C.joinSet a b) = region a ⊔ region b
  region_difference : ∀ a b, region (C.difference a b) = region a \ region b
  region_of_none : ∀ a, C.number_of_polygons_with_holes a = 0 → region a = ⊥
  region_parts : ∀ a, joinAll ((C.polygons_with_holes a).map regionPwh) = region a
  pwh_le_bbox : ∀ w, regionPwh w ≤ regionBox (C.bbox w)
  box_disjoint : ∀ a b, C.do_overlap a b = false → regionBox a ⊓ regionBox b = ⊥
  toCgal_region : ∀ p ps bb, C.ToCgalPolyWithHoles p = some (ps, bb) →
    region ps = regionPoly p ∧ region ps ≤ regionBox bb
  toTg_region : ∀ ps p, regionPoly (C.ToTgPolygon ps p) = region ps

/-- The union of everything in `accum_cgal_list`. -/
def unionOf {R : Type} [GeneralizedBooleanAlgebra R] {C : Cgal PS PWH BB}
    (L : CgalLaws C R) (acc : tgAccumulator PS PWH BB) : R :=
  joinAll (acc.accum_cgal_list.map fun e => L.regionPwh e.pwh)

end tgAccumulator

/-! ## A reference polygon-set library

A concrete `Cgal` on a raster: a region is a finite set of unit cells of the
plane, a polygon denotes the cells its nodes fall into. -/

namespace Raster
open tgAccumulator

/-- A unit cell, by the integer coordinates of its south-west corner. -/
abbrev Cell := ℤ × ℤ

/-- A box of cells, by its lowest and highest cell. -/
structure Box where
  lo : Cell
  hi : Cell
deriving DecidableEq, Repr

/-- The cells the nodes of a polygon fall into. -/
def cellsOf (p : tgPolygon) : List Cell :=
  (p.contours.flatMap fun c => c.nodes).map fun n => (⌊n.lon⌋, ⌊n.lat⌋)

/-- The smallest box around a cell and a list of cells. -/
def boxOf (c : Cell) (cs : List Cell) : Box :=
  cs.foldl (fun b d =>
    { lo := (min b.lo.1 d.1, min b.lo.2 d.2), hi := (max b.hi.1 d.1, max b.hi.2 d.2) })
    { lo := c, hi := c }

/-- Two boxes overlap unless one lies wholly beside, above or below the
other (the test of `CGAL::do_overlap`). -/
def do_overlap (a b : Box) : Bool :=
  if a.hi.1 < b.lo.1 ∨ b.hi.1 < a.lo.1 then false
  else if a.hi.2 < b.lo.2 ∨ b.hi.2 < a.lo.2 then false
  else true

/-- The raster library: a polygon set is a list of cells, each cell is one
polygon with holes. -/
def cgal : Cgal (List Cell) Cell Box where
  empty := []
  join ps ws := ps ++ ws
  joinSet a b := a ++ b
  difference a b := a.filter fun c => decide (c ∉ b)
  number_of_polygons_with_holes a := a.length
  polygons_with_holes a := a
  bbox c := { lo := c, hi := c }
  do_overlap := do_overlap
  ToCgalPolyWithHoles p :=
    match cellsOf p with
    | [] => none
    | c :: cs => some (c :: cs, boxOf c cs)
  ToTgPolygon ps p :=
    { p with contours := [{ nodes := ps.map fun c => SGGeod.fromDeg (c.1 : ℚ) (c.2 : ℚ) }] }

/-- The cells of a box. -/
def boxCells (b : Box) : Finset Cell :=
  Finset.Icc b.lo.1 b.hi.1 ×ˢ Finset.Icc b.lo.2 b.hi.2

/-- A square covering the cells (0,0) to (1,1). -/
def squareA : tgPolygon := Ref.ring [(0, 0), (1, 0), (1, 1), (0, 1)]

/-- A square covering the cells (1,1) to (2,2). -/
def squareB : tgPolygon := Ref.ring [(1, 1), (2, 1), (2, 2), (1, 2)]

/-- An accumulator that holds nothing yet. -/
def start : tgAccumulator (List Cell) Cell Box := { accum_cgal := [] }

/-- An accumulator holding the four cells of `squareA` and, far from them,
the cell (9, 9), stored as `AddAccumPolygonSet` stores them. -/
def stocked : tgAccumulator (List Cell) Cell Box :=
  AddAccumPolygonSet cgal (AddAccumPolygonSet cgal start [(0, 0), (1, 0), (1, 1), (0, 1)])
    [(9, 9)]

end Raster

/-! ## Sequences of `Save` calls -/

/-- Value of a decimal digit character. -/
def digitValue (c : Char) : Nat := c.toNat - 48

/-- Reading a list of digit characters as a number, continuing from `a`. -/
def readDigits (a : Nat) (l : List Char) : Nat := l.foldl (fun a c => 10 * a + digitValue c) a

namespace tgChopper
variable {B : Type}

/-- A file written by `Save`, as directory, bucket index and sequence number. -/
abbrev Ticket := String × Int × Int

/-- The name of the file of a ticket. -/
def render (t : Ticket) : String := t.1 ++ "/" ++ toString t.2.1 ++ "." ++ toString t.2.2

/-- What a stretch of `Save` calls does to the file system: the files it
adds are those of the tickets `T`, each numbered above the counter value its
directory had at the start and at most the value at the end, later tickets
of a directory numbered higher than earlier ones; no counter falls, and none
rises by more than `n`. -/
def Tickets (fs fs' : FileSys) (n : Nat) (T : List Ticket) : Prop :=
  fs'.written.map Prod.fst = fs.written.map Prod.fst ++ T.map render ∧
  (∀ t ∈ T, counterValue fs t.1 < t.2.2 ∧ t.2.2 ≤ counterValue fs' t.1) ∧
  T.Pairwise (fun a b => a.1 = b.1 → a.2.2 < b.2.2) ∧
  (∀ d, counterValue fs d ≤ counterValue fs' d ∧ counterValue fs' d ≤ counterValue fs d + n)

/-- A sequence of `Save` calls into one file system, each by a chopper as it
stands when its build ends; a call that does not return ends the
sequence. -/
def saveRuns (E : Externals B) : List (Chopper B) → FileSys → Outcome FileSys
  | [], fs => Outcome.returned fs
  | st :: rest, fs =>
    match Save E st fs with
    | Outcome.returned (_, fs₁) => saveRuns E rest fs₁
    | Outcome.raised (_, fs₁) msg => Outcome.raised fs₁ msg
    | Outcome.exited (_, fs₁) code => Outcome.exited fs₁ code
    | Outcome.outOfFuel => Outcome.outOfFuel

/-- The number of buckets a sequence of `Save` calls has to write. -/
def fileCount (sts : List (Chopper B)) : Nat :=
  (sts.map fun st => st.bp_map.entries.length).sum

/-- The number of entries of `Add` in a trace. -/
def addCalls (tr : List (Event B)) : Nat :=
  (tr.filter fun e => match e with
    | Event.add _ _ => true
    | _ => false).length

/-- The number of calls of `Add` in a trace that went on to the half-plane
split: the sanity ceiling was evaluated, held, and `dy` was above 1. -/
def splitCalls (tr : List (Event B)) : Nat :=
  (tr.filter fun e => match e with
    | Event.sanity dx dy => decide (¬ (dx > 2880 ∨ dy > 1440) ∧ ¬ dy ≤ 1)
    | _ => false).length

/-- What `Add` relies on for the rows of a split, between the polar bands
(latitudes from -89° up to, not including, 89°), where the rows of the grid
are 1/8° high, row `r` reaching from `r/8` up to, not including, `(r+1)/8`:
`sgBucketDiff` counts rows, `sgBucketOffset` by `(0, j)` lands `j` rows
further north, and what `Intersect` leaves of a polygon inside a rectangle
has its bounding box between the south and the north edge of the
rectangle. -/
structure RowLaws (E : Externals B) : Prop where
  diff_rows : ∀ p q : SGGeod, -89 ≤ p.lat → p.lat < 89 → -89 ≤ q.lat → q.lat < 89 →
    (E.sgBucketDiff (E.bucketOf p) (E.bucketOf q)).2 = ⌊8 * q.lat⌋ - ⌊8 * p.lat⌋
  offset_center : ∀ (lon lat : ℚ) (j : Int), -89 ≤ lat → lat < 89 → 0 ≤ j →
    ⌊8 * lat⌋ + j < 712 →
      (E.get_center (E.sgBucketOffset lon lat 0 j)).lat =
        ((⌊8 * lat⌋ + j : Int) : ℚ) / 8 + 1 / 16
  clip_box : ∀ (s : tgPolygon) (lo hi : SGGeod), lo.lat ≤ hi.lat →
    (E.Intersect s (rectPoly lo hi)).Contours ≠ 0 →
      lo.lat ≤ (E.GetBoundingBox (E.Intersect s (rectPoly lo hi))).min.lat ∧
      (E.GetBoundingBox (E.Intersect s (rectPoly lo hi))).min.lat ≤
        (E.GetBoundingBox (E.Intersect s (rectPoly lo hi))).max.lat ∧
      (E.GetBoundingBox (E.Intersect s (rectPoly lo hi))).max.lat ≤ hi.lat

/-- The bounding box of the polygon lies between the polar bands. -/
def InBand (E : Externals B) (s : tgPolygon) : Prop :=
  -89 ≤ (E.GetBoundingBox s).min.lat ∧
  (E.GetBoundingBox s).min.lat ≤ (E.GetBoundingBox s).max.lat ∧
  (E.GetBoundingBox s).max.lat < 89

instance (E : Externals B) (s : tgPolygon) : Decidable (InBand E s) := by
  unfold InBand; infer_instance

/-- What polygons and clipping rectangles cover: every polygon has a region,
an element of a generalized Boolean algebra `R` (regions up to their
boundaries), and so has every rectangle given by two corners; `Intersect`
with the ring over two corners cuts the region down to the rectangle,
`InheritElevations` leaves it alone, the region is that of the contours, and
a polygon without contours covers nothing. -/
structure RegionLaws (E : Externals B) (R : Type) [GeneralizedBooleanAlgebra R] where
  region : tgPolygon → R
  box : SGGeod → SGGeod → R
  region_clip : ∀ s lo hi, region (E.Intersect s (rectPoly lo hi)) = region s ⊓ box lo hi
  region_inherit : ∀ r s, region (E.InheritElevations r s) = region r
  region_contours : ∀ p q : tgPolygon, p.contours = q.contours → region p = region q
  region_none : ∀ p : tgPolygon, p.Contours = 0 → region p = ⊥

/-- The region of the rectangle that `Clip` intersects with for bucket `b`. -/
def cellBox {R : Type} [GeneralizedBooleanAlgebra R] {E : Externals B} (L : RegionLaws E R)
    (b : B) : R :=
  L.box (clipCorners (E.get_center b) (E.get_width b)).1
    (clipCorners (E.get_center b) (E.get_width b)).2

/-- The call ended, in a state whose trace is the one of `st` with `l` after
it, `l` holding between `a₀` and `a₁` entries of `Add`, of which between
`s₀` and `s₁` went on to the half-plane split. -/
def Ends (o : Outcome (Chopper B)) (st : Chopper B) (a₀ a₁ s₀ s₁ : Nat) : Prop :=
  ∃ st' l, o.state? = some st' ∧ st'.trace = st.trace ++ l ∧
    a₀ ≤ addCalls l ∧ addCalls l ≤ a₁ ∧ s₀ ≤ splitCalls l ∧ splitCalls l ≤ s₁

end tgChopper

/-! ## `TGDem::write_area` (`dem.cxx`) -/

/-- The conversion `(int) x` of a `double`: truncation toward zero. -/
def truncInt (x : ℚ) : Int := if 0 ≤ x then ⌊x⌋ else ⌈x⌉

/-- The members of `TGDem` that `write_area` reads; `dem_data[i][j]` is the
elevation of column `i`, row `j`. -/
structure TGDem where
  originx : ℚ
  originy : ℚ
  cols : Int
  rows : Int
  col_step : ℚ
  row_step : ℚ
  dem_data : Int → Int → ℚ

namespace TGDem

/-- What `write_area` asks of its bucket `b`: centre, extent in degrees, and
the two strings of the file name. -/
structure Tile where
  get_center_lon : ℚ
  get_center_lat : ℚ
  get_width : ℚ
  get_height : ℚ
  gen_base_path : String
  gen_index_str : String

/-- How `write_area` ends. -/
inductive AreaResult where
  /-- The bucket is partly outside the DEM: `return 0`. -/
  | outside
  /-- "Tile is all zero elevation: skipping": `return 0`. -/
  | skipped
  /-- The array file cannot be opened: `exit(-1)`. -/
  | cannotOpen (array_file : String)
  /-- The file was written, `return 1`: its name, the six numbers of its two
  header lines, one list of samples per line after them, and whether it was
  compressed afterwards. -/
  | wrote (array_file : String) (header : List Int) (lines : List (List Int)) (gz : Bool)
deriving DecidableEq, Repr

/-- The method `has_non_zero_elev(start_x, span_x, start_y, span_y)`
(lines 472-483). -/
def has_non_zero_elev (d : TGDem) (start_x span_x start_y span_y : Int) : Bool :=
  (List.range span_x.toNat).any fun (i : Nat) =>
    (List.range span_y.toNat).any fun (j : Nat) =>
      decide (d.dem_data (start_x + (i : Int)) (start_y + (j : Int)) ≠ 0)

/-- The samples the write loop prints (lines 448-453): one line for each
column `i` from `start_x` to `start_x + span_x`, on it the rows `j` from
`start_y` to `start_y + span_y`. -/
def areaSamples (d : TGDem) (start_x span_x start_y span_y : Int) : List (List Int) :=
  (List.range (span_x + 1).toNat).map fun (i : Nat) =>
    (List.range (span_y + 1).toNat).map fun (j : Nat) =>
      truncInt (d.dem_data (start_x + (i : Int)) (start_y + (j : Int)))

/-- The value of `start_x` in `write_area` (line 397). -/
def startX (d : TGDem) (b : Tile) : Int :=
  truncInt (((b.get_center_lon - 1 / 2 * b.get_width) * 3600 - d.originx) / d.col_step)

/-- The value of `span_x` in `write_area` (line 398). -/
def spanX (d : TGDem) (b : Tile) : Int := truncInt (b.get_width * 3600 / d.col_step)

/-- The value of `start_y` in `write_area` (line 400). -/
def startY (d : TGDem) (b : Tile) : Int :=
  truncInt (((b.get_center_lat - 1 / 2 * b.get_height) * 3600 - d.originy) / d.row_step)

/-- The value of `span_y` in `write_area` (line 401). -/
def spanY (d : TGDem) (b : Tile) : Int := truncInt (b.get_height * 3600 / d.row_step)

/-- The method `write_area(root, b, compress)`; `canOpen` tells whether
`fopen(array_file, "w")` succeeds. -/
def write_area (d : TGDem) (canOpen : String → Bool) (root : String) (b : Tile)
    (compress : Bool) : AreaResult :=
  let min_x := (b.get_center_lon - 1 / 2 * b.get_width) * 3600
  let max_x := (b.get_center_lon + 1 / 2 * b.get_width) * 3600
  let min_y := (b.get_center_lat - 1 / 2 * b.get_height) * 3600
  let max_y := (b.get_center_lat + 1 / 2 * b.get_height) * 3600
  if min_x < d.originx ∨ max_x > d.originx + (d.cols : ℚ) * d.col_step ∨
      min_y < d.originy ∨ max_y > d.originy + (d.rows : ℚ) * d.row_step then
    AreaResult.outside
  else if !has_non_zero_elev d (startX d b) (spanX d b) (startY d b) (spanY d b) then
    AreaResult.skipped
  else
    let path := root ++ "/" ++ b.gen_base_path
    let array_file := path ++ "/" ++ b.gen_index_str ++ ".arr"
    if !canOpen array_file then AreaResult.cannotOpen array_file
    else
      AreaResult.wrote array_file
        [truncInt min_x, truncInt min_y, spanX d b + 1, truncInt d.col_step, spanY d b + 1,
          truncInt d.row_step]
        (areaSamples d (startX d b) (spanX d b) (startY d b) (spanY d b)) compress

/-- A one-degree DEM at 3 arc-second spacing with its south-west corner at
(0°, 0°): sea level everywhere but for a ridge of 12 m along the meridian
450 arc seconds east of the corner (column 150). -/
def ridge : TGDem :=
  { originx := 0, originy := 0, cols := 1201, rows := 1201, col_step := 3, row_step := 3
    dem_data := fun i _ => if i = 150 then 12 else 0 }

/-- The bucket from (0°, 0°) to (0.125°, 0.125°). -/
def cornerTile : Tile :=
  { get_center_lon := 1 / 16, get_center_lat := 1 / 16, get_width := 1 / 8, get_height := 1 / 8
    gen_base_path := "e000n00/e000n00", gen_index_str := "2954880" }

end TGDem

/-! ## Theorems -/

namespace tgChopper
variable {B : Type}

theorem Clip_trace (E : Externals B) (s : tgPolygon) (t : String) (b : B) (st : Chopper B) :
    (Clip E s t b st).trace = st.trace ++ [Event.clip s t b] := by
  unfold Clip
  split <;> rfl

theorem Clip_root_path (E : Externals B) (s : tgPolygon) (t : String) (b : B)
    (st : Chopper B) : (Clip E s t b st).root_path = st.root_path := by
  unfold Clip
  split <;> rfl

theorem Clip_bp_map (E : Externals B) (s : tgPolygon) (t : String) (b : B) (st : Chopper B) :
    (Clip E s t b st).bp_map =
      if (clipResult E s b).Contours > 0 then
        st.bp_map.pushBack (E.gen_index b) (fragment E s t b)
      else st.bp_map := by
  unfold Clip
  split <;> rfl

theorem Clip_get (E : Externals B) (s : tgPolygon) (t : String) (b : B) (st : Chopper B)
    (i : Int) :
    (Clip E s t b st).bp_map.get i =
      if (clipResult E s b).Contours > 0 ∧ i = E.gen_index b then
        st.bp_map.get i ++ [fragment E s t b]
      else st.bp_map.get i := by
  rw [Clip_bp_map]
  by_cases h : (clipResult E s b).Contours > 0
  · by_cases hi : i = E.gen_index b
    · simp [h, hi, BpMap.get_pushBack]
    · simp [h, hi, BpMap.get_pushBack]
  · simp [h]

/-- Every list of the first state is an initial segment of the same list of
the second. -/
def Grows (st st' : Chopper B) : Prop :=
  ∀ i : Int, st.bp_map.get i <+: st'.bp_map.get i

theorem Grows.grows_refl (st : Chopper B) : Grows st st := fun _ => List.prefix_refl _

theorem Grows.grows_trans {a b c : Chopper B} (h₁ : Grows a b) (h₂ : Grows b c) : Grows a c :=
  fun i => (h₁ i).trans (h₂ i)

theorem Grows.grows_note (st : Chopper B) (e : Event B) : Grows st (st.note e) :=
  fun _ => List.prefix_refl _

theorem Clip_grows (E : Externals B) (s : tgPolygon) (t : String) (b : B) (st : Chopper B) :
    Grows st (Clip E s t b st) := by
  intro i
  rw [Clip_get]
  split
  · exact List.prefix_append _ _
  · exact List.prefix_refl _

theorem foldl_grows {α : Type} (f : Chopper B → α → Chopper B)
    (hf : ∀ s x, Grows s (f s x)) (l : List α) (st : Chopper B) :
    Grows st (l.foldl f st) := by
  induction l generalizing st with
  | nil => exact Grows.grows_refl st
  | cons x xs ih => exact (hf st x).grows_trans (ih (f st x))

theorem clipRow_grows (E : Externals B) (s : tgPolygon) (t : String) (lon lat : ℚ)
    (dx j : Int) (st : Chopper B) : Grows st (clipRow E s t lon lat dx j st) :=
  foldl_grows _ (fun s' _ => Clip_grows E s t _ s') _ st

theorem clipGrid_grows (E : Externals B) (s : tgPolygon) (t : String) (lon lat : ℚ)
    (dx dy : Int) (st : Chopper B) : Grows st (clipGrid E s t lon lat dx dy st) :=
  foldl_grows _ (fun s' _ => clipRow_grows E s t lon lat dx _ s') _ st

theorem Add_zero (E : Externals B) [DecidableEq B] (subject : tgPolygon) (type : String)
    (st : Chopper B) : Add E 0 subject type st = Outcome.outOfFuel := rfl

theorem leafClips_grows (E : Externals B) (s : tgPolygon) (t : String) (st : Chopper B) :
    Grows st (leafClips E s t st) :=
  clipGrid_grows _ _ _ _ _ _ _ _

/-- One unfolding of `Add`. -/
theorem Add_succ (E : Externals B) [DecidableEq B] (fuel : Nat) (subject : tgPolygon)
    (type : String) (st0 : Chopper B) :
    Add E (fuel + 1) subject type st0 =
      if subject.Contours = 0 then Outcome.returned (st0.note (Event.add subject type))
      else if cornerMin E subject = cornerMax E subject then
        Outcome.returned
          (Clip E subject type (cornerMin E subject) (st0.note (Event.add subject type)))
      else if (gridSpan E subject).1 > 2880 ∨ (gridSpan E subject).2 > 1440 then
        Outcome.raised ((st0.note (Event.add subject type)).note
          (Event.sanity (gridSpan E subject).1 (gridSpan E subject).2)) sanityMsg
      else if (gridSpan E subject).2 ≤ 1 then
        Outcome.returned (leafClips E subject type ((st0.note (Event.add subject type)).note
          (Event.sanity (gridSpan E subject).1 (gridSpan E subject).2)))
      else
        match Add E fuel (bottomClip E subject) type ((st0.note (Event.add subject type)).note
          (Event.sanity (gridSpan E subject).1 (gridSpan E subject).2)) with
        | Outcome.returned st1 =>
          if (topClip E subject).TotalNodes = subject.TotalNodes then Outcome.exited st1 0
          else Add E fuel (topClip E subject) type st1
        | other => other := rfl

theorem Add_of_empty (E : Externals B) [DecidableEq B] (fuel : Nat) (subject : tgPolygon)
    (type : String) (st : Chopper B) (h0 : subject.Contours = 0) :
    Add E (fuel + 1) subject type st = Outcome.returned (st.note (Event.add subject type)) := by
  rw [Add_succ, if_pos h0]

theorem Add_of_single (E : Externals B) [DecidableEq B] (fuel : Nat) (subject : tgPolygon)
    (type : String) (st : Chopper B) (h0 : subject.Contours ≠ 0)
    (h1 : cornerMin E subject = cornerMax E subject) :
    Add E (fuel + 1) subject type st =
      Outcome.returned
        (Clip E subject type (cornerMin E subject) (st.note (Event.add subject type))) := by
  rw [Add_succ, if_neg h0, if_pos h1]

theorem Add_of_ceiling (E : Externals B) [DecidableEq B] (fuel : Nat) (subject : tgPolygon)
    (type : String) (st : Chopper B) (h0 : subject.Contours ≠ 0)
    (h1 : cornerMin E subject ≠ cornerMax E subject)
    (h2 : (gridSpan E subject).1 > 2880 ∨ (gridSpan E subject).2 > 1440) :
    Add E (fuel + 1) subject type st = Outcome.raised (checked E subject type st) sanityMsg := by
  rw [Add_succ, if_neg h0, if_neg h1, if_pos h2]; rfl

theorem Add_of_leaf (E : Externals B) [DecidableEq B] (fuel : Nat) (subject : tgPolygon)
    (type : String) (st : Chopper B) (h0 : subject.Contours ≠ 0)
    (h1 : cornerMin E subject ≠ cornerMax E subject)
    (h2 : ¬ ((gridSpan E subject).1 > 2880 ∨ (gridSpan E subject).2 > 1440))
    (h3 : (gridSpan E subject).2 ≤ 1) :
    Add E (fuel + 1) subject type st =
      Outcome.returned (leafClips E subject type (checked E subject type st)) := by
  rw [Add_succ, if_neg h0, if_neg h1, if_neg h2, if_pos h3]; rfl

theorem Add_of_split (E : Externals B) [DecidableEq B] (fuel : Nat) (subject : tgPolygon)
    (type : String) (st : Chopper B) (h0 : subject.Contours ≠ 0)
    (h1 : cornerMin E subject ≠ cornerMax E subject)
    (h2 : ¬ ((gridSpan E subject).1 > 2880 ∨ (gridSpan E subject).2 > 1440))
    (h3 : ¬ (gridSpan E subject).2 ≤ 1) :
    Add E (fuel + 1) subject type st =
      match Add E fuel (bottomClip E subject) type (checked E subject type st) with
      | Outcome.returned st1 =>
        if (topClip E subject).TotalNodes = subject.TotalNodes then Outcome.exited st1 0
        else Add E fuel (topClip E subject) type st1
      | other => other := by
  rw [Add_succ, if_neg h0, if_neg h1, if_neg h2, if_neg h3]; rfl

theorem checked_grows (E : Externals B) (subject : tgPolygon) (type : String)
    (st : Chopper B) : Grows st (checked E subject type st) :=
  (Grows.grows_note _ _).grows_trans (Grows.grows_note _ _)

theorem Add_grows (E : Externals B) [DecidableEq B] (fuel : Nat) :
    ∀ (subject : tgPolygon) (type : String) (st st' : Chopper B),
      (Add E fuel subject type st).state? = some st' → Grows st st' := by
  induction fuel with
  | zero => intro subject type st st' h; simp [Add, Outcome.state?] at h
  | succ n ih =>
    intro subject type st st' h
    by_cases h0 : subject.Contours = 0
    · rw [Add_of_empty E n subject type st h0] at h
      simp only [Outcome.state?, Option.some.injEq] at h
      subst h; exact Grows.grows_note _ _
    by_cases h1 : cornerMin E subject = cornerMax E subject
    · rw [Add_of_single E n subject type st h0 h1] at h
      simp only [Outcome.state?, Option.some.injEq] at h
      subst h; exact (Grows.grows_note _ _).grows_trans (Clip_grows _ _ _ _ _)
    by_cases h2 : (gridSpan E subject).1 > 2880 ∨ (gridSpan E subject).2 > 1440
    · rw [Add_of_ceiling E n subject type st h0 h1 h2] at h
      simp only [Outcome.state?, Option.some.injEq] at h
      subst h; exact checked_grows _ _ _ _
    by_cases h3 : (gridSpan E subject).2 ≤ 1
    · rw [Add_of_leaf E n subject type st h0 h1 h2 h3] at h
      simp only [Outcome.state?, Option.some.injEq] at h
      subst h
      exact (checked_grows _ _ _ _).grows_trans (leafClips_grows _ _ _ _)
    rw [Add_of_split E n subject type st h0 h1 h2 h3] at h
    have hpre := checked_grows E subject type st
    cases hb : Add E n (bottomClip E subject) type (checked E subject type st) with
    | returned st1 =>
      rw [hb] at h
      have g1 := ih _ _ _ st1 (by rw [hb]; rfl)
      simp only at h
      by_cases h4 : (topClip E subject).TotalNodes = subject.TotalNodes
      · rw [if_pos h4] at h
        simp only [Outcome.state?, Option.some.injEq] at h
        subst h; exact hpre.grows_trans g1
      · rw [if_neg h4] at h
        exact (hpre.grows_trans g1).grows_trans (ih _ _ _ _ h)
    | raised st1 msg =>
      rw [hb] at h
      simp only [Outcome.state?, Option.some.injEq] at h
      subst h
      exact hpre.grows_trans (ih _ _ _ st1 (by rw [hb]; rfl))
    | exited st1 c =>
      rw [hb] at h
      simp only [Outcome.state?, Option.some.injEq] at h
      subst h
      exact hpre.grows_trans (ih _ _ _ st1 (by rw [hb]; rfl))
    | outOfFuel =>
      rw [hb] at h
      simp [Outcome.state?] at h

/-! ### The leaf fan-out as one pass over `leafCells` -/

theorem clipRow_eq (E : Externals B) (s : tgPolygon) (t : String) (lon lat : ℚ)
    (dx j : Int) (st : Chopper B) :
    clipRow E s t lon lat dx j st = clipAll E s t (rowCells E lon lat dx j) st := by
  unfold clipRow clipAll rowCells
  rw [List.foldl_map]

theorem clipAll_append (E : Externals B) (s : tgPolygon) (t : String) (l₁ l₂ : List B)
    (st : Chopper B) :
    clipAll E s t (l₁ ++ l₂) st = clipAll E s t l₂ (clipAll E s t l₁ st) := by
  unfold clipAll
  rw [List.foldl_append]

theorem foldl_clipRow (E : Externals B) (s : tgPolygon) (t : String) (lon lat : ℚ)
    (dx : Int) (js : List Nat) (st : Chopper B) :
    js.foldl (fun s' (j : Nat) => clipRow E s t lon lat dx (j : Int) s') st =
      clipAll E s t (js.flatMap fun (j : Nat) => rowCells E lon lat dx (j : Int)) st := by
  induction js generalizing st with
  | nil => rfl
  | cons j js ih =>
    rw [List.foldl_cons, ih, List.flatMap_cons, clipAll_append, clipRow_eq]

theorem clipGrid_eq (E : Externals B) (s : tgPolygon) (t : String) (lon lat : ℚ)
    (dx dy : Int) (st : Chopper B) :
    clipGrid E s t lon lat dx dy st = clipAll E s t (gridCells E lon lat dx dy) st := by
  unfold clipGrid gridCells
  exact foldl_clipRow E s t lon lat dx _ st

theorem leafClips_eq (E : Externals B) (s : tgPolygon) (t : String) (st : Chopper B) :
    leafClips E s t st = clipAll E s t (leafCells E s) st := by
  unfold leafClips leafCells
  exact clipGrid_eq _ _ _ _ _ _ _ _

theorem clipAll_trace (E : Externals B) (s : tgPolygon) (t : String) (cells : List B)
    (st : Chopper B) :
    (clipAll E s t cells st).trace = st.trace ++ cells.map (Event.clip s t) := by
  induction cells generalizing st with
  | nil => simp [clipAll]
  | cons b bs ih =>
    have h := ih (Clip E s t b st)
    unfold clipAll at h ⊢
    rw [List.foldl_cons, h, Clip_trace]
    simp

theorem clipAll_root_path (E : Externals B) (s : tgPolygon) (t : String) (cells : List B)
    (st : Chopper B) : (clipAll E s t cells st).root_path = st.root_path := by
  induction cells generalizing st with
  | nil => rfl
  | cons b bs ih =>
    have h := ih (Clip E s t b st)
    unfold clipAll at h ⊢
    rw [List.foldl_cons, h, Clip_root_path]

theorem clipAll_get (E : Externals B) (s : tgPolygon) (t : String) (cells : List B)
    (st : Chopper B) (k : Int) :
    (clipAll E s t cells st).bp_map.get k = st.bp_map.get k ++ fragmentsAt E s t cells k := by
  induction cells generalizing st with
  | nil => simp [clipAll, fragmentsAt]
  | cons b bs ih =>
    have h := ih (Clip E s t b st)
    unfold clipAll at h ⊢
    rw [List.foldl_cons, h, Clip_get]
    by_cases hb : (clipResult E s b).Contours > 0 ∧ k = E.gen_index b
    · have hb' : storesAt E s k b = true := decide_eq_true ⟨hb.1, hb.2.symm⟩
      rw [if_pos hb]
      unfold fragmentsAt
      rw [List.filter_cons_of_pos hb', List.map_cons, List.append_assoc]
      rfl
    · have hb' : ¬ (storesAt E s k b = true) :=
        fun h' => hb ⟨(of_decide_eq_true h').1, (of_decide_eq_true h').2.symm⟩
      rw [if_neg hb]
      unfold fragmentsAt
      rw [List.filter_cons_of_neg hb']

/-! ### The ghost trace of `Add` -/

theorem checked_trace (E : Externals B) (subject : tgPolygon) (type : String)
    (st : Chopper B) :
    (checked E subject type st).trace =
      st.trace ++ [Event.add subject type,
        Event.sanity (gridSpan E subject).1 (gridSpan E subject).2] := by
  simp [checked, Chopper.note]

theorem checked_bp_map (E : Externals B) (subject : tgPolygon) (type : String)
    (st : Chopper B) : (checked E subject type st).bp_map = st.bp_map := rfl

/-- Whatever way a call of `Add` ends, its trace is the old one, then the
event of its entry, then further events. -/
theorem Add_trace (E : Externals B) [DecidableEq B] (fuel : Nat) :
    ∀ (subject : tgPolygon) (type : String) (st st' : Chopper B),
      (Add E fuel subject type st).state? = some st' →
        ∃ l, st'.trace = st.trace ++ Event.add subject type :: l := by
  induction fuel with
  | zero => intro subject type st st' h; simp [Add, Outcome.state?] at h
  | succ n ih =>
    intro subject type st st' h
    by_cases h0 : subject.Contours = 0
    · rw [Add_of_empty E n subject type st h0] at h
      simp only [Outcome.state?, Option.some.injEq] at h
      subst h; exact ⟨[], rfl⟩
    by_cases h1 : cornerMin E subject = cornerMax E subject
    · rw [Add_of_single E n subject type st h0 h1] at h
      simp only [Outcome.state?, Option.some.injEq] at h
      subst h
      exact ⟨[Event.clip subject type (cornerMin E subject)], by
        rw [Clip_trace]; simp [Chopper.note]⟩
    have hc := checked_trace E subject type st
    by_cases h2 : (gridSpan E subject).1 > 2880 ∨ (gridSpan E subject).2 > 1440
    · rw [Add_of_ceiling E n subject type st h0 h1 h2] at h
      simp only [Outcome.state?, Option.some.injEq] at h
      subst h
      exact ⟨[Event.sanity (gridSpan E subject).1 (gridSpan E subject).2], by rw [hc]⟩
    by_cases h3 : (gridSpan E subject).2 ≤ 1
    · rw [Add_of_leaf E n subject type st h0 h1 h2 h3] at h
      simp only [Outcome.state?, Option.some.injEq] at h
      subst h
      rw [leafClips_eq, clipAll_trace, hc]
      exact ⟨Event.sanity (gridSpan E subject).1 (gridSpan E subject).2 ::
        (leafCells E subject).map (Event.clip subject type), by simp⟩
    rw [Add_of_split E n subject type st h0 h1 h2 h3] at h
    cases hb : Add E n (bottomClip E subject) type (checked E subject type st) with
    | returned st1 =>
      rw [hb] at h
      obtain ⟨l1, hl1⟩ := ih _ _ _ st1 (by rw [hb]; rfl)
      simp only at h
      by_cases h4 : (topClip E subject).TotalNodes = subject.TotalNodes
      · rw [if_pos h4] at h
        simp only [Outcome.state?, Option.some.injEq] at h
        subst h
        exact ⟨Event.sanity (gridSpan E subject).1 (gridSpan E subject).2 ::
          Event.add (bottomClip E subject) type :: l1, by rw [hl1, hc]; simp⟩
      · rw [if_neg h4] at h
        obtain ⟨l2, hl2⟩ := ih _ _ _ _ h
        exact ⟨Event.sanity (gridSpan E subject).1 (gridSpan E subject).2 ::
          Event.add (bottomClip E subject) type :: (l1 ++
            Event.add (topClip E subject) type :: l2), by rw [hl2, hl1, hc]; simp⟩
    | raised st1 msg =>
      rw [hb] at h
      simp only [Outcome.state?, Option.some.injEq] at h
      subst h
      obtain ⟨l1, hl1⟩ := ih _ _ _ st1 (by rw [hb]; rfl)
      exact ⟨Event.sanity (gridSpan E subject).1 (gridSpan E subject).2 ::
        Event.add (bottomClip E subject) type :: l1, by rw [hl1, hc]; simp⟩
    | exited st1 c =>
      rw [hb] at h
      simp only [Outcome.state?, Option.some.injEq] at h
      subst h
      obtain ⟨l1, hl1⟩ := ih _ _ _ st1 (by rw [hb]; rfl)
      exact ⟨Event.sanity (gridSpan E subject).1 (gridSpan E subject).2 ::
        Event.add (bottomClip E subject) type :: l1, by rw [hl1, hc]; simp⟩
    | outOfFuel =>
      rw [hb] at h
      simp [Outcome.state?] at h

/-- When the ceiling is respected, a raise can only come out of a recursive
call: the trace then shows a later entry of `Add`. -/
theorem Add_raise_is_nested (E : Externals B) [DecidableEq B] (fuel : Nat)
    (subject : tgPolygon) (type : String) (st st' : Chopper B) (msg : String)
    (h0 : subject.Contours ≠ 0) (h1 : cornerMin E subject ≠ cornerMax E subject)
    (h2 : ¬ ((gridSpan E subject).1 > 2880 ∨ (gridSpan E subject).2 > 1440))
    (h : Add E (fuel + 1) subject type st = Outcome.raised st' msg) :
    ∃ sub l, st'.trace = (checked E subject type st).trace ++ Event.add sub type :: l := by
  by_cases h3 : (gridSpan E subject).2 ≤ 1
  · rw [Add_of_leaf E fuel subject type st h0 h1 h2 h3] at h
    cases h
  rw [Add_of_split E fuel subject type st h0 h1 h2 h3] at h
  cases hb : Add E fuel (bottomClip E subject) type (checked E subject type st) with
  | returned st1 =>
    rw [hb] at h
    obtain ⟨l1, hl1⟩ := Add_trace E fuel _ _ _ st1 (by rw [hb]; rfl)
    simp only at h
    by_cases h4 : (topClip E subject).TotalNodes = subject.TotalNodes
    · rw [if_pos h4] at h; cases h
    · rw [if_neg h4] at h
      obtain ⟨l2, hl2⟩ := Add_trace E fuel _ _ _ st' (by rw [h]; rfl)
      exact ⟨bottomClip E subject, l1 ++ Event.add (topClip E subject) type :: l2, by
        rw [hl2, hl1]; simp⟩
  | raised st1 msg1 =>
    rw [hb] at h
    simp only [Outcome.raised.injEq] at h
    obtain ⟨l1, hl1⟩ := Add_trace E fuel _ _ _ st1 (by rw [hb]; rfl)
    exact ⟨bottomClip E subject, l1, by rw [← h.1]; exact hl1⟩
  | exited st1 c =>
    rw [hb] at h; cases h
  | outOfFuel =>
    rw [hb] at h; cases h

/-! ### Claims C5, C6, C7, C9 -/

/-- C6: `Add` of a polygon with zero contours is a no-op. It returns
normally (no raise, no exit), the bucket map and root path are unchanged,
and the only event is the entry of this very call: no `Clip`, no sanity
check, no recursive `Add`. -/
theorem Add_empty_is_noop (E : Externals B) [DecidableEq B] (fuel : Nat)
    (subject : tgPolygon) (type : String) (st : Chopper B) (h : subject.Contours = 0) :
    ∃ st', Add E (fuel + 1) subject type st = Outcome.returned st' ∧
      st'.bp_map = st.bp_map ∧ st'.root_path = st.root_path ∧
      st'.trace = st.trace ++ [Event.add subject type] :=
  ⟨st.note (Event.add subject type), Add_of_empty E fuel subject type st h, rfl, rfl, rfl⟩

theorem Add_empty_is_noop_witness :
    ({} : tgPolygon).Contours = 0 ∧
    ∃ st', Add Ref.externals 1 {} "Grass" Ref.fresh = Outcome.returned st' ∧
      st'.bp_map = Ref.fresh.bp_map ∧ st'.root_path = Ref.fresh.root_path ∧
      st'.trace = Ref.fresh.trace ++ [Event.add {} "Grass"] :=
  ⟨rfl, Add_empty_is_noop Ref.externals 0 {} "Grass" Ref.fresh rfl⟩

/-- C7: when the polygon is non-empty and both corners of its bounding box
map to the same bucket, `Add` returns normally after exactly one `Clip`,
against that bucket: the trace gains the entry of this call and that one
`Clip` and nothing else (no sanity check, no recursive `Add`), and the state
is the one `Clip` leaves. -/
theorem Add_same_bucket_clips_once (E : Externals B) [DecidableEq B] (fuel : Nat)
    (subject : tgPolygon) (type : String) (st : Chopper B) (h0 : subject.Contours ≠ 0)
    (h1 : cornerMin E subject = cornerMax E subject) :
    ∃ st', Add E (fuel + 1) subject type st = Outcome.returned st' ∧
      st' = Clip E subject type (cornerMin E subject) (st.note (Event.add subject type)) ∧
      st'.trace = st.trace ++
        [Event.add subject type, Event.clip subject type (cornerMin E subject)] := by
  refine ⟨_, Add_of_single E fuel subject type st h0 h1, rfl, ?_⟩
  rw [Clip_trace]
  simp [Chopper.note]

theorem Add_same_bucket_clips_once_witness :
    Ref.smallSquare.Contours ≠ 0 ∧
    cornerMin Ref.externals Ref.smallSquare = cornerMax Ref.externals Ref.smallSquare ∧
    ∃ st', Add Ref.externals 1 Ref.smallSquare "Grass" Ref.fresh = Outcome.returned st' ∧
      st' = Clip Ref.externals Ref.smallSquare "Grass"
        (cornerMin Ref.externals Ref.smallSquare)
        (Ref.fresh.note (Event.add Ref.smallSquare "Grass")) ∧
      st'.trace = Ref.fresh.trace ++
        [Event.add Ref.smallSquare "Grass",
         Event.clip Ref.smallSquare "Grass" (cornerMin Ref.externals Ref.smallSquare)] :=
  ⟨by decide, by decide!,
    Add_same_bucket_clips_once Ref.externals 0 Ref.smallSquare "Grass" Ref.fresh
      (by decide) (by decide!)⟩

/-- C5: for a non-empty polygon whose corner buckets differ, if `dx > 2880`
or `dy > 1440` then `Add` raises at once: the bucket map is unchanged and the
trace gains only the entry of this call and the sanity check (no `Clip`);
if `dx ≤ 2880` and `dy ≤ 1440` then this check does not raise: any raise
shows a later entry of `Add` in its trace, so it comes from a recursive
call. -/
theorem Add_sanity_ceiling (E : Externals B) [DecidableEq B] (fuel : Nat)
    (subject : tgPolygon) (type : String) (st : Chopper B) (h0 : subject.Contours ≠ 0)
    (h1 : cornerMin E subject ≠ cornerMax E subject) :
    ((gridSpan E subject).1 > 2880 ∨ (gridSpan E subject).2 > 1440 →
      ∃ st', Add E (fuel + 1) subject type st = Outcome.raised st' sanityMsg ∧
        st'.bp_map = st.bp_map ∧
        st'.trace = st.trace ++ [Event.add subject type,
          Event.sanity (gridSpan E subject).1 (gridSpan E subject).2]) ∧
    ((gridSpan E subject).1 ≤ 2880 ∧ (gridSpan E subject).2 ≤ 1440 →
      ∀ st' msg, Add E (fuel + 1) subject type st = Outcome.raised st' msg →
        ∃ sub l, st'.trace = st.trace ++ [Event.add subject type,
          Event.sanity (gridSpan E subject).1 (gridSpan E subject).2] ++
            Event.add sub type :: l) := by
  constructor
  · intro h2
    exact ⟨checked E subject type st, Add_of_ceiling E fuel subject type st h0 h1 h2,
      rfl, checked_trace E subject type st⟩
  · intro h2 st' msg h
    have h2' : ¬ ((gridSpan E subject).1 > 2880 ∨ (gridSpan E subject).2 > 1440) := by
      intro h'; rcases h' with h' | h' <;> omega
    obtain ⟨sub, l, hl⟩ := Add_raise_is_nested E fuel subject type st st' msg h0 h1 h2' h
    exact ⟨sub, l, by rw [hl, checked_trace]⟩

theorem Add_sanity_ceiling_witness :
    Ref.overlong.Contours ≠ 0 ∧
    cornerMin Ref.externals Ref.overlong ≠ cornerMax Ref.externals Ref.overlong ∧
    gridSpan Ref.externals Ref.overlong = (3200, 0) ∧
    ((gridSpan Ref.externals Ref.overlong).1 > 2880 ∨
        (gridSpan Ref.externals Ref.overlong).2 > 1440 →
      ∃ st', Add Ref.externals 1 Ref.overlong "Grass" Ref.fresh =
          Outcome.raised st' sanityMsg ∧
        st'.bp_map = Ref.fresh.bp_map ∧
        st'.trace = Ref.fresh.trace ++ [Event.add Ref.overlong "Grass",
          Event.sanity (gridSpan Ref.externals Ref.overlong).1
            (gridSpan Ref.externals Ref.overlong).2]) ∧
    ((gridSpan Ref.externals Ref.overlong).1 ≤ 2880 ∧
        (gridSpan Ref.externals Ref.overlong).2 ≤ 1440 →
      ∀ st' msg, Add Ref.externals 1 Ref.overlong "Grass" Ref.fresh =
          Outcome.raised st' msg →
        ∃ sub l, st'.trace = Ref.fresh.trace ++ [Event.add Ref.overlong "Grass",
          Event.sanity (gridSpan Ref.externals Ref.overlong).1
            (gridSpan Ref.externals Ref.overlong).2] ++ Event.add sub "Grass" :: l) :=
  ⟨by decide, by decide!, by decide!,
    Add_sanity_ceiling Ref.externals 0 Ref.overlong "Grass" Ref.fresh (by decide) (by decide!)⟩

/-- C9: the fragment set grows monotonically under `Add`: when a call
returns, the list of every bucket before the call is an initial segment of
its list after the call. -/
theorem Add_only_appends (E : Externals B) [DecidableEq B] (fuel : Nat)
    (subject : tgPolygon) (type : String) (st st' : Chopper B)
    (h : Add E fuel subject type st = Outcome.returned st') :
    ∀ k : Int, st.bp_map.get k <+: st'.bp_map.get k :=
  Add_grows E fuel subject type st st' (by rw [h]; rfl)

theorem Add_only_appends_witness :
    Add Ref.externals 1 Ref.smallSquare "Grass" Ref.fresh =
      Outcome.returned (Clip Ref.externals Ref.smallSquare "Grass"
        (cornerMin Ref.externals Ref.smallSquare)
        (Ref.fresh.note (Event.add Ref.smallSquare "Grass"))) ∧
    ∀ k : Int, Ref.fresh.bp_map.get k <+:
      (Clip Ref.externals Ref.smallSquare "Grass" (cornerMin Ref.externals Ref.smallSquare)
        (Ref.fresh.note (Event.add Ref.smallSquare "Grass"))).bp_map.get k :=
  ⟨Add_of_single Ref.externals 0 Ref.smallSquare "Grass" Ref.fresh (by decide) (by decide!),
    Add_only_appends Ref.externals 1 Ref.smallSquare "Grass" Ref.fresh _
      (Add_of_single Ref.externals 0 Ref.smallSquare "Grass" Ref.fresh (by decide)
        (by decide!))⟩

/-! ### Claim C8 -/

/-- C8, counterexample: the small square textured by geodetic coordinates
with centre latitude 0, clipped against the bucket at (0°, 0°), yields one
fragment, and the texture-parameter block of that fragment is not the
subject's: its centre latitude is the bucket's, 1/16. -/
theorem Clip_changes_texture_block :
    (clipResult Ref.externals Ref.geodeSquare Ref.originBucket).Contours > 0 ∧
    (Clip Ref.externals Ref.geodeSquare "Grass" Ref.originBucket Ref.fresh).bp_map.get
        (Ref.gen_index Ref.originBucket) =
      [fragment Ref.externals Ref.geodeSquare "Grass" Ref.originBucket] ∧
    (fragment Ref.externals Ref.geodeSquare "Grass" Ref.originBucket).GetTexParams ≠
      Ref.geodeSquare.GetTexParams ∧
    (fragment Ref.externals Ref.geodeSquare "Grass" Ref.originBucket).tp.center_lat = 1 / 16 ∧
    Ref.geodeSquare.tp.center_lat = 0 := by
  decide!

/-- C8, amended: when the intersection has a contour, `Clip` appends one
fragment to the bucket's list, and that fragment has the subject's
`preserve3D` flag, the given layer tag as its flag, and the subject's
texture-parameter block, except that for a subject textured
`TG_TEX_BY_GEODE` the centre latitude of the block is the bucket's. -/
theorem Clip_fragment_attributes (E : Externals B) (subject : tgPolygon) (type : String)
    (b : B) (st : Chopper B) (h : (clipResult E subject b).Contours > 0) :
    ∃ frag, (Clip E subject type b st).bp_map.get (E.gen_index b) =
        st.bp_map.get (E.gen_index b) ++ [frag] ∧
      frag.GetPreserve3D = subject.GetPreserve3D ∧
      frag.flag = type ∧
      frag.GetTexParams =
        if subject.GetTexMethod = tgTexMethod.TG_TEX_BY_GEODE then
          { subject.GetTexParams with center_lat := E.get_center_lat b }
        else subject.GetTexParams := by
  refine ⟨fragment E subject type b, ?_, ?_, ?_, ?_⟩
  · rw [Clip_get, if_pos ⟨h, rfl⟩]
  · unfold fragment
    split <;> rfl
  · unfold fragment
    split <;> rfl
  · unfold fragment
    by_cases hm : subject.GetTexMethod = tgTexMethod.TG_TEX_BY_GEODE
    · simp only [if_pos hm]
      have hm' : subject.tp.method = tgTexMethod.TG_TEX_BY_GEODE := hm
      simp only [tgPolygon.SetFlag, tgPolygon.SetTexMethod, tgPolygon.SetTexParams,
        tgPolygon.GetTexParams, tgPolygon.SetPreserve3D]
      rw [← hm']
    · simp only [if_neg hm]
      rfl

theorem Clip_fragment_attributes_witness :
    (clipResult Ref.externals Ref.geodeSquare Ref.originBucket).Contours > 0 ∧
    ∃ frag, (Clip Ref.externals Ref.geodeSquare "Grass" Ref.originBucket
          Ref.fresh).bp_map.get (Ref.externals.gen_index Ref.originBucket) =
        Ref.fresh.bp_map.get (Ref.externals.gen_index Ref.originBucket) ++ [frag] ∧
      frag.GetPreserve3D = Ref.geodeSquare.GetPreserve3D ∧
      frag.flag = "Grass" ∧
      frag.GetTexParams =
        if Ref.geodeSquare.GetTexMethod = tgTexMethod.TG_TEX_BY_GEODE then
          { Ref.geodeSquare.GetTexParams with
            center_lat := Ref.externals.get_center_lat Ref.originBucket }
        else Ref.geodeSquare.GetTexParams :=
  ⟨by decide!,
    Clip_fragment_attributes Ref.externals Ref.geodeSquare "Grass" Ref.originBucket Ref.fresh
      (by decide!)⟩

/-! ### Claim C10 -/

theorem GenerateIndex_of_creatable (path : String) (fs : FileSys)
    (hc : ∀ p, fs.creatable p = true) :
    ∃ q, GenerateIndex path fs = Outcome.returned (q,
      { fs with
        index := Function.update fs.index (path ++ "/chop.idx") (IndexFile.holds q)
        issued := fs.issued ++ [(path, q)] }) := by
  unfold GenerateIndex
  cases hi : fs.index (path ++ "/chop.idx") with
  | absent => exact ⟨incrLong 0, by simp [hi, hc, bumpIndex]⟩
  | empty => exact ⟨incrLong 0, by simp [hi, bumpIndex]⟩
  | holds v => exact ⟨incrLong v, by simp [hi, bumpIndex]⟩

theorem saveEntries_of_open (E : Externals B) (root_path : String)
    (l : List (Int × List tgPolygon)) :
    ∀ fs : FileSys, (∀ p, fs.creatable p = true) → (∀ p, fs.writable p = true) →
      ∃ fs' seqs, saveEntries E root_path l fs = Outcome.returned fs' ∧
        seqs.length = l.length ∧
        fs'.written = fs.written ++
          List.zipWith (fun e q => (polyFile E root_path e.1 q, fileBody e.2)) l seqs ∧
        fs'.issued = fs.issued ++
          List.zipWith (fun e q => (tileDir E root_path e.1, q)) l seqs := by
  induction l with
  | nil => intro fs _ _; exact ⟨fs, [], rfl, rfl, by simp, by simp⟩
  | cons e rest ih =>
    intro fs hc hw
    obtain ⟨k, polys⟩ := e
    obtain ⟨q, hq⟩ := GenerateIndex_of_creatable (tileDir E root_path k)
      { fs with dirs := fs.dirs ++
        [tileDir E root_path k ++ "/" ++ toString (E.gen_index (E.bucketOfIndex k))] } hc
    obtain ⟨fs', seqs, h1, h2, h3, h4⟩ := ih
      { fs with
        dirs := fs.dirs ++
          [tileDir E root_path k ++ "/" ++ toString (E.gen_index (E.bucketOfIndex k))]
        index := Function.update fs.index (tileDir E root_path k ++ "/chop.idx")
          (IndexFile.holds q)
        issued := fs.issued ++ [(tileDir E root_path k, q)]
        written := fs.written ++ [(polyFile E root_path k q, fileBody polys)] } hc hw
    refine ⟨fs', q :: seqs, ?_, by simp [h2], ?_, ?_⟩
    · unfold saveEntries
      simp only [hq]
      rw [if_pos (hw _)]
      exact h1
    · rw [h3]; simp
    · rw [h4]; simp

/-- C10: when every file involved can be opened, `Save` returns after
writing exactly one file per entry of the bucket map, in map order, each
after exactly one call of `GenerateIndex` on the bucket's directory
`<root>/<base path>`; with `q` the number that call returned, the file is
`<root>/<base path>/<bucket index>.<q>` and its body is the fragment count
followed by the bucket's fragments in list order. -/
theorem Save_writes_one_file_per_bucket (E : Externals B) (st : Chopper B) (fs : FileSys)
    (hc : ∀ p, fs.creatable p = true) (hw : ∀ p, fs.writable p = true) :
    ∃ fs' seqs, Save E st fs = Outcome.returned (st, fs') ∧
      seqs.length = st.bp_map.entries.length ∧
      fs'.written = fs.written ++
        List.zipWith (fun e q =>
          (st.root_path ++ "/" ++ E.gen_base_path (E.bucketOfIndex e.1) ++ "/" ++
              toString (E.gen_index (E.bucketOfIndex e.1)) ++ "." ++ toString q,
            Item.uint e.2.length :: e.2.map Item.poly)) st.bp_map.entries seqs ∧
      fs'.issued = fs.issued ++
        List.zipWith (fun e q =>
          (st.root_path ++ "/" ++ E.gen_base_path (E.bucketOfIndex e.1), q))
          st.bp_map.entries seqs := by
  obtain ⟨fs', seqs, h1, h2, h3, h4⟩ :=
    saveEntries_of_open E st.root_path st.bp_map.entries fs hc hw
  refine ⟨fs', seqs, ?_, h2, h3, h4⟩
  unfold Save
  rw [h1]

theorem Save_writes_one_file_per_bucket_witness :
    (∀ p, Ref.disk.creatable p = true) ∧ (∀ p, Ref.disk.writable p = true) ∧
    Ref.twoTiles.bp_map.entries.length = 2 ∧
    ∃ fs' seqs, Save Ref.externals Ref.twoTiles Ref.disk =
        Outcome.returned (Ref.twoTiles, fs') ∧
      seqs.length = Ref.twoTiles.bp_map.entries.length ∧
      fs'.written = Ref.disk.written ++
        List.zipWith (fun e q =>
          (Ref.twoTiles.root_path ++ "/" ++
              Ref.externals.gen_base_path (Ref.externals.bucketOfIndex e.1) ++ "/" ++
              toString (Ref.externals.gen_index (Ref.externals.bucketOfIndex e.1)) ++ "." ++
              toString q,
            Item.uint e.2.length :: e.2.map Item.poly)) Ref.twoTiles.bp_map.entries seqs ∧
      fs'.issued = Ref.disk.issued ++
        List.zipWith (fun e q =>
          (Ref.twoTiles.root_path ++ "/" ++
            Ref.externals.gen_base_path (Ref.externals.bucketOfIndex e.1), q))
          Ref.twoTiles.bp_map.entries seqs :=
  ⟨fun _ => rfl, fun _ => rfl, by decide,
    Save_writes_one_file_per_bucket Ref.externals Ref.twoTiles Ref.disk
      (fun _ => rfl) (fun _ => rfl)⟩

/-! ### Claims C12, C13 -/

theorem Save_state (E : Externals B) (st st' : Chopper B) (fs fs' : FileSys)
    (h : (Save E st fs).state? = some (st', fs')) : st' = st := by
  unfold Save at h
  cases hs : saveEntries E st.root_path st.bp_map.entries fs with
  | returned f => rw [hs] at h; simp [Outcome.state?] at h; exact h.1.symm
  | raised f m => rw [hs] at h; simp [Outcome.state?] at h; exact h.1.symm
  | exited f c => rw [hs] at h; simp [Outcome.state?] at h; exact h.1.symm
  | outOfFuel => rw [hs] at h; simp [Outcome.state?] at h

theorem saveEntries_of_locked (E : Externals B) (root_path : String)
    (l : List (Int × List tgPolygon)) (fs : FileSys) (hc : ∀ p, fs.creatable p = true)
    (hw : ∀ p, fs.writable p = false) :
    ∃ fs', saveEntries E root_path l fs = Outcome.returned fs' ∧
      fs'.written = fs.written ∧ fs'.issued.length = fs.issued.length + min l.length 1 := by
  cases l with
  | nil => exact ⟨fs, rfl, rfl, by simp⟩
  | cons e rest =>
    obtain ⟨k, polys⟩ := e
    obtain ⟨q, hq⟩ := GenerateIndex_of_creatable (tileDir E root_path k)
      { fs with dirs := fs.dirs ++
        [tileDir E root_path k ++ "/" ++ toString (E.gen_index (E.bucketOfIndex k))] } hc
    refine ⟨{ fs with
        dirs := fs.dirs ++
          [tileDir E root_path k ++ "/" ++ toString (E.gen_index (E.bucketOfIndex k))]
        index := Function.update fs.index (tileDir E root_path k ++ "/chop.idx")
          (IndexFile.holds q)
        issued := fs.issued ++ [(tileDir E root_path k, q)] }, ?_, rfl, by simp⟩
    unfold saveEntries
    simp only [hq]
    rw [if_neg (by simp [hw])]

theorem GenerateIndex_perms (path : String) (fs fs' : FileSys) (q : Int)
    (h : GenerateIndex path fs = Outcome.returned (q, fs')) :
    fs'.creatable = fs.creatable ∧ fs'.writable = fs.writable ∧ fs'.written = fs.written := by
  unfold GenerateIndex at h
  cases hi : fs.index (path ++ "/chop.idx") with
  | absent =>
    simp only [hi] at h
    split_ifs at h
    simp only [bumpIndex, Outcome.returned.injEq, Prod.mk.injEq] at h
    rw [← h.2]; exact ⟨rfl, rfl, rfl⟩
  | empty =>
    simp only [hi, bumpIndex, Outcome.returned.injEq, Prod.mk.injEq] at h
    rw [← h.2]; exact ⟨rfl, rfl, rfl⟩
  | holds v =>
    simp only [hi, bumpIndex, Outcome.returned.injEq, Prod.mk.injEq] at h
    rw [← h.2]; exact ⟨rfl, rfl, rfl⟩

theorem saveEntries_perms (E : Externals B) (root_path : String)
    (l : List (Int × List tgPolygon)) :
    ∀ fs fs' : FileSys, saveEntries E root_path l fs = Outcome.returned fs' →
      fs'.creatable = fs.creatable ∧ fs'.writable = fs.writable := by
  induction l with
  | nil =>
    intro fs fs' h
    simp only [saveEntries, Outcome.returned.injEq] at h
    subst h; exact ⟨rfl, rfl⟩
  | cons e rest ih =>
    intro fs fs' h
    obtain ⟨k, polys⟩ := e
    unfold saveEntries at h
    simp only at h
    cases hg : GenerateIndex (tileDir E root_path k)
        { fs with dirs := fs.dirs ++
          [tileDir E root_path k ++ "/" ++ toString (E.gen_index (E.bucketOfIndex k))] } with
    | returned r =>
      obtain ⟨q, f1⟩ := r
      obtain ⟨p1, p2, _⟩ := GenerateIndex_perms _ _ _ _ hg
      rw [hg] at h
      simp only at h
      split_ifs at h
      · obtain ⟨q1, q2⟩ := ih _ _ h
        exact ⟨q1.trans p1, q2.trans p2⟩
      · simp only [Outcome.returned.injEq] at h
        subst h; exact ⟨p1, p2⟩
    | raised r m => rw [hg] at h; cases h
    | exited r c => rw [hg] at h; cases h
    | outOfFuel => rw [hg] at h; cases h

theorem map_snd_zipWith {α β γ δ : Type} (f : α → β → γ) (g : α → δ) (l : List α) :
    ∀ qs : List β, qs.length = l.length →
      (List.zipWith (fun e q => (f e q, g e)) l qs).map Prod.snd = l.map g := by
  induction l with
  | nil => intro qs _; simp
  | cons a rest ih =>
    intro qs h
    cases qs with
    | nil => simp at h
    | cons q qs =>
      simp only [List.zipWith_cons_cons, List.map_cons, List.cons.injEq, true_and]
      exact ih qs (by simpa using h)

/-- C12, counterexample: after `Save` has returned from writing the two
buckets of `twoTiles`, the in-memory map still holds both fragments, and a
second `Save` returns after writing both once more: four files, the last two
with the bodies of the first two. -/
theorem Save_keeps_the_fragments :
    ∃ fs₁ fs₂, Save Ref.externals Ref.twoTiles Ref.disk =
        Outcome.returned (Ref.twoTiles, fs₁) ∧
      Ref.twoTiles.bp_map.get 2951168 = [Ref.smallSquare] ∧
      Ref.twoTiles.bp_map.get 2951169 = [Ref.smallSquare] ∧
      Save Ref.externals Ref.twoTiles fs₁ = Outcome.returned (Ref.twoTiles, fs₂) ∧
      fs₂.written.map Prod.snd =
        [fileBody [Ref.smallSquare], fileBody [Ref.smallSquare],
         fileBody [Ref.smallSquare], fileBody [Ref.smallSquare]] := by
  obtain ⟨fs₁, seqs₁, h1, h2, h3, _⟩ := saveEntries_of_open Ref.externals
    Ref.twoTiles.root_path Ref.twoTiles.bp_map.entries Ref.disk (fun _ => rfl) (fun _ => rfl)
  obtain ⟨p1, p2⟩ := saveEntries_perms _ _ _ _ _ h1
  obtain ⟨fs₂, seqs₂, k1, k2, k3, _⟩ := saveEntries_of_open Ref.externals
    Ref.twoTiles.root_path Ref.twoTiles.bp_map.entries fs₁
    (fun p => by rw [p1]; rfl) (fun p => by rw [p2]; rfl)
  refine ⟨fs₁, fs₂, ?_, by decide!, by decide!, ?_, ?_⟩
  · unfold Save; rw [h1]
  · unfold Save; rw [k1]
  · rw [k3, h3, List.map_append, List.map_append, map_snd_zipWith _ _ _ _ h2,
      map_snd_zipWith _ _ _ _ k2]
    decide!

/-- C12, amended: `Save` does not touch the in-memory map: however the call
ends, the chopper is in the state it was in before, so every bucket still
holds its fragments and a later `Save` would write them again. -/
theorem Save_leaves_map_unchanged (E : Externals B) (st st' : Chopper B) (fs fs' : FileSys)
    (h : (Save E st fs).state? = some (st', fs')) :
    st' = st ∧ ∀ k : Int, st'.bp_map.get k = st.bp_map.get k := by
  have := Save_state E st st' fs fs' h
  subst this
  exact ⟨rfl, fun _ => rfl⟩

theorem Save_leaves_map_unchanged_witness :
    ∃ fs', (Save Ref.externals Ref.twoTiles Ref.lockedDisk).state? =
        some (Ref.twoTiles, fs') ∧
      (Ref.twoTiles = Ref.twoTiles ∧
        ∀ k : Int, Ref.twoTiles.bp_map.get k = Ref.twoTiles.bp_map.get k) := by
  obtain ⟨fs', h1, _, _⟩ := saveEntries_of_locked Ref.externals Ref.twoTiles.root_path
    Ref.twoTiles.bp_map.entries Ref.lockedDisk (fun _ => rfl) (fun _ => rfl)
  have h : (Save Ref.externals Ref.twoTiles Ref.lockedDisk).state? =
      some (Ref.twoTiles, fs') := by
    unfold Save; rw [h1]; rfl
  exact ⟨fs', h,
    Save_leaves_map_unchanged Ref.externals Ref.twoTiles Ref.twoTiles Ref.lockedDisk fs' h⟩

/-- C13, the code at the failing input: with two buckets to save and a file
system in which no polygon file can be opened, `Save` returns normally, with
no file written; it has drawn one sequence number and stopped at the first
bucket. -/
theorem Save_returns_silently_when_unwritable :
    Ref.twoTiles.bp_map.entries.length = 2 ∧
    ∃ fs', Save Ref.externals Ref.twoTiles Ref.lockedDisk =
        Outcome.returned (Ref.twoTiles, fs') ∧
      fs'.written = [] ∧ fs'.issued.length = 1 := by
  refine ⟨by decide, ?_⟩
  obtain ⟨fs', h1, h2, h3⟩ := saveEntries_of_locked Ref.externals Ref.twoTiles.root_path
    Ref.twoTiles.bp_map.entries Ref.lockedDisk (fun _ => rfl) (fun _ => rfl)
  refine ⟨fs', ?_, h2, ?_⟩
  · unfold Save
    rw [h1]
  · rw [h3]
    decide

/-! ### Claims C14, C15, C16 -/

theorem incrLong_of_lt (v : Int) (h : v < LONG_MAX) : incrLong v = v + 1 := by
  unfold incrLong
  rw [if_neg (ne_of_lt h)]

theorem GenerateIndex_of_value (path : String) (fs : FileSys)
    (hc : fs.index (path ++ "/chop.idx") = IndexFile.absent →
      fs.creatable (path ++ "/chop.idx") = true) :
    GenerateIndex path fs = bumpIndex path (counterValue fs path) fs := by
  unfold GenerateIndex counterValue
  cases hi : fs.index (path ++ "/chop.idx") with
  | absent => simp [hi, hc hi]
  | empty => simp [hi]
  | holds v => simp [hi]

theorem incrLong_LONG_MAX : incrLong LONG_MAX = LONG_MIN := by decide

/-- C14, counterexample: on a counter file that holds `LONG_MAX`,
`GenerateIndex` returns `LONG_MIN` and leaves `LONG_MIN` in the file, not
`LONG_MAX + 1`. -/
theorem GenerateIndex_wraps_at_LONG_MAX :
    Ref.maxedDisk.index ("work" ++ "/chop.idx") = IndexFile.holds LONG_MAX ∧
    ∃ fs', GenerateIndex "work" Ref.maxedDisk = Outcome.returned (LONG_MIN, fs') ∧
      fs'.index ("work" ++ "/chop.idx") = IndexFile.holds LONG_MIN ∧
      LONG_MIN ≠ LONG_MAX + 1 :=
  ⟨rfl, _, by
      rw [GenerateIndex_of_value "work" Ref.maxedDisk (fun _ => rfl)]
      unfold bumpIndex
      rw [show counterValue Ref.maxedDisk "work" = LONG_MAX from rfl, incrLong_LONG_MAX],
    by simp [Function.update], by decide⟩

/-- C14, amended: if the counter file of the directory holds `v`, with `v`
counted as 0 when the file does not exist and can be created or exists but
is empty, and `v < LONG_MAX`, then `GenerateIndex` returns `v + 1` and
leaves the counter file holding exactly `v + 1`. -/
theorem GenerateIndex_returns_successor (path : String) (fs : FileSys) (v : Int)
    (hv : fs.index (path ++ "/chop.idx") = IndexFile.holds v ∨
      (v = 0 ∧ (fs.index (path ++ "/chop.idx") = IndexFile.empty ∨
        (fs.index (path ++ "/chop.idx") = IndexFile.absent ∧
          fs.creatable (path ++ "/chop.idx") = true))))
    (hlt : v < LONG_MAX) :
    ∃ fs', GenerateIndex path fs = Outcome.returned (v + 1, fs') ∧
      fs'.index (path ++ "/chop.idx") = IndexFile.holds (v + 1) := by
  have hc : fs.index (path ++ "/chop.idx") = IndexFile.absent →
      fs.creatable (path ++ "/chop.idx") = true := by
    intro ha
    rcases hv with h | ⟨_, h | h⟩
    · rw [ha] at h; cases h
    · rw [ha] at h; cases h
    · exact h.2
  have hval : counterValue fs path = v := by
    unfold counterValue
    rcases hv with h | ⟨h0, h | h⟩
    · rw [h]
    · rw [h]; exact h0.symm
    · rw [h.1]; exact h0.symm
  rw [GenerateIndex_of_value path fs hc, hval]
  unfold bumpIndex
  rw [incrLong_of_lt v hlt]
  exact ⟨_, rfl, by simp [Function.update]⟩

theorem GenerateIndex_returns_successor_witness :
    (Ref.disk.index ("work" ++ "/chop.idx") = IndexFile.holds 0 ∨
      ((0 : Int) = 0 ∧ (Ref.disk.index ("work" ++ "/chop.idx") = IndexFile.empty ∨
        (Ref.disk.index ("work" ++ "/chop.idx") = IndexFile.absent ∧
          Ref.disk.creatable ("work" ++ "/chop.idx") = true)))) ∧
    (0 : Int) < LONG_MAX ∧
    ∃ fs', GenerateIndex "work" Ref.disk = Outcome.returned ((0 : Int) + 1, fs') ∧
      fs'.index ("work" ++ "/chop.idx") = IndexFile.holds ((0 : Int) + 1) :=
  ⟨Or.inr ⟨rfl, Or.inr ⟨rfl, rfl⟩⟩, by decide,
    GenerateIndex_returns_successor "work" Ref.disk 0 (Or.inr ⟨rfl, Or.inr ⟨rfl, rfl⟩⟩)
      (by decide)⟩

/-- C16: if the counter file does not exist and cannot be created, then
`GenerateIndex` ends the process through `exit` instead of returning an
index, and the file system is as it was: no counter value is written. -/
theorem GenerateIndex_exits_when_uncreatable (path : String) (fs : FileSys)
    (h1 : fs.index (path ++ "/chop.idx") = IndexFile.absent)
    (h2 : fs.creatable (path ++ "/chop.idx") = false) :
    GenerateIndex path fs = Outcome.exited (0, fs) 0 ∧
    ∀ q fs', GenerateIndex path fs ≠ Outcome.returned (q, fs') := by
  have h : GenerateIndex path fs = Outcome.exited (0, fs) 0 := by
    unfold GenerateIndex
    simp [h1, h2]
  refine ⟨h, ?_⟩
  intro q fs' h'
  rw [h] at h'
  cases h'

theorem GenerateIndex_exits_when_uncreatable_witness :
    Ref.sealedDisk.index ("work" ++ "/chop.idx") = IndexFile.absent ∧
    Ref.sealedDisk.creatable ("work" ++ "/chop.idx") = false ∧
    GenerateIndex "work" Ref.sealedDisk = Outcome.exited (0, Ref.sealedDisk) 0 ∧
    ∀ q fs', GenerateIndex "work" Ref.sealedDisk ≠ Outcome.returned (q, fs') :=
  ⟨rfl, rfl, GenerateIndex_exits_when_uncreatable "work" Ref.sealedDisk rfl rfl⟩

theorem counterValue_bump (path : String) (fs : FileSys) (q : Int) :
    counterValue { fs with
      index := Function.update fs.index (path ++ "/chop.idx") (IndexFile.holds q)
      issued := fs.issued ++ [(path, q)] } path = q := by
  simp [counterValue, Function.update]

theorem GenerateIndexTimes_from (path : String) (n : Nat) :
    ∀ (fs : FileSys) (v : Int), counterValue fs path = v →
      (fs.index (path ++ "/chop.idx") = IndexFile.absent →
        fs.creatable (path ++ "/chop.idx") = true) →
      v + n ≤ LONG_MAX →
      ∃ fs', GenerateIndexTimes path n fs =
          Outcome.returned ((List.range n).map (fun i : Nat => v + 1 + (i : Int)), fs') ∧
        counterValue fs' path = v + n ∧
        (0 < n → fs'.index (path ++ "/chop.idx") = IndexFile.holds (v + n)) ∧
        (n = 0 → fs' = fs) := by
  induction n with
  | zero =>
    intro fs v hv _ _
    exact ⟨fs, rfl, by simpa using hv, by simp, fun _ => rfl⟩
  | succ n ih =>
    intro fs v hv hc hle
    have hlt : v < LONG_MAX := by push_cast at hle; omega
    have hg : GenerateIndex path fs = Outcome.returned (v + 1,
        { fs with
          index := Function.update fs.index (path ++ "/chop.idx") (IndexFile.holds (v + 1))
          issued := fs.issued ++ [(path, v + 1)] }) := by
      rw [GenerateIndex_of_value path fs hc, hv]
      unfold bumpIndex
      rw [incrLong_of_lt v hlt]
    obtain ⟨fs', h1, h2, h3, h4⟩ := ih
      { fs with
        index := Function.update fs.index (path ++ "/chop.idx") (IndexFile.holds (v + 1))
        issued := fs.issued ++ [(path, v + 1)] } (v + 1) (counterValue_bump path fs (v + 1))
      (by intro h; simp [Function.update] at h) (by push_cast at hle; omega)
    refine ⟨fs', ?_, by rw [h2]; push_cast; ring, ?_, by simp⟩
    · unfold GenerateIndexTimes
      simp only [hg, h1]
      rw [List.range_succ_eq_map]
      simp only [List.map_cons, List.map_map, Nat.cast_zero, add_zero]
      congr 3
      apply List.map_congr_left
      intro i _
      simp only [Function.comp, Nat.cast_succ]
      ring
    · intro _
      by_cases hn : n = 0
      · subst hn
        rw [h4 rfl]
        simp [Function.update]
      · rw [h3 (Nat.pos_of_ne_zero hn)]
        congr 1
        push_cast; ring

/-- C15 (P6): starting from a directory without counter file (which can be
created), `N` calls of `GenerateIndex` made one after another return exactly
`1, 2, …, N`, all different, as long as `N` stays below `LONG_MAX`; and the
next call returns `N + 1` in any process that finds the counter file as
these calls left it, because the result is computed from the contents of the
file alone. -/
theorem GenerateIndex_counts_up (path : String) (fs : FileSys) (N : Nat)
    (h0 : fs.index (path ++ "/chop.idx") = IndexFile.absent)
    (hc : fs.creatable (path ++ "/chop.idx") = true) (hN : (N : Int) < LONG_MAX) :
    ∃ fs', GenerateIndexTimes path N fs =
        Outcome.returned ((List.range N).map (fun i : Nat => (i : Int) + 1), fs') ∧
      ((List.range N).map (fun i : Nat => (i : Int) + 1)).Nodup ∧
      ∀ fs₂ : FileSys, fs₂.index (path ++ "/chop.idx") = fs'.index (path ++ "/chop.idx") →
        fs₂.creatable (path ++ "/chop.idx") = true →
        ∃ fs₃, GenerateIndex path fs₂ = Outcome.returned ((N : Int) + 1, fs₃) := by
  have hv : counterValue fs path = 0 := by simp [counterValue, h0]
  obtain ⟨fs', h1, h2, _, _⟩ := GenerateIndexTimes_from path N fs 0 hv (fun _ => hc)
    (by omega)
  refine ⟨fs', ?_, ?_, ?_⟩
  · rw [h1]
    congr 2
    apply List.map_congr_left
    intro i _
    ring
  · refine (List.nodup_range N).map ?_
    intro a b hab
    simpa using hab
  · intro fs₂ hi hc₂
    have hv₂ : counterValue fs₂ path = N := by
      have : counterValue fs₂ path = counterValue fs' path := by
        unfold counterValue; rw [hi]
      rw [this, h2]; ring
    rw [GenerateIndex_of_value path fs₂ (fun _ => hc₂), hv₂]
    unfold bumpIndex
    rw [incrLong_of_lt _ hN]
    exact ⟨_, rfl⟩

theorem GenerateIndex_counts_up_witness :
    Ref.disk.index ("work" ++ "/chop.idx") = IndexFile.absent ∧
    Ref.disk.creatable ("work" ++ "/chop.idx") = true ∧ ((3 : Nat) : Int) < LONG_MAX ∧
    ∃ fs', GenerateIndexTimes "work" 3 Ref.disk =
        Outcome.returned ((List.range 3).map (fun i : Nat => (i : Int) + 1), fs') ∧
      ((List.range 3).map (fun i : Nat => (i : Int) + 1)).Nodup ∧
      ∀ fs₂ : FileSys,
        fs₂.index ("work" ++ "/chop.idx") = fs'.index ("work" ++ "/chop.idx") →
        fs₂.creatable ("work" ++ "/chop.idx") = true →
        ∃ fs₃, GenerateIndex "work" fs₂ = Outcome.returned (((3 : Nat) : Int) + 1, fs₃) :=
  ⟨rfl, rfl, by decide, GenerateIndex_counts_up "work" Ref.disk 3 rfl rfl (by decide)⟩

end tgChopper

/-! ### Claim C20 -/

namespace Airport

/-- The candidate loop either replaces the first fitting candidate or
leaves the list alone. -/
theorem tryMerge_cases (union : TGPolygon → TGPolygon → TGPolygon) (sliver : TGPolygon)
    (polys : List TGSuperPoly) :
    (∃ k sp, polys[k]? = some sp ∧
        (union sp.get_poly sliver).contours = sp.get_poly.contours ∧
        (∀ j sp', j < k → polys[j]? = some sp' →
          (union sp'.get_poly sliver).contours ≠ sp'.get_poly.contours) ∧
        tryMerge union sliver polys =
          (polys.set k (sp.set_poly (union sp.get_poly sliver)), true)) ∨
    ((∀ sp ∈ polys, (union sp.get_poly sliver).contours ≠ sp.get_poly.contours) ∧
      tryMerge union sliver polys = (polys, false)) := by
  induction polys with
  | nil => exact Or.inr ⟨by simp, rfl⟩
  | cons sp rest ih =>
    by_cases h : sp.get_poly.contours = (union sp.get_poly sliver).contours
    · refine Or.inl ⟨0, sp, by simp, h.symm, ?_, ?_⟩
      · intro j _ hj; omega
      · simp [tryMerge, h]
    · rcases ih with ⟨k, sp₁, h1, h2, h3, h4⟩ | ⟨h1, h2⟩
      · refine Or.inl ⟨k + 1, sp₁, by simpa using h1, h2, ?_, ?_⟩
        · intro j sp' hj hsp'
          cases j with
          | zero =>
            simp only [List.getElem?_cons_zero, Option.some.injEq] at hsp'
            subst hsp'
            exact fun e => h e.symm
          | succ j =>
            exact h3 j sp' (by omega) (by simpa using hsp')
        · simp [tryMerge, h, h4]
      · refine Or.inr ⟨?_, by simp [tryMerge, h, h2]⟩
        intro sp' hsp'
        rcases List.mem_cons.1 hsp' with e | e
        · subst e; exact fun e => h e.symm
        · exact h1 sp' e

end Airport

/-! ### Claims C18, C19 -/

namespace tgAccumulator
variable {PS PWH BB : Type}

theorem joinAll_append {R : Type} [GeneralizedBooleanAlgebra R] (l₁ l₂ : List R) :
    joinAll (l₁ ++ l₂) = joinAll l₁ ⊔ joinAll l₂ := by
  induction l₁ with
  | nil => simp [joinAll]
  | cons a l ih =>
    simp only [joinAll, List.cons_append, List.foldr_cons] at ih ⊢
    rw [ih, sup_assoc]

theorem unionOf_AddAccumPolygonSet {R : Type} [GeneralizedBooleanAlgebra R]
    {C : Cgal PS PWH BB} (L : CgalLaws C R) (acc : tgAccumulator PS PWH BB) (ps : PS) :
    unionOf L (AddAccumPolygonSet C acc ps) = unionOf L acc ⊔ L.region ps := by
  unfold unionOf AddAccumPolygonSet
  simp only [List.map_append, List.map_map]
  rw [joinAll_append]
  congr 1
  exact L.region_parts ps

/-- Subtracting only the entries whose box meets the subject's box gives the
same as subtracting all of them, when the others do not meet the subject. -/
theorem sdiff_joinAll_filter {R : Type} [GeneralizedBooleanAlgebra R] {α : Type}
    (f : α → R) (keep : α → Bool) (b : R) (l : List α)
    (h : ∀ e ∈ l, keep e = false → b ⊓ f e = ⊥) :
    b \ joinAll ((l.filter keep).map f) = b \ joinAll (l.map f) := by
  induction l with
  | nil => rfl
  | cons e l ih =>
    have ih' := ih fun x hx => h x (List.mem_cons_of_mem _ hx)
    cases hk : keep e with
    | true =>
      rw [List.filter_cons_of_pos hk]
      simp only [joinAll, List.map_cons, List.foldr_cons] at ih' ⊢
      rw [sdiff_sup, sdiff_sup, ih']
    | false =>
      rw [List.filter_cons_of_neg (by simp [hk])]
      simp only [joinAll, List.map_cons, List.foldr_cons] at ih' ⊢
      have hd : Disjoint b (f e) := disjoint_iff.2 (h e (List.mem_cons_self _ _) hk)
      rw [sdiff_sup, hd.sdiff_eq_left, ih']
      exact (inf_eq_right.2 sdiff_le).symm

theorem region_GetAccumPolygonSet {R : Type} [GeneralizedBooleanAlgebra R]
    {C : Cgal PS PWH BB} (L : CgalLaws C R) (acc : tgAccumulator PS PWH BB) (bb : BB) :
    L.region (GetAccumPolygonSet C acc bb) =
      joinAll ((acc.accum_cgal_list.filter fun e => C.do_overlap bb e.bbox).map
        fun e => L.regionPwh e.pwh) := by
  unfold GetAccumPolygonSet
  simp only [L.region_join, L.region_empty, List.map_map, bot_sup_eq]
  rfl

/-- The region of the polygon that `Diff_and_Add_cgal` hands back. -/
theorem region_Diff_and_Add {R : Type} [GeneralizedBooleanAlgebra R]
    {C : Cgal PS PWH BB} (L : CgalLaws C R) (p : tgPolygon) (acc : tgAccumulator PS PWH BB)
    (ps : PS) (bb : BB) (h : C.ToCgalPolyWithHoles p = some (ps, bb)) :
    L.regionPoly (Diff_and_Add_cgal C p acc).1 =
      L.regionPoly p \ L.region (GetAccumPolygonSet C acc bb) ∧
    (Diff_and_Add_cgal C p acc).2 = AddAccumPolygonSet C acc ps := by
  unfold Diff_and_Add_cgal
  simp only [h, and_true]
  rw [L.toTg_region, ← (L.toCgal_region p ps bb h).1]
  by_cases hn : C.number_of_polygons_with_holes (GetAccumPolygonSet C acc bb) = 0
  · simp only [hn, ne_eq, not_true_eq_false, if_false]
    rw [L.region_of_none _ hn, sdiff_bot]
  · simp only [hn, ne_eq, not_false_eq_true, if_true]
    rw [L.region_difference]

end tgAccumulator

namespace Raster
open tgAccumulator

theorem joinAll_singletons (ws : List Cell) :
    joinAll (ws.map fun c => ({c} : Finset Cell)) = ws.toFinset := by
  induction ws with
  | nil => rfl
  | cons c cs ih =>
    simp only [joinAll, List.map_cons, List.foldr_cons, List.toFinset_cons] at ih ⊢
    rw [ih]
    rfl

theorem boxOf_bounds (cs : List Cell) :
    ∀ (b : Box) (d : Cell), (d ∈ cs ∨ (b.lo.1 ≤ d.1 ∧ b.lo.2 ≤ d.2 ∧ d.1 ≤ b.hi.1 ∧ d.2 ≤ b.hi.2)) →
      (cs.foldl (fun b d =>
        ({ lo := (min b.lo.1 d.1, min b.lo.2 d.2),
           hi := (max b.hi.1 d.1, max b.hi.2 d.2) } : Box)) b).lo.1 ≤ d.1 ∧
      (cs.foldl (fun b d =>
        ({ lo := (min b.lo.1 d.1, min b.lo.2 d.2),
           hi := (max b.hi.1 d.1, max b.hi.2 d.2) } : Box)) b).lo.2 ≤ d.2 ∧
      d.1 ≤ (cs.foldl (fun b d =>
        ({ lo := (min b.lo.1 d.1, min b.lo.2 d.2),
           hi := (max b.hi.1 d.1, max b.hi.2 d.2) } : Box)) b).hi.1 ∧
      d.2 ≤ (cs.foldl (fun b d =>
        ({ lo := (min b.lo.1 d.1, min b.lo.2 d.2),
           hi := (max b.hi.1 d.1, max b.hi.2 d.2) } : Box)) b).hi.2 := by
  induction cs with
  | nil =>
    intro b d h
    rcases h with h | h
    · cases h
    · exact h
  | cons e es ih =>
    intro b d h
    simp only [List.foldl_cons]
    apply ih
    rcases h with h | h
    · rcases List.mem_cons.1 h with h | h
      · subst h
        exact Or.inr ⟨min_le_right _ _, min_le_right _ _, le_max_right _ _, le_max_right _ _⟩
      · exact Or.inl h
    · exact Or.inr ⟨le_trans (min_le_left _ _) h.1, le_trans (min_le_left _ _) h.2.1,
        le_trans h.2.2.1 (le_max_left _ _), le_trans h.2.2.2 (le_max_left _ _)⟩

theorem do_overlap_false (a b : Box) (h : do_overlap a b = false) :
    boxCells a ⊓ boxCells b = ⊥ := by
  rw [← disjoint_iff, Finset.disjoint_left]
  intro c ha hb
  simp only [boxCells, Finset.mem_product, Finset.mem_Icc] at ha hb
  unfold do_overlap at h
  split_ifs at h with h1 h2
  · rcases h1 with h1 | h1 <;> omega
  · rcases h2 with h2 | h2 <;> omega

/-- The raster library obeys the laws. -/
def laws : CgalLaws cgal (Finset Cell) where
  region ps := ps.toFinset
  regionPwh c := {c}
  regionBox := boxCells
  regionPoly p := (cellsOf p).toFinset
  region_empty := rfl
  region_join ps ws := by
    show (ps ++ ws).toFinset = _
    rw [joinAll_singletons, List.toFinset_append]
    rfl
  region_joinSet a b := by
    show (a ++ b).toFinset = _
    rw [List.toFinset_append]
    rfl
  region_difference a b := by
    show (a.filter fun c => decide (c ∉ b)).toFinset = a.toFinset \ b.toFinset
    ext c
    simp
  region_of_none a h := by
    have : a = [] := List.length_eq_zero.1 h
    subst this
    rfl
  region_parts a := joinAll_singletons a
  pwh_le_bbox c := by
    show ({c} : Finset Cell) ≤ boxCells { lo := c, hi := c }
    intro d hd
    rw [Finset.mem_singleton] at hd
    subst hd
    simp [boxCells]
  box_disjoint := do_overlap_false
  toCgal_region p ps bb h := by
    have h' : (match cellsOf p with
        | [] => none
        | c :: cs => some (c :: cs, boxOf c cs)) = some (ps, bb) := h
    cases hc : cellsOf p with
    | nil => rw [hc] at h'; cases h'
    | cons c cs =>
      rw [hc] at h'
      simp only [Option.some.injEq, Prod.mk.injEq] at h'
      obtain ⟨h1, h2⟩ := h'
      subst h1; subst h2
      refine ⟨by show (c :: cs).toFinset = (cellsOf p).toFinset; rw [hc], ?_⟩
      intro d hd
      rw [List.mem_toFinset] at hd
      have hb := boxOf_bounds cs { lo := c, hi := c } d (by
        rcases List.mem_cons.1 hd with e | e
        · subst e; exact Or.inr ⟨le_refl _, le_refl _, le_refl _, le_refl _⟩
        · exact Or.inl e)
      simp only [boxCells, Finset.mem_product, Finset.mem_Icc]
      exact ⟨⟨hb.1, hb.2.2.1⟩, ⟨hb.2.1, hb.2.2.2⟩⟩
  toTg_region ps p := by
    show (cellsOf _).toFinset = ps.toFinset
    congr 1
    simp [cellsOf, cgal, SGGeod.fromDeg, Function.comp_def]

end Raster

namespace tgAccumulator
variable {PS PWH BB : Type}

/-- If every entry of the accumulator lies in its stored box, subtracting
what `GetAccumPolygonSet` selects for the subject's box is subtracting the
whole accumulator. -/
theorem sdiff_GetAccumPolygonSet {R : Type} [GeneralizedBooleanAlgebra R]
    {C : Cgal PS PWH BB} (L : CgalLaws C R) (acc : tgAccumulator PS PWH BB) (bb : BB) (b : R)
    (hb : b ≤ L.regionBox bb)
    (hacc : ∀ e ∈ acc.accum_cgal_list, L.regionPwh e.pwh ≤ L.regionBox e.bbox) :
    b \ L.region (GetAccumPolygonSet C acc bb) = b \ unionOf L acc := by
  rw [region_GetAccumPolygonSet]
  unfold unionOf
  apply sdiff_joinAll_filter
  intro e he hk
  have h1 := L.box_disjoint bb e.bbox hk
  exact le_bot_iff.1 (h1 ▸ inf_le_inf hb (hacc e he))

theorem AddAccumPolygonSet_boxed {R : Type} [GeneralizedBooleanAlgebra R]
    {C : Cgal PS PWH BB} (L : CgalLaws C R) (acc : tgAccumulator PS PWH BB) (ps : PS)
    (hacc : ∀ e ∈ acc.accum_cgal_list, L.regionPwh e.pwh ≤ L.regionBox e.bbox) :
    ∀ e ∈ (AddAccumPolygonSet C acc ps).accum_cgal_list,
      L.regionPwh e.pwh ≤ L.regionBox e.bbox := by
  intro e he
  unfold AddAccumPolygonSet at he
  rcases List.mem_append.1 he with h | h
  · exact hacc e h
  · obtain ⟨w, _, hw⟩ := List.mem_map.1 h
    subst hw
    exact L.pwh_le_bbox w

/-- C19: when the polygon `p` converts, to the set `ps`, what
`Diff_and_Add_cgal(p)` appends to the accumulator are the polygons with
holes of `ps` itself, the set before the difference was taken, each with its
bounding box; their regions add up to the region of `p`, the original
geometry, and the union of the accumulator afterwards is the union before
joined with the region of `p`. -/
theorem Diff_and_Add_adds_original {R : Type} [GeneralizedBooleanAlgebra R]
    {C : Cgal PS PWH BB} (L : CgalLaws C R) (p : tgPolygon) (acc : tgAccumulator PS PWH BB)
    (ps : PS) (bb : BB) (h : C.ToCgalPolyWithHoles p = some (ps, bb)) :
    (Diff_and_Add_cgal C p acc).2.accum_cgal_list =
      acc.accum_cgal_list ++
        (C.polygons_with_holes ps).map (fun w => { pwh := w, bbox := C.bbox w }) ∧
    joinAll ((C.polygons_with_holes ps).map L.regionPwh) = L.regionPoly p ∧
    unionOf L (Diff_and_Add_cgal C p acc).2 = unionOf L acc ⊔ L.regionPoly p := by
  refine ⟨?_, ?_, ?_⟩
  · rw [(region_Diff_and_Add L p acc ps bb h).2]
    rfl
  · rw [L.region_parts, (L.toCgal_region p ps bb h).1]
  · rw [(region_Diff_and_Add L p acc ps bb h).2, unionOf_AddAccumPolygonSet,
      (L.toCgal_region p ps bb h).1]

theorem Diff_and_Add_adds_original_witness :
    Raster.cgal.ToCgalPolyWithHoles Raster.squareB =
      some ([(1, 1), (2, 1), (2, 2), (1, 2)], { lo := (1, 1), hi := (2, 2) }) ∧
    Raster.cellsOf (Diff_and_Add_cgal Raster.cgal Raster.squareB Raster.stocked).1 =
      [(2, 1), (2, 2), (1, 2)] ∧
    (Diff_and_Add_cgal Raster.cgal Raster.squareB Raster.stocked).2.accum_cgal_list =
      Raster.stocked.accum_cgal_list ++
        (Raster.cgal.polygons_with_holes [(1, 1), (2, 1), (2, 2), (1, 2)]).map
          (fun w => { pwh := w, bbox := Raster.cgal.bbox w }) ∧
    joinAll ((Raster.cgal.polygons_with_holes [(1, 1), (2, 1), (2, 2), (1, 2)]).map
      Raster.laws.regionPwh) = Raster.laws.regionPoly Raster.squareB ∧
    unionOf Raster.laws (Diff_and_Add_cgal Raster.cgal Raster.squareB Raster.stocked).2 =
      unionOf Raster.laws Raster.stocked ⊔ Raster.laws.regionPoly Raster.squareB :=
  ⟨by decide!, by decide!,
    Diff_and_Add_adds_original Raster.laws Raster.squareB Raster.stocked
      [(1, 1), (2, 1), (2, 2), (1, 2)] { lo := (1, 1), hi := (2, 2) } (by decide!)⟩

/-- C18 (P5): when `A` and then `B` go through `Diff_and_Add_cgal`, starting
from an empty accumulator, and both convert, the first polygon handed back
has the region of `A`, the second the region of `B` minus `A`; the two
regions do not meet, and together they make up `A ∪ B`. -/
theorem Diff_and_Add_pair {R : Type} [GeneralizedBooleanAlgebra R]
    {C : Cgal PS PWH BB} (L : CgalLaws C R) (A B : tgPolygon) (acc : tgAccumulator PS PWH BB)
    (psA psB : PS) (bbA bbB : BB) (h0 : acc.accum_cgal_list = [])
    (hA : C.ToCgalPolyWithHoles A = some (psA, bbA))
    (hB : C.ToCgalPolyWithHoles B = some (psB, bbB)) :
    L.regionPoly (Diff_and_Add_cgal C A acc).1 = L.regionPoly A ∧
    L.regionPoly (Diff_and_Add_cgal C B (Diff_and_Add_cgal C A acc).2).1 =
      L.regionPoly B \ L.regionPoly A ∧
    L.regionPoly (Diff_and_Add_cgal C A acc).1 ⊓
      L.regionPoly (Diff_and_Add_cgal C B (Diff_and_Add_cgal C A acc).2).1 = ⊥ ∧
    L.regionPoly (Diff_and_Add_cgal C A acc).1 ⊔
      L.regionPoly (Diff_and_Add_cgal C B (Diff_and_Add_cgal C A acc).2).1 =
        L.regionPoly A ⊔ L.regionPoly B := by
  have hu0 : unionOf L acc = ⊥ := by unfold unionOf; rw [h0]; rfl
  have hbox0 : ∀ e ∈ acc.accum_cgal_list, L.regionPwh e.pwh ≤ L.regionBox e.bbox := by
    rw [h0]; intro e he; cases he
  obtain ⟨a1, a2⟩ := region_Diff_and_Add L A acc psA bbA hA
  have hA' := L.toCgal_region A psA bbA hA
  have hB' := L.toCgal_region B psB bbB hB
  have r1 : L.regionPoly (Diff_and_Add_cgal C A acc).1 = L.regionPoly A := by
    rw [a1, ← hA'.1, sdiff_GetAccumPolygonSet L acc bbA _ hA'.2 hbox0, hu0, sdiff_bot]
  obtain ⟨b1, _⟩ := region_Diff_and_Add L B (Diff_and_Add_cgal C A acc).2 psB bbB hB
  have r2 : L.regionPoly (Diff_and_Add_cgal C B (Diff_and_Add_cgal C A acc).2).1 =
      L.regionPoly B \ L.regionPoly A := by
    rw [b1, ← hB'.1, sdiff_GetAccumPolygonSet L _ bbB _ hB'.2
      (by rw [a2]; exact AddAccumPolygonSet_boxed L acc psA hbox0),
      a2, unionOf_AddAccumPolygonSet, hu0, bot_sup_eq, hA'.1]
  refine ⟨r1, r2, ?_, ?_⟩
  · rw [r1, r2]; exact inf_sdiff_self_right
  · rw [r1, r2]; exact sup_sdiff_self_right _ _

theorem Diff_and_Add_pair_witness :
    Raster.start.accum_cgal_list = [] ∧
    Raster.cgal.ToCgalPolyWithHoles Raster.squareA =
      some ([(0, 0), (1, 0), (1, 1), (0, 1)], { lo := (0, 0), hi := (1, 1) }) ∧
    Raster.cgal.ToCgalPolyWithHoles Raster.squareB =
      some ([(1, 1), (2, 1), (2, 2), (1, 2)], { lo := (1, 1), hi := (2, 2) }) ∧
    Raster.laws.regionPoly (Diff_and_Add_cgal Raster.cgal Raster.squareA Raster.start).1 =
      Raster.laws.regionPoly Raster.squareA ∧
    Raster.laws.regionPoly (Diff_and_Add_cgal Raster.cgal Raster.squareB
        (Diff_and_Add_cgal Raster.cgal Raster.squareA Raster.start).2).1 =
      Raster.laws.regionPoly Raster.squareB \ Raster.laws.regionPoly Raster.squareA ∧
    Raster.laws.regionPoly (Diff_and_Add_cgal Raster.cgal Raster.squareA Raster.start).1 ⊓
      Raster.laws.regionPoly (Diff_and_Add_cgal Raster.cgal Raster.squareB
        (Diff_and_Add_cgal Raster.cgal Raster.squareA Raster.start).2).1 = ⊥ ∧
    Raster.laws.regionPoly (Diff_and_Add_cgal Raster.cgal Raster.squareA Raster.start).1 ⊔
      Raster.laws.regionPoly (Diff_and_Add_cgal Raster.cgal Raster.squareB
        (Diff_and_Add_cgal Raster.cgal Raster.squareA Raster.start).2).1 =
        Raster.laws.regionPoly Raster.squareA ⊔ Raster.laws.regionPoly Raster.squareB :=
  ⟨rfl, by decide!, by decide!,
    Diff_and_Add_pair Raster.laws Raster.squareA Raster.squareB Raster.start
      [(0, 0), (1, 0), (1, 1), (0, 1)] [(1, 1), (2, 1), (2, 2), (1, 2)]
      { lo := (0, 0), hi := (1, 1) } { lo := (1, 1), hi := (2, 2) } rfl
      (by decide!) (by decide!)⟩

end tgAccumulator

/-! ### Claim C11 -/

theorem digitChar_isDigit (d : Nat) (h : d < 10) :
    (Nat.digitChar d).isDigit = true ∧ digitValue (Nat.digitChar d) = d := by
  interval_cases d <;> exact ⟨by decide, by decide⟩

theorem toDigitsCore_isDigit (fuel : Nat) :
    ∀ (n : Nat) (ds : List Char), (∀ c ∈ ds, c.isDigit = true) →
      ∀ c ∈ Nat.toDigitsCore 10 fuel n ds, c.isDigit = true := by
  induction fuel with
  | zero => intro n ds h c hc; exact h c hc
  | succ f ih =>
    intro n ds h c hc
    unfold Nat.toDigitsCore at hc
    have hd : ∀ c ∈ Nat.digitChar (n % 10) :: ds, c.isDigit = true := by
      intro c hc
      rcases List.mem_cons.1 hc with e | e
      · rw [e]; exact (digitChar_isDigit _ (Nat.mod_lt _ (by decide))).1
      · exact h c e
    simp only at hc
    split_ifs at hc
    · exact hd c hc
    · exact ih _ _ hd c hc

theorem readDigits_toDigitsCore (fuel : Nat) :
    ∀ (n : Nat) (ds : List Char), n < fuel →
      readDigits 0 (Nat.toDigitsCore 10 fuel n ds) = readDigits n ds := by
  induction fuel with
  | zero => intro n ds h; omega
  | succ f ih =>
    intro n ds h
    unfold Nat.toDigitsCore
    have hv := (digitChar_isDigit (n % 10) (Nat.mod_lt _ (by decide))).2
    simp only
    split_ifs with h0
    · simp only [readDigits, List.foldl_cons, hv]
      congr 1
      omega
    · rw [ih (n / 10) _ (by omega)]
      simp only [readDigits, List.foldl_cons, hv]
      congr 1
      omega

theorem Nat_repr_isDigit (n : Nat) : ∀ c ∈ (Nat.repr n).data, c.isDigit = true := by
  intro c hc
  exact toDigitsCore_isDigit _ _ _ (by simp) c hc

theorem Nat_repr_injective (a b : Nat) (h : Nat.repr a = Nat.repr b) : a = b := by
  have ha := readDigits_toDigitsCore (a + 1) a [] (by omega)
  have hb := readDigits_toDigitsCore (b + 1) b [] (by omega)
  have h' : Nat.toDigitsCore 10 (a + 1) a [] = Nat.toDigitsCore 10 (b + 1) b [] := by
    have := congrArg String.data h
    exact this
  rw [h'] at ha
  simpa [readDigits] using ha.symm.trans hb

/-- The characters of a rendered integer are digits or the minus sign. -/
theorem Int_toString_chars (i : Int) :
    ∀ c ∈ (toString i).data, c.isDigit = true ∨ c = '-' := by
  intro c hc
  cases i with
  | ofNat m => exact Or.inl (Nat_repr_isDigit m c hc)
  | negSucc m =>
    have : (toString (Int.negSucc m)).data = '-' :: (Nat.repr (m + 1)).data := rfl
    rw [this] at hc
    rcases List.mem_cons.1 hc with e | e
    · exact Or.inr e
    · exact Or.inl (Nat_repr_isDigit _ c e)

theorem Int_toString_injective (i j : Int) (h : toString i = toString j) : i = j := by
  have hd := congrArg String.data h
  cases i with
  | ofNat a =>
    cases j with
    | ofNat b =>
      have : Nat.repr a = Nat.repr b := h
      rw [Nat_repr_injective a b this]
    | negSucc b =>
      exfalso
      have h1 : (toString (Int.negSucc b)).data = '-' :: (Nat.repr (b + 1)).data := rfl
      have h2 : '-' ∈ (toString (Int.ofNat a)).data := by rw [hd, h1]; exact List.mem_cons_self _ _
      have := Nat_repr_isDigit a '-' h2
      revert this; decide
  | negSucc a =>
    cases j with
    | ofNat b =>
      exfalso
      have h1 : (toString (Int.negSucc a)).data = '-' :: (Nat.repr (a + 1)).data := rfl
      have h2 : '-' ∈ (toString (Int.ofNat b)).data := by rw [← hd, h1]; exact List.mem_cons_self _ _
      have := Nat_repr_isDigit b '-' h2
      revert this; decide
    | negSucc b =>
      have h1 : (toString (Int.negSucc a)).data = '-' :: (Nat.repr (a + 1)).data := rfl
      have h2 : (toString (Int.negSucc b)).data = '-' :: (Nat.repr (b + 1)).data := rfl
      rw [h1, h2] at hd
      have h3 : (Nat.repr (a + 1)).data = (Nat.repr (b + 1)).data := (List.cons.inj hd).2
      have h4 : Nat.repr (a + 1) = Nat.repr (b + 1) := String.ext h3
      have := Nat_repr_injective _ _ h4
      have : a = b := by omega
      rw [this]

/-- A list is split in one way only at the last occurrence of a character. -/
theorem split_at_last (c : Char) :
    ∀ (l₁ l₂ t₁ t₂ : List Char), l₁ ++ c :: t₁ = l₂ ++ c :: t₂ → c ∉ t₁ → c ∉ t₂ →
      l₁ = l₂ ∧ t₁ = t₂ := by
  intro l₁
  induction l₁ with
  | nil =>
    intro l₂ t₁ t₂ h h1 h2
    cases l₂ with
    | nil => exact ⟨rfl, (List.cons.inj h).2⟩
    | cons x l₂ =>
      exfalso
      simp only [List.nil_append, List.cons_append, List.cons.injEq] at h
      exact h1 (by rw [h.2]; simp)
  | cons y l₁ ih =>
    intro l₂ t₁ t₂ h h1 h2
    cases l₂ with
    | nil =>
      exfalso
      simp only [List.nil_append, List.cons_append, List.cons.injEq] at h
      exact h2 (by rw [← h.2]; simp)
    | cons x l₂ =>
      simp only [List.cons_append, List.cons.injEq] at h
      obtain ⟨e1, e2⟩ := ih l₂ t₁ t₂ h.2 h1 h2
      exact ⟨by rw [h.1, e1], e2⟩


namespace tgChopper
variable {B : Type}

theorem not_mem_toString (i : Int) (c : Char) (h1 : c.isDigit = false) (h2 : c ≠ '-') :
    c ∉ (toString i).data := by
  intro hc
  rcases Int_toString_chars i c hc with h | h
  · rw [h1] at h; cases h
  · exact h2 h

theorem render_injective (a b : Ticket) (h : render a = render b) :
    a.1 = b.1 ∧ a.2.2 = b.2.2 := by
  have hd := congrArg String.data h
  simp only [render, String.data_append] at hd
  have hd' : (a.1.data ++ ['/'] ++ (toString a.2.1).data) ++ '.' :: (toString a.2.2).data =
      (b.1.data ++ ['/'] ++ (toString b.2.1).data) ++ '.' :: (toString b.2.2).data := by
    simpa using hd
  obtain ⟨h1, h2⟩ := split_at_last '.' _ _ _ _ hd'
    (not_mem_toString _ _ (by decide) (by decide)) (not_mem_toString _ _ (by decide) (by decide))
  have h1' : a.1.data ++ '/' :: (toString a.2.1).data =
      b.1.data ++ '/' :: (toString b.2.1).data := by simpa using h1
  obtain ⟨h3, _⟩ := split_at_last '/' _ _ _ _ h1'
    (not_mem_toString _ _ (by decide) (by decide)) (not_mem_toString _ _ (by decide) (by decide))
  exact ⟨String.ext h3, Int_toString_injective _ _ (String.ext h2)⟩

theorem polyFile_eq_render (E : Externals B) (root_path : String) (k q : Int) :
    polyFile E root_path k q =
      render (tileDir E root_path k, E.gen_index (E.bucketOfIndex k), q) := rfl

theorem Tickets.tickets_refl (fs : FileSys) : Tickets fs fs 0 [] :=
  ⟨by simp, by simp, List.Pairwise.nil, fun d => ⟨le_refl _, by simp⟩⟩

theorem Tickets.tickets_mono {fs fs' : FileSys} {n m : Nat} {T : List Ticket}
    (h : Tickets fs fs' n T) (hnm : n ≤ m) : Tickets fs fs' m T :=
  ⟨h.1, h.2.1, h.2.2.1, fun d => ⟨(h.2.2.2 d).1,
    le_trans (h.2.2.2 d).2 (by have : (n : Int) ≤ m := by exact_mod_cast hnm
                               omega)⟩⟩

theorem Tickets.tickets_trans {fs fs₁ fs₂ : FileSys} {n m : Nat} {T₁ T₂ : List Ticket}
    (h₁ : Tickets fs fs₁ n T₁) (h₂ : Tickets fs₁ fs₂ m T₂) :
    Tickets fs fs₂ (n + m) (T₁ ++ T₂) := by
  refine ⟨?_, ?_, ?_, ?_⟩
  · rw [h₂.1, h₁.1]; simp
  · intro t ht
    rcases List.mem_append.1 ht with h | h
    · exact ⟨(h₁.2.1 t h).1, le_trans (h₁.2.1 t h).2 (h₂.2.2.2 t.1).1⟩
    · exact ⟨lt_of_le_of_lt (h₁.2.2.2 t.1).1 (h₂.2.1 t h).1, (h₂.2.1 t h).2⟩
  · rw [List.pairwise_append]
    refine ⟨h₁.2.2.1, h₂.2.2.1, ?_⟩
    intro a ha b hb hab
    have h1 := (h₁.2.1 a ha).2
    have h2 := (h₂.2.1 b hb).1
    rw [← hab] at h2
    exact lt_of_le_of_lt h1 h2
  · intro d
    refine ⟨le_trans (h₁.2.2.2 d).1 (h₂.2.2.2 d).1, ?_⟩
    have := (h₁.2.2.2 d).2
    have := (h₂.2.2.2 d).2
    push_cast
    omega

theorem Tickets.tickets_nodup {fs fs' : FileSys} {n : Nat} {T : List Ticket}
    (h : Tickets fs fs' n T) : (T.map render).Nodup := by
  rw [List.Nodup, List.pairwise_map]
  refine h.2.2.1.imp ?_
  intro a b hab e
  obtain ⟨e1, e2⟩ := render_injective a b e
  have := hab e1
  omega

theorem chop_idx_injective (d d' : String) (h : d ++ "/chop.idx" = d' ++ "/chop.idx") :
    d = d' := by
  have hd := congrArg String.data h
  simp only [String.data_append] at hd
  exact String.ext (List.append_cancel_right hd)

theorem counterValue_update (fs : FileSys) (d d' : String) (q : Int) (w : List (String × List Item))
    (ds : List String) (iss : List (String × Int)) :
    counterValue { fs with
      index := Function.update fs.index (d ++ "/chop.idx") (IndexFile.holds q)
      written := w, dirs := ds, issued := iss } d' =
      if d' = d then q else counterValue fs d' := by
  unfold counterValue
  by_cases e : d' = d
  · subst e; simp [Function.update]
  · have : d' ++ "/chop.idx" ≠ d ++ "/chop.idx" := fun h => e (chop_idx_injective _ _ h)
    simp [Function.update, this, e]

theorem GenerateIndex_cases (path : String) (fs : FileSys) :
    GenerateIndex path fs = bumpIndex path (counterValue fs path) fs ∨
    GenerateIndex path fs = Outcome.exited (0, fs) 0 := by
  by_cases hc : fs.index (path ++ "/chop.idx") = IndexFile.absent →
      fs.creatable (path ++ "/chop.idx") = true
  · exact Or.inl (GenerateIndex_of_value path fs hc)
  · right
    have h1 : fs.index (path ++ "/chop.idx") = IndexFile.absent := by
      by_contra h; exact hc (fun h' => absurd h' h)
    have h2 : fs.creatable (path ++ "/chop.idx") = false := by
      by_contra h; exact hc (fun _ => by simpa using h)
    unfold GenerateIndex
    simp [h1, h2]

theorem Tickets_of_write (fs : FileSys) (d : String) (i : Int) (ds : List String)
    (body : List Item) (h : counterValue fs d < LONG_MAX) :
    Tickets fs
      { fs with
        index := Function.update fs.index (d ++ "/chop.idx")
          (IndexFile.holds (counterValue fs d + 1))
        written := fs.written ++ [(render (d, i, counterValue fs d + 1), body)]
        dirs := ds
        issued := fs.issued ++ [(d, counterValue fs d + 1)] } 1
      [(d, i, counterValue fs d + 1)] := by
  refine ⟨by simp, ?_, by simp, ?_⟩
  · intro t ht
    rw [List.mem_singleton] at ht
    subst ht
    rw [counterValue_update]
    simp
  · intro d'
    rw [counterValue_update]
    by_cases e : d' = d
    · subst e; simp
    · simp [e]

theorem Tickets_of_bump (fs : FileSys) (d : String) (ds : List String) :
    Tickets fs
      { fs with
        index := Function.update fs.index (d ++ "/chop.idx")
          (IndexFile.holds (counterValue fs d + 1))
        written := fs.written
        dirs := ds
        issued := fs.issued ++ [(d, counterValue fs d + 1)] } 1 [] := by
  refine ⟨by simp, by simp, List.Pairwise.nil, ?_⟩
  intro d'
  rw [counterValue_update]
  by_cases e : d' = d
  · subst e; simp
  · simp [e]

theorem Tickets_of_dirs (fs : FileSys) (ds : List String) :
    Tickets fs { fs with dirs := ds } 0 [] :=
  ⟨by simp, by simp, List.Pairwise.nil, fun d => ⟨le_refl _, by simp [counterValue]⟩⟩

theorem saveEntries_tickets (E : Externals B) (root_path : String)
    (l : List (Int × List tgPolygon)) :
    ∀ fs fs' : FileSys, (∀ d, counterValue fs d + l.length ≤ LONG_MAX) →
      (saveEntries E root_path l fs).state? = some fs' →
      ∃ T, Tickets fs fs' l.length T := by
  induction l with
  | nil =>
    intro fs fs' _ h
    simp only [saveEntries, Outcome.state?, Option.some.injEq] at h
    subst h
    exact ⟨[], Tickets.tickets_refl fs⟩
  | cons e rest ih =>
    intro fs fs' hb h
    obtain ⟨k, polys⟩ := e
    have hlt : counterValue fs (tileDir E root_path k) < LONG_MAX := by
      have := hb (tileDir E root_path k)
      simp only [List.length_cons] at this
      push_cast at this
      omega
    unfold saveEntries at h
    simp only at h
    rcases GenerateIndex_cases (tileDir E root_path k)
        { fs with dirs := fs.dirs ++
          [tileDir E root_path k ++ "/" ++ toString (E.gen_index (E.bucketOfIndex k))] }
      with hg | hg
    · rw [hg] at h
      have hcv : counterValue { fs with dirs := fs.dirs ++
          [tileDir E root_path k ++ "/" ++ toString (E.gen_index (E.bucketOfIndex k))] }
          (tileDir E root_path k) = counterValue fs (tileDir E root_path k) := rfl
      simp only [bumpIndex, hcv, incrLong_of_lt _ hlt] at h
      split_ifs at h with hw
      · have hstep := Tickets_of_write fs (tileDir E root_path k)
          (E.gen_index (E.bucketOfIndex k))
          (fs.dirs ++
            [tileDir E root_path k ++ "/" ++ toString (E.gen_index (E.bucketOfIndex k))])
          (fileBody polys) hlt
        obtain ⟨T, hT⟩ := ih _ fs' (by
          intro d
          have h1 := (hstep.2.2.2 d).2
          have h2 := hb d
          simp only [List.length_cons] at h2
          push_cast at h2
          have h3 : counterValue _ d ≤ counterValue fs d + 1 := h1
          exact le_trans (add_le_add_right h3 _) (by omega)) h
        refine ⟨(tileDir E root_path k, E.gen_index (E.bucketOfIndex k),
          counterValue fs (tileDir E root_path k) + 1) :: T, ?_⟩
        have := Tickets.tickets_trans hstep hT
        simp only [List.length_cons]
        rw [Nat.add_comm]
        exact this
      · simp only [Outcome.state?, Option.some.injEq] at h
        subst h
        exact ⟨[], (Tickets_of_bump fs (tileDir E root_path k) _).tickets_mono
          (by simp)⟩
    · rw [hg] at h
      simp only [Outcome.state?, Option.some.injEq] at h
      subst h
      exact ⟨[], (Tickets_of_dirs fs _).tickets_mono (by simp)⟩


theorem Save_tickets (E : Externals B) (st : Chopper B) (fs : FileSys) (r : Chopper B × FileSys)
    (hb : ∀ d, counterValue fs d + st.bp_map.entries.length ≤ LONG_MAX)
    (h : (Save E st fs).state? = some r) :
    ∃ T, Tickets fs r.2 st.bp_map.entries.length T := by
  unfold Save at h
  cases hs : saveEntries E st.root_path st.bp_map.entries fs with
  | returned f =>
    rw [hs] at h; simp only [Outcome.state?, Option.some.injEq] at h; subst h
    exact saveEntries_tickets E _ _ fs f hb (by rw [hs]; rfl)
  | raised f m =>
    rw [hs] at h; simp only [Outcome.state?, Option.some.injEq] at h; subst h
    exact saveEntries_tickets E _ _ fs f hb (by rw [hs]; rfl)
  | exited f c =>
    rw [hs] at h; simp only [Outcome.state?, Option.some.injEq] at h; subst h
    exact saveEntries_tickets E _ _ fs f hb (by rw [hs]; rfl)
  | outOfFuel => rw [hs] at h; simp [Outcome.state?] at h

theorem saveRuns_tickets (E : Externals B) (sts : List (Chopper B)) :
    ∀ fs fs' : FileSys, (∀ d, counterValue fs d + fileCount sts ≤ LONG_MAX) →
      (saveRuns E sts fs).state? = some fs' → ∃ T, Tickets fs fs' (fileCount sts) T := by
  induction sts with
  | nil =>
    intro fs fs' _ h
    simp only [saveRuns, Outcome.state?, Option.some.injEq] at h
    subst h
    exact ⟨[], Tickets.tickets_refl fs⟩
  | cons st rest ih =>
    intro fs fs' hb h
    have hfc : fileCount (st :: rest) = st.bp_map.entries.length + fileCount rest := by
      simp [fileCount]
    have hb1 : ∀ d, counterValue fs d + st.bp_map.entries.length ≤ LONG_MAX := by
      intro d
      have := hb d
      rw [hfc] at this
      push_cast at this
      omega
    unfold saveRuns at h
    cases hs : Save E st fs with
    | returned r =>
      obtain ⟨st₁, fs₁⟩ := r
      rw [hs] at h
      simp only at h
      obtain ⟨T₁, hT₁⟩ := Save_tickets E st fs (st₁, fs₁) hb1 (by rw [hs]; rfl)
      obtain ⟨T₂, hT₂⟩ := ih fs₁ fs' (by
        intro d
        have h1 := (hT₁.2.2.2 d).2
        have h2 := hb d
        rw [hfc] at h2
        push_cast at h2
        have h3 : counterValue fs₁ d ≤ counterValue fs d + st.bp_map.entries.length := h1
        omega) h
      exact ⟨T₁ ++ T₂, by rw [hfc]; exact Tickets.tickets_trans hT₁ hT₂⟩
    | raised r m =>
      obtain ⟨st₁, fs₁⟩ := r
      rw [hs] at h
      simp only [Outcome.state?, Option.some.injEq] at h
      subst h
      obtain ⟨T₁, hT₁⟩ := Save_tickets E st fs (st₁, fs₁) hb1 (by rw [hs]; rfl)
      exact ⟨T₁, hT₁.tickets_mono (by rw [hfc]; omega)⟩
    | exited r c =>
      obtain ⟨st₁, fs₁⟩ := r
      rw [hs] at h
      simp only [Outcome.state?, Option.some.injEq] at h
      subst h
      obtain ⟨T₁, hT₁⟩ := Save_tickets E st fs (st₁, fs₁) hb1 (by rw [hs]; rfl)
      exact ⟨T₁, hT₁.tickets_mono (by rw [hfc]; omega)⟩
    | outOfFuel => rw [hs] at h; simp [Outcome.state?] at h

theorem saveRuns_of_open (E : Externals B) (sts : List (Chopper B)) :
    ∀ fs : FileSys, (∀ p, fs.creatable p = true) → (∀ p, fs.writable p = true) →
      ∃ fs', saveRuns E sts fs = Outcome.returned fs' := by
  induction sts with
  | nil => intro fs _ _; exact ⟨fs, rfl⟩
  | cons st rest ih =>
    intro fs hc hw
    obtain ⟨fs₁, _, h1, _, _, _⟩ :=
      saveEntries_of_open E st.root_path st.bp_map.entries fs hc hw
    obtain ⟨p1, p2⟩ := saveEntries_perms _ _ _ _ _ h1
    obtain ⟨fs', h2⟩ := ih fs₁ (fun p => by rw [p1]; exact hc p) (fun p => by rw [p2]; exact hw p)
    refine ⟨fs', ?_⟩
    unfold saveRuns Save
    rw [h1]
    exact h2

/-- C11: `Save` never writes to a path twice. For every sequence of `Save`
calls into one file system, in which only `GenerateIndex` touches the
counter files, the files the calls write (also when the sequence is cut
short by an exit) all have different paths, provided no counter is driven
past `LONG_MAX`: every counter value at the start, plus the number of
buckets to write, stays within a `long`. -/
theorem Save_never_reuses_a_path (E : Externals B) (sts : List (Chopper B))
    (fs fs' : FileSys) (hb : ∀ d, counterValue fs d + fileCount sts ≤ LONG_MAX)
    (h : (saveRuns E sts fs).state? = some fs') :
    ∃ W, fs'.written.map Prod.fst = fs.written.map Prod.fst ++ W ∧ W.Nodup := by
  obtain ⟨T, hT⟩ := saveRuns_tickets E sts fs fs' hb h
  exact ⟨T.map render, hT.1, hT.tickets_nodup⟩

theorem Save_never_reuses_a_path_witness :
    (∀ d, counterValue Ref.disk d + fileCount [Ref.twoTiles, Ref.twoTiles] ≤ LONG_MAX) ∧
    ∃ fs', (saveRuns Ref.externals [Ref.twoTiles, Ref.twoTiles] Ref.disk).state? = some fs' ∧
      ∃ W, fs'.written.map Prod.fst = Ref.disk.written.map Prod.fst ++ W ∧ W.Nodup := by
  have hb : ∀ d, counterValue Ref.disk d + fileCount [Ref.twoTiles, Ref.twoTiles] ≤
      LONG_MAX := fun d => by
    have h1 : counterValue Ref.disk d = 0 := rfl
    have h2 : fileCount [Ref.twoTiles, Ref.twoTiles] = 4 := by decide
    rw [h1, h2]
    decide
  obtain ⟨fs', h⟩ := saveRuns_of_open Ref.externals [Ref.twoTiles, Ref.twoTiles] Ref.disk
    (fun _ => rfl) (fun _ => rfl)
  have h' : (saveRuns Ref.externals [Ref.twoTiles, Ref.twoTiles] Ref.disk).state? =
      some fs' := by rw [h]; rfl
  exact ⟨hb, fs', h',
    Save_never_reuses_a_path Ref.externals [Ref.twoTiles, Ref.twoTiles] Ref.disk fs' hb h'⟩

end tgChopper

/-! ### Claims C1, C2, C3 -/

namespace tgChopper
variable {B : Type}

/-- C1, the code at the failing input: the triangle near the north pole has
area 1/10 and lies in the polar bucket (both corners of its bounding box map
to it). `Add` returns normally, but stores no fragment at all: `Clip`
intersects the triangle with the rectangle of longitudes 89° to 90° and
latitudes -180° to 180°, the polar branch passing latitude and longitude to
`SGGeod::fromDeg` in the wrong order. -/
theorem Add_loses_polar_polygon :
    Ref.area Ref.polarTriangle = 1 / 10 ∧
    cornerMin Ref.externals Ref.polarTriangle = cornerMax Ref.externals Ref.polarTriangle ∧
    clipBase Ref.externals (cornerMin Ref.externals Ref.polarTriangle) =
      Ref.ring [(89, -180), (90, -180), (90, 180), (89, 180)] ∧
    ∃ st', Add Ref.externals 1 Ref.polarTriangle "Grass" Ref.fresh = Outcome.returned st' ∧
      st'.bp_map.entries = [] := by
  refine ⟨by decide!, by decide!, by decide!, _,
    Add_of_single Ref.externals 0 Ref.polarTriangle "Grass" Ref.fresh (by decide)
      (by decide!), ?_⟩
  decide!

/-- C2, the code at the failing input: the triangle near the north pole lies
wholly inside the polar cell (longitudes -180° to 180°, latitudes 89° to
90°), yet `Add` followed by `Save` writes no file. -/
theorem Add_then_Save_writes_nothing_at_pole :
    Ref.GetBoundingBox Ref.polarTriangle =
      { min := SGGeod.fromDeg 0 (179 / 2), max := SGGeod.fromDeg 1 (897 / 10) } ∧
    Ref.polarTriangle.Contours = 1 ∧
    ∃ st' fs', Add Ref.externals 1 Ref.polarTriangle "Grass" Ref.fresh =
        Outcome.returned st' ∧
      Save Ref.externals st' Ref.disk = Outcome.returned (st', fs') ∧
      fs'.written = [] := by
  refine ⟨by decide!, by decide, _, Ref.disk,
    Add_of_single Ref.externals 0 Ref.polarTriangle "Grass" Ref.fresh (by decide)
      (by decide!), ?_, rfl⟩
  have h : (Clip Ref.externals Ref.polarTriangle "Grass"
      (cornerMin Ref.externals Ref.polarTriangle)
      (Ref.fresh.note (Event.add Ref.polarTriangle "Grass"))).bp_map.entries = [] := by
    decide!
  unfold Save
  rw [h]
  rfl

theorem fragment_contours (E : Externals B) (subject : tgPolygon) (type : String) (b : B) :
    (fragment E subject type b).contours = (clipResult E subject b).contours := by
  unfold fragment
  split <;> rfl

end tgChopper

/-! ### Claims C21 to C30 -/

namespace tgChopper
variable {B : Type}

theorem length_flatMap_const {α β : Type} (f : α → List β) (n : Nat)
    (hf : ∀ a, (f a).length = n) (l : List α) : (l.flatMap f).length = l.length * n := by
  induction l with
  | nil => simp
  | cons a as ih => rw [List.flatMap_cons, List.length_append, ih, hf, List.length_cons]; ring

theorem gridCells_length (E : Externals B) (lon lat : ℚ) (dx dy : Int) :
    (gridCells E lon lat dx dy).length = (dy + 1).toNat * (dx + 1).toNat := by
  unfold gridCells
  rw [length_flatMap_const _ (dx + 1).toNat (fun j => by simp [rowCells]), List.length_range]

/-- C21: for every non-empty polygon whose corner buckets differ, with
`0 ≤ dx ≤ 2880` and `0 ≤ dy ≤ 1`, `Add` returns, and what it did is, after
its own entry and the evaluation of the ceiling, one call of `Clip` for each
bucket of the fan-out and nothing else: there is no further entry of `Add`.
Every `Clip` is on the subject itself; the buckets are those at offset
`(i, j)` from the centre of the min-corner bucket, `i` from 0 to `dx` within
a row, rows `j` from 0 to `dy`, in that order; they are `(dx+1)·(dy+1)` in
number. -/
theorem Add_leaf_fan_out (E : Externals B) [DecidableEq B] (fuel : Nat) (subject : tgPolygon)
    (type : String) (st : Chopper B) (h0 : subject.Contours ≠ 0)
    (h1 : cornerMin E subject ≠ cornerMax E subject)
    (hx0 : 0 ≤ (gridSpan E subject).1) (hx : (gridSpan E subject).1 ≤ 2880)
    (hy0 : 0 ≤ (gridSpan E subject).2) (hy : (gridSpan E subject).2 ≤ 1) :
    ∃ st', Add E (fuel + 1) subject type st = Outcome.returned st' ∧
      st'.trace = st.trace ++
        [Event.add subject type, Event.sanity (gridSpan E subject).1 (gridSpan E subject).2] ++
        (leafCells E subject).map (Event.clip subject type) ∧
      leafCells E subject =
        ((List.range ((gridSpan E subject).2 + 1).toNat).flatMap fun (j : Nat) =>
          (List.range ((gridSpan E subject).1 + 1).toNat).map fun (i : Nat) =>
            E.sgBucketOffset (E.get_center_lon (cornerMin E subject))
              (E.get_center_lat (cornerMin E subject)) (i : Int) (j : Int)) ∧
      ((leafCells E subject).length : Int) =
        ((gridSpan E subject).1 + 1) * ((gridSpan E subject).2 + 1) := by
  refine ⟨_, Add_of_leaf E fuel subject type st h0 h1 (by omega) hy, ?_, rfl, ?_⟩
  · rw [leafClips_eq, clipAll_trace, checked_trace]
  · unfold leafCells
    rw [gridCells_length]
    push_cast
    rw [Int.toNat_of_nonneg (by omega), Int.toNat_of_nonneg (by omega)]
    ring

theorem Add_leaf_fan_out_witness :
    Ref.cornerTriangle.Contours ≠ 0 ∧
    cornerMin Ref.externals Ref.cornerTriangle ≠ cornerMax Ref.externals Ref.cornerTriangle ∧
    gridSpan Ref.externals Ref.cornerTriangle = (1, 1) ∧
    ∃ st', Add Ref.externals 1 Ref.cornerTriangle "Grass" Ref.fresh = Outcome.returned st' ∧
      st'.trace = Ref.fresh.trace ++
        [Event.add Ref.cornerTriangle "Grass",
          Event.sanity (gridSpan Ref.externals Ref.cornerTriangle).1
            (gridSpan Ref.externals Ref.cornerTriangle).2] ++
        (leafCells Ref.externals Ref.cornerTriangle).map (Event.clip Ref.cornerTriangle "Grass") ∧
      leafCells Ref.externals Ref.cornerTriangle =
        ((List.range ((gridSpan Ref.externals Ref.cornerTriangle).2 + 1).toNat).flatMap
          fun (j : Nat) =>
            (List.range ((gridSpan Ref.externals Ref.cornerTriangle).1 + 1).toNat).map
              fun (i : Nat) =>
                Ref.externals.sgBucketOffset
                  (Ref.externals.get_center_lon (cornerMin Ref.externals Ref.cornerTriangle))
                  (Ref.externals.get_center_lat (cornerMin Ref.externals Ref.cornerTriangle))
                  (i : Int) (j : Int)) ∧
      ((leafCells Ref.externals Ref.cornerTriangle).length : Int) =
        ((gridSpan Ref.externals Ref.cornerTriangle).1 + 1) *
          ((gridSpan Ref.externals Ref.cornerTriangle).2 + 1) :=
  ⟨by decide, by decide!, by decide!,
    Add_leaf_fan_out Ref.externals 0 Ref.cornerTriangle "Grass" Ref.fresh (by decide)
      (by decide!) (by decide!) (by decide!) (by decide!) (by decide!)⟩

/-- C24, the code at the failing input: for every bucket centre at latitude
89° or more the rectangle `Clip` builds is the ring (89, -180), (90, -180),
(90, 180), (89, 180) in (longitude, latitude), that is longitudes 89° to 90°
and latitudes -180° to 180°; below -89° it is longitudes -90° to -89° and
latitudes -180° to 180°. For the two polar buckets of the reference grid
this is not the polar cell, longitudes -180° to 180° and latitudes 89° to
90° (and -90° to -89°). -/
theorem Clip_polar_rectangle_is_swapped :
    (∀ (c : SGGeod) (span : ℚ), 89 ≤ c.lat →
      rectPoly (clipCorners c span).1 (clipCorners c span).2 =
        Ref.ring [(89, -180), (90, -180), (90, 180), (89, 180)]) ∧
    (∀ (c : SGGeod) (span : ℚ), c.lat < -89 →
      rectPoly (clipCorners c span).1 (clipCorners c span).2 =
        Ref.ring [(-90, -180), (-89, -180), (-89, 180), (-90, 180)]) ∧
    (Ref.externals.get_center Ref.northCap).lat = 179 / 2 ∧
    clipBase Ref.externals Ref.northCap =
      Ref.ring [(89, -180), (90, -180), (90, 180), (89, 180)] ∧
    clipBase Ref.externals Ref.northCap ≠
      Ref.ring [(-180, 89), (180, 89), (180, 90), (-180, 90)] ∧
    (Ref.externals.get_center Ref.southCap).lat = -179 / 2 ∧
    clipBase Ref.externals Ref.southCap =
      Ref.ring [(-90, -180), (-89, -180), (-89, 180), (-90, 180)] ∧
    clipBase Ref.externals Ref.southCap ≠
      Ref.ring [(-180, -90), (180, -90), (180, -89), (-180, -89)] := by
  refine ⟨?_, ?_, by decide!, by decide!, by decide!, by decide!, by decide!, by decide!⟩
  · intro c span h
    have h1 : ¬ (c.lat ≥ -89 ∧ c.lat < 89) := fun h' => absurd h (not_le.2 h'.2)
    have h2 : ¬ c.lat < -89 := by
      intro h'
      have : (89 : ℚ) < -89 := lt_of_le_of_lt h h'
      norm_num at this
    unfold clipCorners
    rw [if_neg h1, if_neg h2, if_pos h]
    rfl
  · intro c span h
    have h1 : ¬ (c.lat ≥ -89 ∧ c.lat < 89) := fun h' => absurd h'.1 (not_le.2 h)
    unfold clipCorners
    rw [if_neg h1, if_pos h]
    rfl

/-- C26: `Clip(subject, type, b)` appends exactly one fragment to the list
under the index of `b` when the intersection has a contour, and changes no
other list; when the intersection has no contour the whole map is as before.
`root_path` is never changed. The intersection meant is `Intersect(subject,
base)`, with elevations inherited when the subject preserves 3D. -/
theorem Clip_frame (E : Externals B) (subject : tgPolygon) (type : String) (b : B)
    (st : Chopper B) :
    (∀ k : Int, (Clip E subject type b st).bp_map.get k =
      if (clipResult E subject b).Contours > 0 ∧ k = E.gen_index b then
        st.bp_map.get k ++ [fragment E subject type b]
      else st.bp_map.get k) ∧
    ((clipResult E subject b).Contours > 0 ∨ (Clip E subject type b st).bp_map = st.bp_map) ∧
    (Clip E subject type b st).root_path = st.root_path ∧
    clipResult E subject b =
      (if subject.GetPreserve3D then
        E.InheritElevations (E.Intersect subject (clipBase E b)) subject
      else E.Intersect subject (clipBase E b)) := by
  refine ⟨fun k => Clip_get E subject type b st k, ?_, Clip_root_path E subject type b st, rfl⟩
  by_cases h : (clipResult E subject b).Contours > 0
  · exact Or.inl h
  · exact Or.inr (by rw [Clip_bp_map, if_neg h])

/-- C27: when `Add` splits (`dx ≤ 2880`, `2 ≤ dy ≤ 1440`), the southern
sub-call returns with state `st1`, and the northern intersection has as many
nodes as the subject, `Add` ends the process with `exit(0)` in that very
state: no call on the northern half, no exception. The state `st1` is the
one after the southern half was chopped: it comes after the entry of the
southern sub-call, and every list of the map has only grown. -/
theorem Add_exits_on_equal_node_count (E : Externals B) [DecidableEq B] (fuel : Nat)
    (subject : tgPolygon) (type : String) (st st1 : Chopper B)
    (h0 : subject.Contours ≠ 0) (h1 : cornerMin E subject ≠ cornerMax E subject)
    (hx : (gridSpan E subject).1 ≤ 2880) (hy : (gridSpan E subject).2 ≤ 1440)
    (h2 : 2 ≤ (gridSpan E subject).2)
    (hs : Add E fuel (bottomClip E subject) type (checked E subject type st) =
      Outcome.returned st1)
    (hn : (topClip E subject).TotalNodes = subject.TotalNodes) :
    Add E (fuel + 1) subject type st = Outcome.exited st1 0 ∧
    Grows st st1 ∧
    ∃ l, st1.trace = st.trace ++
      [Event.add subject type, Event.sanity (gridSpan E subject).1 (gridSpan E subject).2] ++
      Event.add (bottomClip E subject) type :: l := by
  refine ⟨?_, ?_, ?_⟩
  · rw [Add_of_split E fuel subject type st h0 h1 (by omega) (by omega), hs]
    simp only
    rw [if_pos hn]
  · exact (checked_grows E subject type st).grows_trans
      (Add_grows E fuel _ _ _ st1 (by rw [hs]; rfl))
  · obtain ⟨l, hl⟩ := Add_trace E fuel _ _ _ st1 (by rw [hs]; rfl)
    exact ⟨l, by rw [hl, checked_trace]⟩

theorem Add_exits_on_equal_node_count_witness :
    Ref.tallRectangle.Contours ≠ 0 ∧
    gridSpan Ref.externals Ref.tallRectangle = (0, 2) ∧
    (topClip Ref.externals Ref.tallRectangle).TotalNodes = Ref.tallRectangle.TotalNodes ∧
    Add Ref.externals 2 Ref.tallRectangle "Grass" Ref.fresh =
      Outcome.exited
        (leafClips Ref.externals (bottomClip Ref.externals Ref.tallRectangle) "Grass"
          (checked Ref.externals (bottomClip Ref.externals Ref.tallRectangle) "Grass"
            (checked Ref.externals Ref.tallRectangle "Grass" Ref.fresh))) 0 ∧
    Grows Ref.fresh
      (leafClips Ref.externals (bottomClip Ref.externals Ref.tallRectangle) "Grass"
        (checked Ref.externals (bottomClip Ref.externals Ref.tallRectangle) "Grass"
          (checked Ref.externals Ref.tallRectangle "Grass" Ref.fresh))) ∧
    ∃ l, (leafClips Ref.externals (bottomClip Ref.externals Ref.tallRectangle) "Grass"
        (checked Ref.externals (bottomClip Ref.externals Ref.tallRectangle) "Grass"
          (checked Ref.externals Ref.tallRectangle "Grass" Ref.fresh))).trace =
      Ref.fresh.trace ++
        [Event.add Ref.tallRectangle "Grass",
          Event.sanity (gridSpan Ref.externals Ref.tallRectangle).1
            (gridSpan Ref.externals Ref.tallRectangle).2] ++
        Event.add (bottomClip Ref.externals Ref.tallRectangle) "Grass" :: l :=
  ⟨by decide, by decide!, by decide!,
    Add_exits_on_equal_node_count Ref.externals 1 Ref.tallRectangle "Grass" Ref.fresh _
      (by decide) (by decide!) (by decide!) (by decide!) (by decide!)
      (Add_of_leaf Ref.externals 0 (bottomClip Ref.externals Ref.tallRectangle) "Grass" _
        (by decide!) (by decide!) (by decide!) (by decide!))
      (by decide!)⟩

/-- C30: the three guarded cases of `Clip` cover every bucket centre
latitude and those of `Add` every centre latitude of the split bucket, so
the last branch is never taken: the corners of `Clip` and the clip line of
`Add` are given by the three cases alone, and the clip line lies in
[-89.875, 90]. -/
theorem latitude_cases_exhaustive (c : SGGeod) (span center_lat : ℚ) :
    ((c.lat ≥ -89 ∧ c.lat < 89) ∨ c.lat < -89 ∨ c.lat ≥ 89) ∧
    clipCorners c span =
      (if c.lat ≥ -89 ∧ c.lat < 89 then
        (SGGeod.fromDeg (c.lon - span / 2) (c.lat - SG_HALF_BUCKET_SPAN),
         SGGeod.fromDeg (c.lon + span / 2) (c.lat + SG_HALF_BUCKET_SPAN))
      else if c.lat < -89 then (SGGeod.fromDeg (-90) (-180), SGGeod.fromDeg (-89) 180)
      else (SGGeod.fromDeg 89 (-180), SGGeod.fromDeg 90 180)) ∧
    ((center_lat ≥ -90 + SG_HALF_BUCKET_SPAN ∧ center_lat < 90 - SG_HALF_BUCKET_SPAN) ∨
      center_lat < -89 ∨ center_lat ≥ 89) ∧
    clipLine center_lat =
      (if center_lat ≥ -90 + SG_HALF_BUCKET_SPAN ∧ center_lat < 90 - SG_HALF_BUCKET_SPAN then
        center_lat + SG_HALF_BUCKET_SPAN
      else if center_lat < -89 then -89
      else 90) ∧
    -(719 / 8 : ℚ) ≤ clipLine center_lat ∧ clipLine center_lat ≤ 90 := by
  have hs : SG_HALF_BUCKET_SPAN = 1 / 16 := rfl
  refine ⟨?_, ?_, ?_, ?_, ?_, ?_⟩
  · by_cases h1 : c.lat < -89
    · exact Or.inr (Or.inl h1)
    · by_cases h2 : c.lat < 89
      · exact Or.inl ⟨not_lt.1 h1, h2⟩
      · exact Or.inr (Or.inr (not_lt.1 h2))
  · unfold clipCorners
    by_cases h0 : c.lat ≥ -89 ∧ c.lat < 89
    · rw [if_pos h0, if_pos h0]
    · rw [if_neg h0, if_neg h0]
      by_cases h1 : c.lat < -89
      · rw [if_pos h1, if_pos h1]
      · rw [if_neg h1, if_neg h1]
        have h2 : c.lat ≥ 89 := by
          by_contra h2
          exact h0 ⟨not_lt.1 h1, not_le.1 h2⟩
        rw [if_pos h2]
  · rw [hs]
    by_cases h1 : center_lat < -89
    · exact Or.inr (Or.inl h1)
    · by_cases h2 : center_lat < 89
      · refine Or.inl ⟨?_, ?_⟩
        · have := not_lt.1 h1; linarith
        · linarith
      · exact Or.inr (Or.inr (not_lt.1 h2))
  · unfold clipLine
    by_cases h0 : center_lat ≥ -90 + SG_HALF_BUCKET_SPAN ∧ center_lat < 90 - SG_HALF_BUCKET_SPAN
    · rw [if_pos h0, if_pos h0]
    · rw [if_neg h0, if_neg h0]
      by_cases h1 : center_lat < -89
      · rw [if_pos h1, if_pos h1]
      · rw [if_neg h1, if_neg h1]
        have h2 : center_lat ≥ 89 := by
          by_contra h2
          apply h0
          rw [hs]
          have := not_lt.1 h1
          have := not_le.1 h2
          constructor <;> linarith
        rw [if_pos h2]
  · unfold clipLine
    rw [hs]
    split_ifs with h0 h1 h2
    · linarith [h0.1]
    · norm_num
    · norm_num
    · exfalso
      apply h0
      have := not_lt.1 h1
      have := not_le.1 h2
      constructor <;> linarith
  · unfold clipLine
    rw [hs]
    split_ifs with h0 h1 h2
    · linarith [h0.2]
    · norm_num
    · norm_num
    · exfalso
      apply h0
      have := not_lt.1 h1
      have := not_le.1 h2
      constructor <;> linarith

end tgChopper

namespace tgAccumulator
variable {PS PWH BB : Type}

/-- C28: if the subject lies in the box `bb` and every entry of the
accumulator lies in its stored box, then `GetAccumPolygonSet(bb)`, which is
the union of only the entries whose box overlaps `bb`, subtracted from the
subject gives the same region as the union of all entries subtracted from
it. -/
theorem GetAccumPolygonSet_loses_nothing {R : Type} [GeneralizedBooleanAlgebra R]
    {C : Cgal PS PWH BB} (L : CgalLaws C R) (acc : tgAccumulator PS PWH BB) (subject : PS)
    (bb : BB) (hb : L.region subject ≤ L.regionBox bb)
    (hacc : ∀ e ∈ acc.accum_cgal_list, L.regionPwh e.pwh ≤ L.regionBox e.bbox) :
    L.region (GetAccumPolygonSet C acc bb) =
      joinAll (((acc.accum_cgal_list.filter fun e => C.do_overlap bb e.bbox).map
        fun e => L.regionPwh e.pwh)) ∧
    L.region (C.difference subject (GetAccumPolygonSet C acc bb)) =
      L.region subject \ unionOf L acc := by
  refine ⟨?_, ?_⟩
  · rw [region_GetAccumPolygonSet]
  · rw [L.region_difference, sdiff_GetAccumPolygonSet L acc bb _ hb hacc]

theorem GetAccumPolygonSet_loses_nothing_witness :
    GetAccumPolygonSet Raster.cgal Raster.stocked { lo := (1, 1), hi := (2, 2) } = [(1, 1)] ∧
    Raster.laws.region (GetAccumPolygonSet Raster.cgal Raster.stocked
        { lo := (1, 1), hi := (2, 2) }) =
      joinAll (((Raster.stocked.accum_cgal_list.filter fun e =>
        Raster.cgal.do_overlap { lo := (1, 1), hi := (2, 2) } e.bbox).map
          fun e => Raster.laws.regionPwh e.pwh)) ∧
    Raster.laws.region (Raster.cgal.difference [(1, 1), (2, 1), (2, 2), (1, 2)]
        (GetAccumPolygonSet Raster.cgal Raster.stocked { lo := (1, 1), hi := (2, 2) })) =
      Raster.laws.region [(1, 1), (2, 1), (2, 2), (1, 2)] \
        unionOf Raster.laws Raster.stocked :=
  ⟨by decide!,
    GetAccumPolygonSet_loses_nothing Raster.laws Raster.stocked
      [(1, 1), (2, 1), (2, 2), (1, 2)] { lo := (1, 1), hi := (2, 2) }
      (Raster.laws.toCgal_region Raster.squareB [(1, 1), (2, 1), (2, 2), (1, 2)]
        { lo := (1, 1), hi := (2, 2) } (by decide!)).2
      (AddAccumPolygonSet_boxed Raster.laws _ _
        (AddAccumPolygonSet_boxed Raster.laws Raster.start _
          (fun e he => by cases he)))⟩

end tgAccumulator

namespace Airport

theorem tryMerge_shape (union : TGPolygon → TGPolygon → TGPolygon) (sliver : TGPolygon)
    (polys : List TGSuperPoly) :
    (tryMerge union sliver polys).1.map (fun sp => sp.get_poly.contours) =
      polys.map (fun sp => sp.get_poly.contours) := by
  induction polys with
  | nil => rfl
  | cons sp rest ih =>
    by_cases h : sp.get_poly.contours = (union sp.get_poly sliver).contours
    · have e : tryMerge union sliver (sp :: rest) =
          (sp.set_poly (union sp.get_poly sliver) :: rest, true) := by
        rw [tryMerge]; exact if_pos h
      rw [e, List.map_cons, List.map_cons]
      exact congrArg (fun n => n :: rest.map fun sp => sp.get_poly.contours) h.symm
    · have e : tryMerge union sliver (sp :: rest) =
          (sp :: (tryMerge union sliver rest).1, (tryMerge union sliver rest).2) := by
        rw [tryMerge]; exact if_neg h
      rw [e, List.map_cons, List.map_cons, ih]

theorem mergeContours_shape (union : TGPolygon → TGPolygon → TGPolygon) (slivers : TGPolygon)
    (polys : List TGSuperPoly) :
    (mergeContours union slivers polys).map (fun sp => sp.get_poly.contours) =
      polys.map (fun sp => sp.get_poly.contours) := by
  unfold mergeContours
  generalize slivers.poly = cs
  induction cs generalizing polys with
  | nil => rfl
  | cons c cs ih => rw [List.foldl_cons, ih, tryMerge_shape]

/-- C29: after `merge_slivers(polys, slivers_list)` the candidate list has
the length it had, every candidate `polys[k]` has the contour count it had,
and `slivers_list` is as it was. -/
theorem merge_slivers_keeps_shape (union : TGPolygon → TGPolygon → TGPolygon)
    (polys : List TGSuperPoly) (slivers_list : List TGPolygon) :
    (merge_slivers_refs union polys slivers_list).1.length = polys.length ∧
    (∀ k : Nat, ((merge_slivers_refs union polys slivers_list).1[k]?).map
        (fun sp => sp.get_poly.contours) =
      (polys[k]?).map (fun sp => sp.get_poly.contours)) ∧
    (merge_slivers_refs union polys slivers_list).2 = slivers_list := by
  have h : ∀ (sl : List TGPolygon) (ps : List TGSuperPoly),
      (merge_slivers union ps sl).map (fun sp => sp.get_poly.contours) =
        ps.map (fun sp => sp.get_poly.contours) := by
    intro sl
    induction sl with
    | nil => intro ps; rfl
    | cons s sl ih =>
      intro ps
      unfold merge_slivers at ih ⊢
      rw [List.foldl_cons, ih, mergeContours_shape]
  refine ⟨?_, ?_, rfl⟩
  · have := congrArg List.length (h slivers_list polys)
    simpa using this
  · intro k
    have := congrArg (fun l => l[k]?) (h slivers_list polys)
    simpa [List.getElem?_map] using this

end Airport

namespace TGDem

theorem has_non_zero_elev_eq_false (d : TGDem) (start_x span_x start_y span_y : Int) :
    has_non_zero_elev d start_x span_x start_y span_y = false ↔
      ∀ i j : Int, start_x ≤ i → i < start_x + span_x → start_y ≤ j → j < start_y + span_y →
        d.dem_data i j = 0 := by
  unfold has_non_zero_elev
  rw [List.any_eq_false]
  constructor
  · intro h i j hi hi' hj hj'
    have h1 := h (i - start_x).toNat (List.mem_range.2 (by omega))
    rw [List.any_eq_true] at h1
    by_contra hne
    apply h1
    refine ⟨(j - start_y).toNat, List.mem_range.2 (by omega), ?_⟩
    rw [Int.toNat_of_nonneg (by omega), Int.toNat_of_nonneg (by omega)]
    have e1 : start_x + (i - start_x) = i := by omega
    have e2 : start_y + (j - start_y) = j := by omega
    rw [e1, e2]
    exact decide_eq_true hne
  · intro h i hi
    rw [List.mem_range] at hi
    rw [List.any_eq_true]
    rintro ⟨j, hj, hd⟩
    rw [List.mem_range] at hj
    have := of_decide_eq_true hd
    exact this (h _ _ (by omega) (by omega) (by omega) (by omega))

/-- C25, the code at the failing input: for the bucket from (0°, 0°) to
(0.125°, 0.125°) and the DEM with the ridge, `write_area` computes
`start_x = start_y = 0`, `span_x = span_y = 150` and skips the tile as all
zero, although column `start_x + span_x = 150`, which the write loop would
print as its last line of 151 samples, holds elevation 12. -/
theorem write_area_skips_tile_with_land :
    startX ridge cornerTile = 0 ∧ spanX ridge cornerTile = 150 ∧
    startY ridge cornerTile = 0 ∧ spanY ridge cornerTile = 150 ∧
    write_area ridge (fun _ => true) "work" cornerTile false = AreaResult.skipped ∧
    ridge.dem_data (0 + 150) 0 = 12 ∧
    ((areaSamples ridge 0 150 0 150)[150]?).map (fun l => l.length) = some 151 ∧
    ((areaSamples ridge 0 150 0 150)[150]?).bind (fun l => l[0]?) = some 12 := by
  have hx : startX ridge cornerTile = 0 := by decide!
  have hsx : spanX ridge cornerTile = 150 := by decide!
  have hy : startY ridge cornerTile = 0 := by decide!
  have hsy : spanY ridge cornerTile = 150 := by decide!
  have hz : has_non_zero_elev ridge 0 150 0 150 = false := by
    rw [has_non_zero_elev_eq_false]
    intro i j hi hi' _ _
    show (if i = 150 then (12 : ℚ) else 0) = 0
    rw [if_neg (by omega)]
  refine ⟨hx, hsx, hy, hsy, ?_, by decide!, ?_, ?_⟩
  · unfold write_area
    simp only [hx, hsx, hy, hsy, hz]
    rw [if_neg (by decide!)]
    rfl
  · simp [areaSamples]
  · simp [areaSamples]
    decide!

end TGDem

/-! ### The rows of the two halves of a split (C22, C23) -/

namespace tgChopper
variable {B : Type}

theorem floor_eighths (k : Int) : ⌊8 * ((k : ℚ) / 8)⌋ = k := by
  have : 8 * ((k : ℚ) / 8) = (k : ℚ) := by ring
  rw [this, Int.floor_intCast]

theorem midRow_bounds (dy : Int) (h2 : 2 ≤ dy) :
    0 ≤ midRow dy ∧ midRow dy + 1 < dy ∧
    midRow dy - 0 ≤ dy / 2 ∧ dy - (midRow dy + 1) ≤ dy / 2 := by
  unfold midRow
  rw [Int.tdiv_eq_ediv (by omega : (0 : Int) ≤ dy + 1) (by decide)]
  omega

theorem gridSpan_rows (E : Externals B) (G : RowLaws E) (s : tgPolygon) (hb : InBand E s) :
    (gridSpan E s).2 = ⌊8 * (E.GetBoundingBox s).max.lat⌋ - ⌊8 * (E.GetBoundingBox s).min.lat⌋ := by
  obtain ⟨h1, h2, h3⟩ := hb
  unfold gridSpan cornerMin cornerMax
  exact G.diff_rows _ _ h1 (lt_of_le_of_lt h2 h3) (le_trans h1 h2) h3

theorem splitLine_rows (E : Externals B) (G : RowLaws E) (s : tgPolygon) (hb : InBand E s)
    (h2 : 2 ≤ (gridSpan E s).2) :
    splitLine E s =
      ((⌊8 * (E.GetBoundingBox s).min.lat⌋ + midRow (gridSpan E s).2 + 1 : Int) : ℚ) / 8 := by
  have hg := gridSpan_rows E G s hb
  obtain ⟨h1, h12, h3⟩ := hb
  obtain ⟨m0, m1, -, -⟩ := midRow_bounds _ h2
  have hr1 : ⌊8 * (E.GetBoundingBox s).max.lat⌋ < 712 := by
    rw [Int.floor_lt]; push_cast; linarith
  have hr0 : -712 ≤ ⌊8 * (E.GetBoundingBox s).min.lat⌋ := by
    rw [Int.le_floor]; push_cast; linarith
  have hc := G.offset_center (E.GetBoundingBox s).min.lon (E.GetBoundingBox s).min.lat
    (midRow (gridSpan E s).2) h1 (lt_of_le_of_lt h12 h3) m0 (by omega)
  unfold splitLine
  simp only [Externals.get_center_lat]
  rw [hc]
  have hlo : (-712 : ℚ) ≤ ((⌊8 * (E.GetBoundingBox s).min.lat⌋ + midRow (gridSpan E s).2 : Int) : ℚ) := by
    have : (-712 : Int) ≤ ⌊8 * (E.GetBoundingBox s).min.lat⌋ + midRow (gridSpan E s).2 := by omega
    exact_mod_cast this
  have hhi : ((⌊8 * (E.GetBoundingBox s).min.lat⌋ + midRow (gridSpan E s).2 : Int) : ℚ) ≤ 711 := by
    have : ⌊8 * (E.GetBoundingBox s).min.lat⌋ + midRow (gridSpan E s).2 ≤ (711 : Int) := by omega
    exact_mod_cast this
  unfold clipLine
  have hs : SG_HALF_BUCKET_SPAN = 1 / 16 := rfl
  rw [hs, if_pos (by constructor <;> linarith)]
  push_cast
  ring

/-- The rows of the two halves of a split. -/
theorem split_rows (E : Externals B) (G : RowLaws E) (s : tgPolygon) (hb : InBand E s)
    (h2 : 2 ≤ (gridSpan E s).2) :
    ((bottomClip E s).Contours ≠ 0 → InBand E (bottomClip E s) ∧
      0 ≤ (gridSpan E (bottomClip E s)).2 ∧
      (gridSpan E (bottomClip E s)).2 ≤ midRow (gridSpan E s).2 + 1) ∧
    ((topClip E s).Contours ≠ 0 → InBand E (topClip E s) ∧
      0 ≤ (gridSpan E (topClip E s)).2 ∧
      (gridSpan E (topClip E s)).2 ≤ (gridSpan E s).2 - (midRow (gridSpan E s).2 + 1)) := by
  have hg := gridSpan_rows E G s hb
  have hl := splitLine_rows E G s hb h2
  obtain ⟨h1, h12, h3⟩ := hb
  obtain ⟨m0, m1, -, -⟩ := midRow_bounds _ h2
  have hfl : ⌊8 * splitLine E s⌋ =
      ⌊8 * (E.GetBoundingBox s).min.lat⌋ + midRow (gridSpan E s).2 + 1 := by
    rw [hl, floor_eighths]
  -- the clip line lies strictly above the south edge and not above the north edge
  have hlo : (E.GetBoundingBox s).min.lat ≤ splitLine E s := by
    have := Int.lt_floor_add_one (8 * (E.GetBoundingBox s).min.lat)
    rw [hl]
    have h' : ((⌊8 * (E.GetBoundingBox s).min.lat⌋ : Int) : ℚ) + 1 ≤
        ((⌊8 * (E.GetBoundingBox s).min.lat⌋ + midRow (gridSpan E s).2 + 1 : Int) : ℚ) := by
      have : ⌊8 * (E.GetBoundingBox s).min.lat⌋ + 1 ≤
          ⌊8 * (E.GetBoundingBox s).min.lat⌋ + midRow (gridSpan E s).2 + 1 := by omega
      exact_mod_cast this
    linarith
  have hhi : splitLine E s ≤ (E.GetBoundingBox s).max.lat := by
    have := Int.floor_le (8 * (E.GetBoundingBox s).max.lat)
    rw [hl]
    have h' : ((⌊8 * (E.GetBoundingBox s).min.lat⌋ + midRow (gridSpan E s).2 + 1 : Int) : ℚ) ≤
        ((⌊8 * (E.GetBoundingBox s).max.lat⌋ : Int) : ℚ) := by
      have : ⌊8 * (E.GetBoundingBox s).min.lat⌋ + midRow (gridSpan E s).2 + 1 ≤
          ⌊8 * (E.GetBoundingBox s).max.lat⌋ := by omega
      exact_mod_cast this
    linarith
  have mono : ∀ a b : ℚ, a ≤ b → ⌊8 * a⌋ ≤ ⌊8 * b⌋ := fun a b hab =>
    Int.floor_mono (by linarith)
  constructor
  · intro hne
    have hc : (E.GetBoundingBox s).min.lat ≤ (E.GetBoundingBox (bottomClip E s)).min.lat ∧
        (E.GetBoundingBox (bottomClip E s)).min.lat ≤
          (E.GetBoundingBox (bottomClip E s)).max.lat ∧
        (E.GetBoundingBox (bottomClip E s)).max.lat ≤ splitLine E s :=
      G.clip_box s (SGGeod.fromDeg (-180) (E.GetBoundingBox s).min.lat)
        (SGGeod.fromDeg 180 (splitLine E s)) hlo hne
    obtain ⟨c1, c2, c3⟩ := hc
    have hbS : InBand E (bottomClip E s) :=
      ⟨le_trans h1 c1, c2, lt_of_le_of_lt (le_trans c3 hhi) h3⟩
    refine ⟨hbS, ?_, ?_⟩
    · rw [gridSpan_rows E G _ hbS]
      have := mono _ _ c2
      omega
    · rw [gridSpan_rows E G _ hbS]
      have e1 := mono _ _ c1
      have e2 := mono _ _ c3
      omega
  · intro hne
    have hc : splitLine E s ≤ (E.GetBoundingBox (topClip E s)).min.lat ∧
        (E.GetBoundingBox (topClip E s)).min.lat ≤ (E.GetBoundingBox (topClip E s)).max.lat ∧
        (E.GetBoundingBox (topClip E s)).max.lat ≤ (E.GetBoundingBox s).max.lat :=
      G.clip_box s (SGGeod.fromDeg (-180) (splitLine E s))
        (SGGeod.fromDeg 180 (E.GetBoundingBox s).max.lat) hhi hne
    obtain ⟨c1, c2, c3⟩ := hc
    have hbN : InBand E (topClip E s) :=
      ⟨le_trans (le_trans h1 hlo) c1, c2, lt_of_le_of_lt c3 h3⟩
    refine ⟨hbN, ?_, ?_⟩
    · rw [gridSpan_rows E G _ hbN]
      have := mono _ _ c2
      omega
    · rw [gridSpan_rows E G _ hbN]
      have e1 := mono _ _ c1
      have e2 := mono _ _ c3
      omega

end tgChopper

namespace Ref
open tgChopper

theorem bucketOf_row (p : SGGeod) (h1 : -89 ≤ p.lat) (h2 : p.lat < 89) :
    (bucketOf p).row = ⌊8 * p.lat⌋ := by
  unfold bucketOf
  rw [if_neg (not_le.2 h2), if_neg (not_lt.2 h1)]

theorem get_center_lat_of_row (b : SGBucket) (h1 : -712 ≤ b.row) (h2 : b.row < 712) :
    (get_center b).lat = (b.row : ℚ) / 8 + 1 / 16 := by
  unfold get_center
  rw [if_neg (not_le.2 h2), if_neg (by omega)]
  rfl

theorem row_bounds (lat : ℚ) (h1 : -89 ≤ lat) (h2 : lat < 89) :
    -712 ≤ ⌊8 * lat⌋ ∧ ⌊8 * lat⌋ < 712 := by
  constructor
  · rw [Int.le_floor]; push_cast; linarith
  · rw [Int.floor_lt]; push_cast; linarith

theorem center_lat_bucketOf (p : SGGeod) (h1 : -89 ≤ p.lat) (h2 : p.lat < 89) :
    (get_center (bucketOf p)).lat = ((⌊8 * p.lat⌋ : Int) : ℚ) / 8 + 1 / 16 := by
  have hr := bucketOf_row p h1 h2
  obtain ⟨b1, b2⟩ := row_bounds p.lat h1 h2
  rw [get_center_lat_of_row _ (by omega) (by omega), hr]

theorem sgBucketDiff_rows (p q : SGGeod) (hp1 : -89 ≤ p.lat) (hp2 : p.lat < 89)
    (hq1 : -89 ≤ q.lat) (hq2 : q.lat < 89) :
    (sgBucketDiff (bucketOf p) (bucketOf q)).2 = ⌊8 * q.lat⌋ - ⌊8 * p.lat⌋ := by
  unfold sgBucketDiff
  simp only
  rw [center_lat_bucketOf p hp1 hp2, center_lat_bucketOf q hq1 hq2]
  have : (((⌊8 * q.lat⌋ : Int) : ℚ) / 8 + 1 / 16 - (((⌊8 * p.lat⌋ : Int) : ℚ) / 8 + 1 / 16)) * 8 =
      ((⌊8 * q.lat⌋ - ⌊8 * p.lat⌋ : Int) : ℚ) := by
    push_cast; ring
  rw [this, round_intCast]

theorem sgBucketOffset_center (lon lat : ℚ) (j : Int) (h1 : -89 ≤ lat) (h2 : lat < 89)
    (hj : 0 ≤ j) (hr : ⌊8 * lat⌋ + j < 712) :
    (get_center (sgBucketOffset lon lat 0 j)).lat =
      ((⌊8 * lat⌋ + j : Int) : ℚ) / 8 + 1 / 16 := by
  obtain ⟨b1, b2⟩ := row_bounds lat h1 h2
  unfold sgBucketOffset
  simp only
  have hc : (get_center (bucketOf (SGGeod.fromDeg lon lat))).lat =
      ((⌊8 * lat⌋ : Int) : ℚ) / 8 + 1 / 16 := center_lat_bucketOf (SGGeod.fromDeg lon lat) h1 h2
  rw [hc]
  have hlo : (-712 : ℚ) ≤ ((⌊8 * lat⌋ + j : Int) : ℚ) := by
    have : (-712 : Int) ≤ ⌊8 * lat⌋ + j := by omega
    exact_mod_cast this
  have hhi : ((⌊8 * lat⌋ + j : Int) : ℚ) ≤ 711 := by
    have : ⌊8 * lat⌋ + j ≤ (711 : Int) := by omega
    exact_mod_cast this
  have hcl : ((⌊8 * lat⌋ : Int) : ℚ) / 8 + 1 / 16 + (j : ℚ) / 8 =
      ((⌊8 * lat⌋ + j : Int) : ℚ) / 8 + 1 / 16 := by push_cast; ring
  rw [hcl]
  have hfl : ⌊8 * (((⌊8 * lat⌋ + j : Int) : ℚ) / 8 + 1 / 16)⌋ = ⌊8 * lat⌋ + j := by
    rw [Int.floor_eq_iff]
    constructor <;> linarith
  have e := center_lat_bucketOf
    (SGGeod.fromDeg
      (lon + ((0 : Int) : ℚ) * sg_bucket_span (((⌊8 * lat⌋ + j : Int) : ℚ) / 8 + 1 / 16) -
        360 * (⌊(lon + ((0 : Int) : ℚ) * sg_bucket_span (((⌊8 * lat⌋ + j : Int) : ℚ) / 8 + 1 / 16) + 180) / 360⌋ : ℚ))
      (((⌊8 * lat⌋ + j : Int) : ℚ) / 8 + 1 / 16))
    (by show (-89 : ℚ) ≤ ((⌊8 * lat⌋ + j : Int) : ℚ) / 8 + 1 / 16; linarith)
    (by show ((⌊8 * lat⌋ + j : Int) : ℚ) / 8 + 1 / 16 < 89; linarith)
  rw [e]
  show ((⌊8 * (((⌊8 * lat⌋ + j : Int) : ℚ) / 8 + 1 / 16)⌋ : Int) : ℚ) / 8 + 1 / 16 = _
  rw [hfl]

theorem clipEdge_forall (keep : SGGeod → Bool) (cut : SGGeod → SGGeod → SGGeod)
    (Q : SGGeod → Prop) (ring : List SGGeod)
    (hk : ∀ q ∈ ring, keep q = true → Q q) (hc : ∀ a b, Q (cut a b)) :
    ∀ q ∈ clipEdge keep cut ring, Q q := by
  have step : ∀ (l : List SGGeod) (acc : List SGGeod × SGGeod),
      (∀ q ∈ l, keep q = true → Q q) → (∀ q ∈ acc.1, Q q) →
      ∀ q ∈ (l.foldl (fun (acc : List SGGeod × SGGeod) cur =>
        let prev := acc.2
        let out :=
          if keep cur then
            if keep prev then acc.1 ++ [cur] else acc.1 ++ [cut prev cur, cur]
          else
            if keep prev then acc.1 ++ [cut prev cur] else acc.1
        (out, cur)) acc).1, Q q := by
    intro l
    induction l with
    | nil => intro acc _ ha; exact ha
    | cons cur rest ih =>
      intro acc hl ha
      rw [List.foldl_cons]
      apply ih
      · intro q hq; exact hl q (List.mem_cons_of_mem _ hq)
      · intro q hq
        simp only at hq
        by_cases h1 : keep cur = true
        · have hcur := hl cur (List.mem_cons_self _ _) h1
          by_cases h2 : keep acc.2 = true
          · simp only [h1, h2, if_true, List.mem_append, List.mem_singleton] at hq
            rcases hq with hq | hq
            · exact ha q hq
            · rw [hq]; exact hcur
          · simp only [h1, h2, if_true, List.mem_append, List.mem_cons,
              List.mem_singleton] at hq
            simp only [Bool.false_eq_true, if_false, List.mem_append, List.mem_cons] at hq
            rcases hq with hq | hq | hq | hq
            · exact ha q hq
            · rw [hq]; exact hc _ _
            · rw [hq]; exact hcur
            · cases hq
        · by_cases h2 : keep acc.2 = true
          · simp only [h1, h2, if_true, List.mem_append, List.mem_singleton] at hq
            simp only [Bool.false_eq_true, if_false, List.mem_append, List.mem_singleton] at hq
            rcases hq with hq | hq
            · exact ha q hq
            · rw [hq]; exact hc _ _
          · simp only [h1, h2] at hq
            simp only [Bool.false_eq_true, if_false] at hq
            exact ha q hq
  unfold clipEdge
  cases ring.getLast? with
  | none => intro q hq; cases hq
  | some last =>
    exact step ring ([], last) hk (fun q hq => by cases hq)

theorem clipRing_lat (lo hi : SGGeod) (h : lo.lat ≤ hi.lat) (ring : List SGGeod) :
    ∀ q ∈ clipRing lo hi ring, lo.lat ≤ q.lat ∧ q.lat ≤ hi.lat := by
  unfold clipRing
  simp only
  apply clipEdge_forall _ _ (fun q => lo.lat ≤ q.lat ∧ q.lat ≤ hi.lat)
  · intro q hq hk
    have h3 := clipEdge_forall (fun q => decide (lo.lat ≤ q.lat)) (cutLat lo.lat)
      (fun q => lo.lat ≤ q.lat) _ (fun q _ hk => of_decide_eq_true hk)
      (fun a b => le_refl _) q hq
    exact ⟨h3, of_decide_eq_true hk⟩
  · intro a b
    exact ⟨h, le_refl _⟩

theorem foldl_min_le (l : List SGGeod) (m : ℚ) :
    l.foldl (fun m q => min m q.lat) m ≤ m := by
  induction l generalizing m with
  | nil => exact le_refl _
  | cons a as ih => exact le_trans (ih _) (min_le_left _ _)

theorem le_foldl_min (l : List SGGeod) (m a : ℚ) (hm : a ≤ m)
    (hl : ∀ q ∈ l, a ≤ q.lat) : a ≤ l.foldl (fun m q => min m q.lat) m := by
  induction l generalizing m with
  | nil => exact hm
  | cons b bs ih =>
    exact ih _ (le_min hm (hl b (List.mem_cons_self _ _)))
      (fun q hq => hl q (List.mem_cons_of_mem _ hq))

theorem le_foldl_max (l : List SGGeod) (m : ℚ) :
    m ≤ l.foldl (fun m q => max m q.lat) m := by
  induction l generalizing m with
  | nil => exact le_refl _
  | cons a as ih => exact le_trans (le_max_left _ _) (ih _)

theorem foldl_max_le (l : List SGGeod) (m a : ℚ) (hm : m ≤ a)
    (hl : ∀ q ∈ l, q.lat ≤ a) : l.foldl (fun m q => max m q.lat) m ≤ a := by
  induction l generalizing m with
  | nil => exact hm
  | cons b bs ih =>
    exact ih _ (max_le hm (hl b (List.mem_cons_self _ _)))
      (fun q hq => hl q (List.mem_cons_of_mem _ hq))

theorem GetBoundingBox_cons (p : tgPolygon) (m : SGGeod) (ms : List SGGeod)
    (hl : p.contours.flatMap (fun c => c.nodes) = m :: ms) :
    GetBoundingBox p =
      { min := SGGeod.fromDeg (ms.foldl (fun m q => min m q.lon) m.lon)
          (ms.foldl (fun m q => min m q.lat) m.lat)
        max := SGGeod.fromDeg (ms.foldl (fun m q => max m q.lon) m.lon)
          (ms.foldl (fun m q => max m q.lat) m.lat) } := by
  unfold GetBoundingBox
  rw [hl]

theorem GetBoundingBox_lat (p : tgPolygon) (a b : ℚ) (n : SGGeod)
    (hn : n ∈ p.contours.flatMap (fun c => c.nodes))
    (h : ∀ q ∈ p.contours.flatMap (fun c => c.nodes), a ≤ q.lat ∧ q.lat ≤ b) :
    a ≤ (GetBoundingBox p).min.lat ∧ (GetBoundingBox p).min.lat ≤ (GetBoundingBox p).max.lat ∧
      (GetBoundingBox p).max.lat ≤ b := by
  cases hl : p.contours.flatMap (fun c => c.nodes) with
  | nil => rw [hl] at hn; cases hn
  | cons m ms =>
    rw [hl] at h
    rw [GetBoundingBox_cons p m ms hl]
    show a ≤ ms.foldl (fun m q => min m q.lat) m.lat ∧
      ms.foldl (fun m q => min m q.lat) m.lat ≤ ms.foldl (fun m q => max m q.lat) m.lat ∧
      ms.foldl (fun m q => max m q.lat) m.lat ≤ b
    refine ⟨?_, ?_, ?_⟩
    · exact le_foldl_min ms m.lat a (h m (List.mem_cons_self _ _)).1
        (fun q hq => (h q (List.mem_cons_of_mem _ hq)).1)
    · exact le_trans (foldl_min_le ms m.lat)
        (le_foldl_max ms m.lat)
    · exact foldl_max_le ms m.lat b (h m (List.mem_cons_self _ _)).2
        (fun q hq => (h q (List.mem_cons_of_mem _ hq)).2)

theorem GetBoundingBox_rectPoly (lo hi : SGGeod) (h : lo.lat ≤ hi.lat) :
    (GetBoundingBox (rectPoly lo hi)).min.lat = lo.lat ∧
    (GetBoundingBox (rectPoly lo hi)).max.lat = hi.lat := by
  simp [GetBoundingBox, rectPoly, tgPolygon.AddNode0, SGGeod.fromDeg, h]

theorem Intersect_box (s : tgPolygon) (lo hi : SGGeod) (h : lo.lat ≤ hi.lat)
    (hne : (Intersect s (rectPoly lo hi)).Contours ≠ 0) :
    lo.lat ≤ (GetBoundingBox (Intersect s (rectPoly lo hi))).min.lat ∧
    (GetBoundingBox (Intersect s (rectPoly lo hi))).min.lat ≤
      (GetBoundingBox (Intersect s (rectPoly lo hi))).max.lat ∧
    (GetBoundingBox (Intersect s (rectPoly lo hi))).max.lat ≤ hi.lat := by
  obtain ⟨e1, e2⟩ := GetBoundingBox_rectPoly lo hi h
  have hall : ∀ q ∈ (Intersect s (rectPoly lo hi)).contours.flatMap (fun c => c.nodes),
      lo.lat ≤ q.lat ∧ q.lat ≤ hi.lat := by
    intro q hq
    rw [List.mem_flatMap] at hq
    obtain ⟨c, hc, hqc⟩ := hq
    unfold Intersect at hc
    simp only [List.mem_filter, List.mem_map] at hc
    obtain ⟨⟨c0, _, hc0⟩, _⟩ := hc
    rw [← hc0] at hqc
    have := clipRing_lat (GetBoundingBox (rectPoly lo hi)).min
      (GetBoundingBox (rectPoly lo hi)).max (by rw [e1, e2]; exact h) c0.nodes q hqc
    rw [e1, e2] at this
    exact this
  -- a polygon with a contour left has a node
  have hex : ∃ n, n ∈ (Intersect s (rectPoly lo hi)).contours.flatMap (fun c => c.nodes) := by
    unfold tgPolygon.Contours at hne
    cases hcs : (Intersect s (rectPoly lo hi)).contours with
    | nil => rw [hcs] at hne; exact absurd rfl hne
    | cons c cs =>
      have hc : c ∈ (Intersect s (rectPoly lo hi)).contours := by rw [hcs]; exact List.mem_cons_self _ _
      have hc' := hc
      unfold Intersect at hc'
      simp only [List.mem_filter, List.mem_map] at hc'
      have ha : area2 c.nodes ≠ 0 := of_decide_eq_true hc'.2
      cases hn : c.nodes with
      | nil => rw [hn] at ha; exact absurd rfl ha
      | cons n ns =>
        refine ⟨n, ?_⟩
        rw [List.mem_flatMap]
        exact ⟨c, by rw [← hcs]; exact hc, by rw [hn]; exact List.mem_cons_self _ _⟩
  obtain ⟨n, hn⟩ := hex
  exact GetBoundingBox_lat _ _ _ n hn hall

/-- The reference grid and clipper obey the laws of the rows. -/
theorem rowLaws : RowLaws externals where
  diff_rows := sgBucketDiff_rows
  offset_center := sgBucketOffset_center
  clip_box := Intersect_box

end Ref

namespace tgChopper
variable {B : Type}

theorem addCalls_append (l₁ l₂ : List (Event B)) :
    addCalls (l₁ ++ l₂) = addCalls l₁ + addCalls l₂ := by
  unfold addCalls
  rw [List.filter_append, List.length_append]

theorem splitCalls_append (l₁ l₂ : List (Event B)) :
    splitCalls (l₁ ++ l₂) = splitCalls l₁ + splitCalls l₂ := by
  unfold splitCalls
  rw [List.filter_append, List.length_append]

theorem addCalls_clips (s : tgPolygon) (t : String) (cells : List B) :
    addCalls (cells.map (Event.clip s t)) = 0 := by
  induction cells with
  | nil => rfl
  | cons b bs ih =>
    unfold addCalls at ih ⊢
    rw [List.map_cons, List.filter_cons_of_neg (by simp)]
    exact ih

theorem splitCalls_clips (s : tgPolygon) (t : String) (cells : List B) :
    splitCalls (cells.map (Event.clip s t)) = 0 := by
  induction cells with
  | nil => rfl
  | cons b bs ih =>
    unfold splitCalls at ih ⊢
    rw [List.map_cons, List.filter_cons_of_neg (by simp)]
    exact ih

theorem addCalls_entry (s : tgPolygon) (t : String) (dx dy : Int) :
    addCalls ([Event.add s t, Event.sanity dx dy] : List (Event B)) = 1 := rfl

theorem splitCalls_entry (s : tgPolygon) (t : String) (dx dy : Int) :
    splitCalls ([Event.add s t, Event.sanity dx dy] : List (Event B)) =
      if ¬ (dx > 2880 ∨ dy > 1440) ∧ ¬ dy ≤ 1 then 1 else 0 := by
  unfold splitCalls
  by_cases h : ¬ (dx > 2880 ∨ dy > 1440) ∧ ¬ dy ≤ 1
  · rw [if_pos h, List.filter_cons_of_neg (by simp), List.filter_cons_of_pos (by simpa using h)]
    rfl
  · rw [if_neg h, List.filter_cons_of_neg (by simp), List.filter_cons_of_neg (by simpa using h)]
    rfl

theorem Ends.ends_mono {o : Outcome (Chopper B)} {st : Chopper B} {a₀ a₁ s₀ s₁ : Nat}
    (h : Ends o st a₀ a₁ s₀ s₁) {b₀ b₁ t₀ t₁ : Nat} (h1 : b₀ ≤ a₀) (h2 : a₁ ≤ b₁)
    (h3 : t₀ ≤ s₀) (h4 : s₁ ≤ t₁) : Ends o st b₀ b₁ t₀ t₁ := by
  obtain ⟨st', l, e1, e2, e3, e4, e5, e6⟩ := h
  exact ⟨st', l, e1, e2, by omega, by omega, by omega, by omega⟩

theorem Ends.ends_intro {o : Outcome (Chopper B)} {st : Chopper B} (st' : Chopper B)
    (l : List (Event B)) (a s : Nat) (h1 : o.state? = some st')
    (h2 : st'.trace = st.trace ++ l) (ha : addCalls l = a) (hs : splitCalls l = s) :
    Ends o st a a s s :=
  ⟨st', l, h1, h2, le_of_eq ha.symm, le_of_eq ha, le_of_eq hs.symm, le_of_eq hs⟩

/-- A call that does not get to the split is one entry and no split. -/
theorem Add_flat (E : Externals B) [DecidableEq B] (s : tgPolygon) (type : String)
    (hflat : s.Contours ≠ 0 → (gridSpan E s).2 ≤ 1) (n : Nat) (st : Chopper B) :
    Ends (Add E (n + 1) s type st) st 1 1 0 0 := by
  by_cases h0 : s.Contours = 0
  · rw [Add_of_empty E n s type st h0]
    exact Ends.ends_intro _ [Event.add s type] 1 0 rfl rfl rfl rfl
  by_cases h1 : cornerMin E s = cornerMax E s
  · rw [Add_of_single E n s type st h0 h1]
    refine Ends.ends_intro _ [Event.add s type, Event.clip s type (cornerMin E s)] 1 0 rfl ?_
      rfl rfl
    rw [Clip_trace]
    simp [Chopper.note]
  by_cases h2 : (gridSpan E s).1 > 2880 ∨ (gridSpan E s).2 > 1440
  · rw [Add_of_ceiling E n s type st h0 h1 h2]
    refine Ends.ends_intro _ [Event.add s type,
      Event.sanity (gridSpan E s).1 (gridSpan E s).2] 1 0 rfl
      (checked_trace E s type st) rfl ?_
    rw [splitCalls_entry, if_neg (fun h => h.1 h2)]
  have h3 := hflat h0
  rw [Add_of_leaf E n s type st h0 h1 h2 h3]
  refine Ends.ends_intro _ ([Event.add s type,
    Event.sanity (gridSpan E s).1 (gridSpan E s).2] ++
    (leafCells E s).map (Event.clip s type)) 1 0 rfl ?_ ?_ ?_
  · rw [leafClips_eq, clipAll_trace, checked_trace, List.append_assoc]
  · rw [addCalls_append, addCalls_clips, addCalls_entry]
  · rw [splitCalls_append, splitCalls_clips, splitCalls_entry, if_neg (fun h => h.2 h3)]

/-- A call that splits: its own entry, then the southern sub-call and, if
that returns and the node counts differ, the northern one. -/
theorem Add_split_ends (E : Externals B) [DecidableEq B] (s : tgPolygon) (type : String)
    (n : Nat) (st : Chopper B) (h0 : s.Contours ≠ 0) (h1 : cornerMin E s ≠ cornerMax E s)
    (h2 : ¬ ((gridSpan E s).1 > 2880 ∨ (gridSpan E s).2 > 1440))
    (h3 : ¬ (gridSpan E s).2 ≤ 1) (a₁ s₁ a₂ s₂ : Nat)
    (hS : Ends (Add E n (bottomClip E s) type (checked E s type st)) (checked E s type st)
      1 a₁ 0 s₁)
    (hN : ∀ st1, Ends (Add E n (topClip E s) type st1) st1 1 a₂ 0 s₂) :
    Ends (Add E (n + 1) s type st) st 2 (1 + a₁ + a₂) 1 (1 + s₁ + s₂) := by
  rw [Add_of_split E n s type st h0 h1 h2 h3]
  obtain ⟨st1, l1, e1, e2, e3, e4, e5, e6⟩ := hS
  have hent : splitCalls ([Event.add s type,
      Event.sanity (gridSpan E s).1 (gridSpan E s).2] : List (Event B)) = 1 := by
    rw [splitCalls_entry, if_pos ⟨h2, h3⟩]
  have hpre : st1.trace = st.trace ++
      ([Event.add s type, Event.sanity (gridSpan E s).1 (gridSpan E s).2] ++ l1) := by
    rw [e2, checked_trace, List.append_assoc]
  have hstop : ∀ o : Outcome (Chopper B), o.state? = some st1 → Ends o st 2 (1 + a₁ + a₂) 1
      (1 + s₁ + s₂) := by
    intro o ho
    refine ⟨st1, _, ho, hpre, ?_, ?_, ?_, ?_⟩
    · rw [addCalls_append, addCalls_entry]; omega
    · rw [addCalls_append, addCalls_entry]; omega
    · rw [splitCalls_append, hent]; omega
    · rw [splitCalls_append, hent]; omega
  cases hb : Add E n (bottomClip E s) type (checked E s type st) with
  | returned st1' =>
    rw [hb] at e1
    simp only [Outcome.state?, Option.some.injEq] at e1
    subst e1
    simp only
    by_cases h4 : (topClip E s).TotalNodes = s.TotalNodes
    · rw [if_pos h4]
      exact hstop _ rfl
    · rw [if_neg h4]
      obtain ⟨st2, l2, f1, f2, f3, f4, f5, f6⟩ := hN st1'
      refine ⟨st2, ([Event.add s type, Event.sanity (gridSpan E s).1 (gridSpan E s).2] ++ l1)
        ++ l2, f1, ?_, ?_, ?_, ?_, ?_⟩
      · rw [f2, hpre, List.append_assoc]
      · rw [addCalls_append, addCalls_append, addCalls_entry]; omega
      · rw [addCalls_append, addCalls_append, addCalls_entry]; omega
      · rw [splitCalls_append, splitCalls_append, hent]; omega
      · rw [splitCalls_append, splitCalls_append, hent]; omega
  | raised st1' msg =>
    rw [hb] at e1
    simp only [Outcome.state?, Option.some.injEq] at e1
    subst e1
    exact hstop _ rfl
  | exited st1' c =>
    rw [hb] at e1
    simp only [Outcome.state?, Option.some.injEq] at e1
    subst e1
    exact hstop _ rfl
  | outOfFuel =>
    rw [hb] at e1
    simp [Outcome.state?] at e1

/-- A call that is empty, in one bucket, or over the ceiling is one entry
and no split. -/
theorem Add_early (E : Externals B) [DecidableEq B] (s : tgPolygon) (type : String)
    (h : s.Contours = 0 ∨ cornerMin E s = cornerMax E s ∨
      ((gridSpan E s).1 > 2880 ∨ (gridSpan E s).2 > 1440)) (n : Nat) (st : Chopper B) :
    Ends (Add E (n + 1) s type st) st 1 1 0 0 := by
  by_cases h0 : s.Contours = 0
  · rw [Add_of_empty E n s type st h0]
    exact Ends.ends_intro _ [Event.add s type] 1 0 rfl rfl rfl rfl
  by_cases h1 : cornerMin E s = cornerMax E s
  · rw [Add_of_single E n s type st h0 h1]
    refine Ends.ends_intro _ [Event.add s type, Event.clip s type (cornerMin E s)] 1 0 rfl ?_
      rfl rfl
    rw [Clip_trace]
    simp [Chopper.note]
  have h2 : (gridSpan E s).1 > 2880 ∨ (gridSpan E s).2 > 1440 := by
    rcases h with h | h | h
    · exact absurd h h0
    · exact absurd h h1
    · exact h
  rw [Add_of_ceiling E n s type st h0 h1 h2]
  refine Ends.ends_intro _ [Event.add s type,
    Event.sanity (gridSpan E s).1 (gridSpan E s).2] 1 0 rfl
    (checked_trace E s type st) rfl ?_
  rw [splitCalls_entry, if_neg (fun h => h.1 h2)]

/-- A call on a polygon of at most two rows between the polar bands. -/
theorem Add_two_rows (E : Externals B) [DecidableEq B] (G : RowLaws E) (s : tgPolygon)
    (type : String) (hs : s.Contours ≠ 0 → InBand E s ∧ (gridSpan E s).2 ≤ 2) (n : Nat)
    (st : Chopper B) : Ends (Add E (n + 2) s type st) st 1 3 0 1 := by
  by_cases he : s.Contours = 0 ∨ cornerMin E s = cornerMax E s ∨
      ((gridSpan E s).1 > 2880 ∨ (gridSpan E s).2 > 1440)
  · exact (Add_early E s type he (n + 1) st).ends_mono (le_refl _) (by omega) (le_refl _)
      (by omega)
  have h0 : s.Contours ≠ 0 := fun h => he (Or.inl h)
  have h1 : cornerMin E s ≠ cornerMax E s := fun h => he (Or.inr (Or.inl h))
  have h2 : ¬ ((gridSpan E s).1 > 2880 ∨ (gridSpan E s).2 > 1440) :=
    fun h => he (Or.inr (Or.inr h))
  by_cases h3 : (gridSpan E s).2 ≤ 1
  · exact (Add_flat E s type (fun _ => h3) (n + 1) st).ends_mono (le_refl _) (by omega)
      (le_refl _) (by omega)
  obtain ⟨hb, h22⟩ := hs h0
  have hdy : (gridSpan E s).2 = 2 := by omega
  have hmid : midRow (gridSpan E s).2 = 0 := by rw [hdy]; decide
  obtain ⟨rS, rN⟩ := split_rows E G s hb (by omega)
  rw [hmid] at rS rN
  rw [hdy] at rN
  have fS : (bottomClip E s).Contours ≠ 0 → (gridSpan E (bottomClip E s)).2 ≤ 1 :=
    fun h => by have := (rS h).2.2; omega
  have fN : (topClip E s).Contours ≠ 0 → (gridSpan E (topClip E s)).2 ≤ 1 :=
    fun h => by have := (rN h).2.2; omega
  exact (Add_split_ends E s type (n + 1) st h0 h1 h2 h3 1 0 1 0
    (Add_flat E _ type fS n _) (fun st1 => Add_flat E _ type fN n st1)).ends_mono
    (by omega) (by omega) (by omega) (by omega)

end tgChopper

/-! ### What the fragments of the leaf fan-out cover (C3) -/

namespace tgChopper
variable {B : Type}
open tgAccumulator

theorem joinAll_map_inf {R : Type} [GeneralizedBooleanAlgebra R] {α : Type} (a : R)
    (f : α → R) (l : List α) :
    joinAll (l.map fun b => a ⊓ f b) = a ⊓ joinAll (l.map f) := by
  induction l with
  | nil => simp [joinAll]
  | cons b bs ih =>
    simp only [joinAll, List.map_cons, List.foldr_cons] at ih ⊢
    rw [ih, inf_sup_left]

theorem joinAll_filter_bot {R : Type} [GeneralizedBooleanAlgebra R] {α : Type}
    (f : α → R) (keep : α → Bool) (l : List α) (h : ∀ b ∈ l, keep b = false → f b = ⊥) :
    joinAll ((l.filter keep).map f) = joinAll (l.map f) := by
  induction l with
  | nil => rfl
  | cons b bs ih =>
    have ih' := ih (fun c hc => h c (List.mem_cons_of_mem _ hc))
    by_cases hk : keep b = true
    · rw [List.filter_cons_of_pos hk]
      simp only [joinAll, List.map_cons, List.foldr_cons] at ih' ⊢
      rw [ih']
    · rw [List.filter_cons_of_neg hk]
      have hb := h b (List.mem_cons_self _ _) (by simpa using hk)
      simp only [joinAll, List.map_cons, List.foldr_cons] at ih' ⊢
      rw [ih', hb, bot_sup_eq]

theorem region_clipResult {R : Type} [GeneralizedBooleanAlgebra R] {E : Externals B}
    (L : RegionLaws E R) (subject : tgPolygon) (b : B) :
    L.region (clipResult E subject b) = L.region subject ⊓ cellBox L b := by
  unfold clipResult cellBox clipBase
  simp only
  split
  · rw [L.region_inherit, L.region_clip]
  · rw [L.region_clip]

theorem region_fragment {R : Type} [GeneralizedBooleanAlgebra R] {E : Externals B}
    (L : RegionLaws E R) (subject : tgPolygon) (type : String) (b : B) :
    L.region (fragment E subject type b) = L.region subject ⊓ cellBox L b := by
  rw [L.region_contours _ _ (fragment_contours E subject type b), region_clipResult]

theorem joinAll_le {R : Type} [GeneralizedBooleanAlgebra R] (l : List R) (x : R)
    (h : ∀ a ∈ l, a ≤ x) : joinAll l ≤ x := by
  induction l with
  | nil => exact bot_le
  | cons a as ih =>
    simp only [joinAll, List.foldr_cons] at ih ⊢
    exact sup_le (h a (List.mem_cons_self _ _)) (ih fun b hb => h b (List.mem_cons_of_mem _ hb))

theorem le_joinAll {R : Type} [GeneralizedBooleanAlgebra R] (l : List R) (a : R)
    (h : a ∈ l) : a ≤ joinAll l := by
  induction l with
  | nil => cases h
  | cons b bs ih =>
    simp only [joinAll, List.foldr_cons] at ih ⊢
    rcases List.mem_cons.1 h with e | e
    · rw [e]; exact le_sup_left
    · exact le_trans (ih e) le_sup_right

/-- The fragments stored under the indices of the fan-out buckets make up
what the fragments of the buckets with a contour make up. -/
theorem joinAll_by_index {R : Type} [GeneralizedBooleanAlgebra R] (E : Externals B)
    (subject : tgPolygon) (type : String) (f : tgPolygon → R) (cells : List B) :
    joinAll (cells.map fun b =>
      joinAll ((fragmentsAt E subject type cells (E.gen_index b)).map f)) =
    joinAll (((cells.filter fun b =>
      decide ((clipResult E subject b).Contours > 0)).map (fragment E subject type)).map f) := by
  apply le_antisymm
  · apply joinAll_le
    intro a ha
    obtain ⟨b, _, rfl⟩ := List.mem_map.1 ha
    apply joinAll_le
    intro a ha
    obtain ⟨fr, hfr, rfl⟩ := List.mem_map.1 ha
    unfold fragmentsAt at hfr
    obtain ⟨c, hc, rfl⟩ := List.mem_map.1 hfr
    obtain ⟨hc1, hc2⟩ := List.mem_filter.1 hc
    apply le_joinAll
    refine List.mem_map.2 ⟨_, List.mem_map.2 ⟨c, List.mem_filter.2 ⟨hc1, ?_⟩, rfl⟩, rfl⟩
    exact decide_eq_true (of_decide_eq_true hc2).1
  · apply joinAll_le
    intro a ha
    obtain ⟨fr, hfr, rfl⟩ := List.mem_map.1 ha
    obtain ⟨c, hc, rfl⟩ := List.mem_map.1 hfr
    obtain ⟨hc1, hc2⟩ := List.mem_filter.1 hc
    refine le_trans ?_ (le_joinAll _ _ (List.mem_map.2 ⟨c, hc1, rfl⟩))
    apply le_joinAll
    refine List.mem_map.2 ⟨_, ?_, rfl⟩
    unfold fragmentsAt
    refine List.mem_map.2 ⟨c, List.mem_filter.2 ⟨hc1, ?_⟩, rfl⟩
    exact decide_eq_true ⟨of_decide_eq_true hc2, rfl⟩

end tgChopper

namespace Ref
open tgChopper tgAccumulator

theorem mem_keepNodes (s clip : tgPolygon) (c : tgContour) :
    c ∈ (keepNodes s clip).contours ↔
      ∃ c0 ∈ s.contours, c = { c0 with nodes := c0.nodes.filter (inside (GetBoundingBox clip)) } ∧
        c0.nodes.filter (inside (GetBoundingBox clip)) ≠ [] := by
  unfold keepNodes
  simp only [List.mem_filter, List.mem_map, decide_eq_true_eq]
  constructor
  · rintro ⟨⟨c0, h0, rfl⟩, hne⟩
    exact ⟨c0, h0, rfl, hne⟩
  · rintro ⟨c0, h0, rfl, hne⟩
    exact ⟨⟨c0, h0, rfl⟩, hne⟩

theorem nodeSet_InheritElevations (r s : tgPolygon) :
    nodeSet (InheritElevations r s) = nodeSet r := by
  ext x
  unfold nodeSet InheritElevations
  simp only [Set.mem_setOf_eq, List.mem_map]
  constructor
  · rintro ⟨c, ⟨c0, h0, rfl⟩, q, hq, rfl⟩
    simp only [List.mem_map] at hq
    obtain ⟨q0, hq0, rfl⟩ := hq
    refine ⟨c0, h0, q0, hq0, ?_⟩
    split <;> rfl
  · rintro ⟨c0, h0, q0, hq0, rfl⟩
    refine ⟨_, ⟨c0, h0, rfl⟩, _, List.mem_map.2 ⟨q0, hq0, rfl⟩, ?_⟩
    split <;> rfl

def cloudLaws : RegionLaws cloud (Set (ℚ × ℚ)) where
  region := nodeSet
  box := boxSet
  region_clip s lo hi := by
    show nodeSet (keepNodes s (rectPoly lo hi)) = nodeSet s ∩ boxSet lo hi
    ext x
    constructor
    · rintro ⟨c, hc, q, hq, rfl⟩
      rw [mem_keepNodes] at hc
      obtain ⟨c0, h0, rfl, _⟩ := hc
      have hq' := List.mem_filter.1 hq
      exact ⟨⟨c0, h0, q, hq'.1, rfl⟩, ⟨q, rfl, hq'.2⟩⟩
    · rintro ⟨⟨c0, h0, q, hq, rfl⟩, ⟨q', hq', hin⟩⟩
      have hin' : inside (GetBoundingBox (rectPoly lo hi)) q = true := by
        have e1 : q.lon = q'.lon := congrArg Prod.fst hq'
        have e2 : q.lat = q'.lat := congrArg Prod.snd hq'
        unfold inside at hin ⊢
        rw [e1, e2]
        exact hin
      have hmem : q ∈ c0.nodes.filter (inside (GetBoundingBox (rectPoly lo hi))) :=
        List.mem_filter.2 ⟨hq, hin'⟩
      refine ⟨_, (mem_keepNodes s _ _).2 ⟨c0, h0, rfl, List.ne_nil_of_mem hmem⟩, q, hmem, rfl⟩
  region_inherit r s := by
    show nodeSet (InheritElevations r s) = nodeSet r
    exact nodeSet_InheritElevations r s
  region_contours p q h := by
    show nodeSet p = nodeSet q
    unfold nodeSet
    rw [h]
  region_none p h := by
    show nodeSet p = ∅
    have : p.contours = [] := List.length_eq_zero.1 h
    unfold nodeSet
    rw [this]
    simp

end Ref

namespace tgChopper
open tgAccumulator

/-- The clipping rectangles of the four fan-out buckets of the corner
triangle hold its three nodes. -/
theorem cloud_cover : Ref.cloudLaws.region Ref.cornerTriangle ≤
    joinAll ((leafCells Ref.cloud Ref.cornerTriangle).map (cellBox Ref.cloudLaws)) := by
  have hcells : leafCells Ref.cloud Ref.cornerTriangle =
      [{ row := 0, col := 0 }, { row := 0, col := 1 }, { row := 1, col := 0 },
        { row := 1, col := 1 }] := by decide!
  rw [hcells]
  intro x hx
  obtain ⟨c, hc, q, hq, rfl⟩ := hx
  have hc' : c = { nodes := [SGGeod.fromDeg (1 / 100) (1 / 100),
      SGGeod.fromDeg (1 / 5) (1 / 100), SGGeod.fromDeg (1 / 100) (1 / 5)] } := by
    simpa [Ref.cornerTriangle, Ref.ring] using hc
  subst hc'
  simp only [List.mem_cons, List.mem_singleton, List.not_mem_nil, or_false] at hq
  simp only [joinAll, List.map_cons, List.map_nil, List.foldr_cons, List.foldr_nil]
  rcases hq with rfl | rfl | rfl
  · exact Or.inl ⟨_, rfl, by decide!⟩
  · exact Or.inr (Or.inl ⟨_, rfl, by decide!⟩)
  · exact Or.inr (Or.inr (Or.inl ⟨_, rfl, by decide!⟩))

end tgChopper

end TerraGear
